import Mathlib

/-!
# Memory-management core of the 32-bit kernel (`08.kernel-mm`)

Shallow embedding of `kernel/lib/ordered_array.c`, `kernel/lib/rand.c`,
`kernel/mem/kheap.c`, `kernel/mem/pmm.c` and `kernel/mem/vmm.c`.

* Machine integers are natural numbers; every operation that can wrap in C is
  written with an explicit reduction modulo `2^32` (or `2^64`).
* Memory is a map from byte addresses to bytes.  The packed block header is
  `magic` (4 bytes, offset 0), `is_hole` (1 byte, offset 4), `size` (4 bytes,
  offset 5); the packed footer is `magic` (offset 0), `header` (offset 4).
  Words are little endian (i386).
* The index storage of the heap, the `0x80000` bytes below the first block, is
  held in the slot array of `ordered_array_t`; the byte memory keeps the
  content that range had at boot.  The heap code reads that range as bytes in
  one place only: `free` looks at the 8 bytes below the block it frees, which
  for the first block are the last two slots of the index storage.  Those two
  slots are written only by an index of more than 131070 entries.
* `ASSERT` is compiled in (no `NDEBUG`): a failed assertion and `PANIC()` are
  the outcome `Res.panic`, which carries the state in which the halt happens.
* Loops whose termination is not evident carry a fuel argument; running out of
  fuel is the separate outcome `Res.nofuel`.
* The bitmap of the physical allocator is a map from byte index to byte.  The
  C array has `128 * 1024` bytes, one bit for each frame number below
  `1048576`; a byte index beyond that stands for the memory behind the array,
  which is zero when the kernel starts.
-/

namespace KernelMM

/-! ## Machine arithmetic -/

/-- Unsigned 32-bit addition. -/
def add32 (a b : Nat) : Nat := (a + b) % 4294967296

/-- Unsigned 32-bit subtraction: the difference when `b ≤ a`, else the
difference wrapped around `2^32`.  Both branches are reduced modulo `2^32`, so
the value is `(a + 2^32 - b) % 2^32` for all `a` and `b`. -/
def sub32 (a b : Nat) : Nat :=
  if b ≤ a then (a - b) % 4294967296 else (a + 4294967296 - b) % 4294967296

/-! ## Byte memory -/

/-- Byte-addressed memory. -/
abbrev Mem := Nat → Nat

/-- Read of one byte (`uint8_t`). -/
def read8 (m : Mem) (a : Nat) : Nat := m (a % 4294967296) % 256

/-- Store of one byte. -/
def write8 (m : Mem) (a v : Nat) : Mem :=
  fun x => if x = a % 4294967296 then v % 256 else m x

/-- Read of a little-endian `uint32_t`. -/
def read32 (m : Mem) (a : Nat) : Nat :=
  read8 m a + 256 * read8 m (a + 1) + 65536 * read8 m (a + 2) + 16777216 * read8 m (a + 3)

/-- Store of a little-endian `uint32_t`. -/
def write32 (m : Mem) (a v : Nat) : Mem :=
  write8 (write8 (write8 (write8 m a v) (a + 1) (v / 256)) (a + 2) (v / 65536))
    (a + 3) (v / 16777216)

/-! ## Constants (`kheap.h`, `pmm.h`, `kheap.c`) -/

def PAGE_SIZE : Nat := 4096
def KHEAP_START : Nat := 0xC0C00000
def KHEAP_MIN_SIZE : Nat := 0x300000
def KHEAP_MAX : Nat := 0xE0000000
def KHEAP_INDEX_NUM : Nat := 0x20000
def KHEAP_MAGIC : Nat := 0x12345678
def HEADER_SIZE : Nat := 9
def FOOTER_SIZE : Nat := 8
def BLOCK_META_SIZE : Nat := 17
def IS_HOLE : Nat := 1
def NOT_HOLE : Nat := 0
/-- The size of `type_t` (a pointer) on the 32-bit target. -/
def SIZEOF_TYPE_T : Nat := 4

/-! ## Block header and footer accessors -/

def header_magic (m : Mem) (h : Nat) : Nat := read32 m h
def header_is_hole (m : Mem) (h : Nat) : Nat := read8 m (add32 h 4)
def header_size (m : Mem) (h : Nat) : Nat := read32 m (add32 h 5)
def footer_magic (m : Mem) (f : Nat) : Nat := read32 m f
def footer_header (m : Mem) (f : Nat) : Nat := read32 m (add32 f 4)

/-! ## `ordered_array.c` -/

/-- The struct `ordered_array_t`: `array` gives the contents of the slots. -/
structure ordered_array_t where
  array : Nat → Nat
  size : Nat
  max_size : Nat
  comparator : Mem → Nat → Nat → Int

def standard_comparator (_m : Mem) (a b : Nat) : Int :=
  if a < b then -1 else (if a = b then 0 else 1)

def ordered_array_create (array : Nat → Nat) (max_size : Nat)
    (comparator : Mem → Nat → Nat → Int) : ordered_array_t :=
  { array := array, size := 0, max_size := max_size, comparator := comparator }

/-- The `while` loop of `ordered_array_insert`: `n` bounds the remaining steps. -/
def insert_scan (m : Mem) (a : ordered_array_t) (item : Nat) : Nat → Nat → Nat
  | 0, iterator => iterator
  | n + 1, iterator =>
    if iterator < a.size ∧ a.comparator m (a.array iterator) item ≤ 0 then
      insert_scan m a item n (iterator + 1)
    else iterator

/-- The `for` loop of `ordered_array_insert`: `array[i] = array[i - 1]` for
`i` from `iterator + n` down to `iterator + 1`. -/
def shift_up (array : Nat → Nat) (iterator : Nat) : Nat → (Nat → Nat)
  | 0 => array
  | n + 1 =>
    shift_up (fun x => if x = iterator + n + 1 then array (iterator + n) else array x) iterator n

/-- The function `ordered_array_insert`: the new array and the return value. -/
def ordered_array_insert (m : Mem) (a : ordered_array_t) (item : Nat) :
    ordered_array_t × Nat :=
  if a.size ≥ a.max_size then (a, 0)
  else
    let iterator := insert_scan m a item a.size 0
    let shifted := shift_up a.array iterator (a.size - iterator)
    ({ a with array := fun x => if x = iterator then item else shifted x,
              size := a.size + 1 }, 1)

def ordered_array_get (a : ordered_array_t) (i : Nat) : Nat :=
  if i ≥ a.size then 0 else a.array i

/-- The `while` loop shared by the two remove functions:
`array[i] = array[i + 1]` for `n` consecutive `i`. -/
def shift_down (array : Nat → Nat) : Nat → Nat → (Nat → Nat)
  | 0, _ => array
  | n + 1, i => shift_down (fun x => if x = i then array (i + 1) else array x) n (i + 1)

def ordered_array_remove (a : ordered_array_t) (i : Nat) : ordered_array_t × Nat :=
  if i ≥ a.size then (a, 0)
  else ({ a with array := shift_down a.array (a.size - 1 - i) i, size := a.size - 1 }, 1)

/-- The search loop of `ordered_array_remove_element` and
`ordered_array_find_element`: first `i` in `[i, i + n)` with `array[i] == ele`,
else `size`. -/
def find_scan (a : ordered_array_t) (ele : Nat) : Nat → Nat → Nat
  | 0, _ => a.size
  | n + 1, i => if a.array i = ele then i else find_scan a ele n (i + 1)

def ordered_array_find_element (a : ordered_array_t) (ele : Nat) : Nat :=
  find_scan a ele a.size 0

def ordered_array_remove_element (a : ordered_array_t) (ele : Nat) : ordered_array_t × Nat :=
  let index := find_scan a ele a.size 0
  if index = a.size then (a, 0)
  else ({ a with array := shift_down a.array (a.size - 1 - index) index,
                 size := a.size - 1 }, 1)

/-! ## `kheap.c` -/

/-- The struct `kheap_t`. -/
structure kheap_t where
  index : ordered_array_t
  start_address : Nat
  end_address : Nat
  size : Nat
  max_address : Nat
  supervisor : Nat
  readonly : Nat

/-- The state the heap code works on: memory and the static `kheap`. -/
structure KState where
  mem : Mem
  kheap : kheap_t

/-- Outcome of a kernel function over states `σ`: a normal return, the fatal
halt `kernel_panic` (with the state at the halt), or exhausted fuel. -/
inductive Res (σ : Type) (α : Type) where
  | ok (v : α) : Res σ α
  | panic (s : σ) : Res σ α
  | nofuel : Res σ α

def align_to_page (num : Nat) : Nat :=
  if num &&& 0xFFF ≠ 0 then add32 (num &&& 0xFFFFF000) PAGE_SIZE else num

/-- The function `kheap_expand`: `none` is the failed `ASSERT`. -/
def kheap_expand (this : kheap_t) (expand_size : Nat) : Option (kheap_t × Nat) :=
  let expand_size := align_to_page expand_size
  if expand_size ≤ 0 then some (this, 0)
  else
    let new_end := add32 this.end_address expand_size
    if new_end ≤ this.max_address then
      some ({ this with end_address := new_end, size := add32 this.size expand_size },
            expand_size)
    else none

/-- The function `make_block`: `none` is the failed `ASSERT(size > 0)`. -/
def make_block (m : Mem) (start size is_hole : Nat) : Option (Mem × Nat) :=
  if size > 0 then
    let end_ := add32 (add32 start size) BLOCK_META_SIZE
    let m1 := write32 m start KHEAP_MAGIC
    let m2 := write32 m1 (add32 start 5) size
    let m3 := write8 m2 (add32 start 4) is_hole
    let footer := sub32 end_ FOOTER_SIZE
    let m4 := write32 m3 footer KHEAP_MAGIC
    let m5 := write32 m4 (add32 footer 4) start
    some (m5, start)
  else none

def kheap_block_comparator (m : Mem) (x y : Nat) : Int :=
  let size1 := header_size m x
  let size2 := header_size m y
  if size1 < size2 then -1 else (if size1 = size2 then 0 else 1)

/-- The part of `create_kheap` after `start` was moved past the index storage
(lines 101 to 112): the heap structure is filled in, the initial hole is
made and inserted. -/
def create_kheap_at (m : Mem) (index : ordered_array_t)
    (start end_ max supervisor readonly : Nat) : Res KState KState :=
  match make_block m start (sub32 (sub32 end_ start) BLOCK_META_SIZE) IS_HOLE with
  | none =>
    Res.panic ⟨m, { index := index, start_address := start, end_address := end_,
                    size := sub32 end_ start, max_address := max,
                    supervisor := supervisor, readonly := readonly }⟩
  | some (m1, _) =>
    Res.ok ⟨m1, { index := (ordered_array_insert m1 index start).1, start_address := start,
                  end_address := end_, size := sub32 end_ start, max_address := max,
                  supervisor := supervisor, readonly := readonly }⟩

/-- The function `create_kheap`; `array0` is the content of the index storage
before the call. -/
def create_kheap (m : Mem) (array0 : Nat → Nat) (start end_ max supervisor readonly : Nat) :
    Res KState KState :=
  if start &&& 0xFFF ≠ 0 then
    Res.panic ⟨m, { index := ordered_array_create array0 KHEAP_INDEX_NUM kheap_block_comparator,
                    start_address := 0, end_address := 0, size := 0, max_address := 0,
                    supervisor := 0, readonly := 0 }⟩
  else if end_ &&& 0xFFF ≠ 0 then
    Res.panic ⟨m, { index := ordered_array_create array0 KHEAP_INDEX_NUM kheap_block_comparator,
                    start_address := 0, end_address := 0, size := 0, max_address := 0,
                    supervisor := 0, readonly := 0 }⟩
  else
    create_kheap_at m (ordered_array_create array0 KHEAP_INDEX_NUM kheap_block_comparator)
      (add32 start (SIZEOF_TYPE_T * KHEAP_INDEX_NUM)) end_ max supervisor readonly

/-- The inner `while` loop of `find_hole` for a page-aligned request; the
outer `none` means the fuel ran out. -/
def find_hole_page (size start end_ : Nat) : Nat → Nat → Option (Option Nat)
  | 0, _ => none
  | fuel + 1, next_page_align =>
    if add32 next_page_align size ≤ end_ then
      if sub32 next_page_align start > BLOCK_META_SIZE then some (some next_page_align)
      else find_hole_page size start end_ fuel (add32 next_page_align PAGE_SIZE)
    else some none

/-- The `for` loop of `find_hole`, `n` iterations starting at `i`.  The result
is `(iterator, alloc_pos)`. -/
def find_hole_loop (fuel : Nat) (m : Mem) (this : kheap_t) (size page_align : Nat)
    (alloc_pos : Nat) : Nat → Nat → Option (Int × Nat)
  | 0, _ => some (-1, alloc_pos)
  | n + 1, i =>
    let header := ordered_array_get this.index i
    let start := add32 header HEADER_SIZE
    if page_align ≠ 0 then
      let end_ := add32 start (header_size m header)
      match find_hole_page size start end_ fuel (align_to_page start) with
      | none => none
      | some (some p) => some ((i : Int), p)
      | some none => find_hole_loop fuel m this size page_align alloc_pos n (i + 1)
    else if header_size m header ≥ size then some ((i : Int), start)
    else find_hole_loop fuel m this size page_align alloc_pos n (i + 1)

/-- The function `find_hole`; `alloc_pos` is the caller's uninitialised local,
`none` means the fuel ran out. -/
def find_hole (fuel : Nat) (m : Mem) (this : kheap_t) (size page_align alloc_pos : Nat) :
    Option (Int × Nat) :=
  find_hole_loop fuel m this size page_align alloc_pos this.index.size 0

/-- The end of `alloc` (lines 205 to 226): the block at `header`, of payload
`block_size`, becomes the allocated block and what remains behind it a hole. -/
def alloc_place (s2 : KState) (block_size header size alloc_pos : Nat) :
    Res KState (KState × Nat) :=
  if block_size ≥ size then
    let remain_size := sub32 block_size size
    let size := if remain_size ≤ BLOCK_META_SIZE then block_size else size
    let remain_size := if remain_size ≤ BLOCK_META_SIZE then 0 else remain_size
    match make_block s2.mem header size NOT_HOLE with
    | none => Res.panic s2
    | some (m3, _) =>
      let s3 : KState := ⟨m3, s2.kheap⟩
      if remain_size > 0 then
        if remain_size > BLOCK_META_SIZE then
          match make_block m3 (add32 (add32 header BLOCK_META_SIZE) size)
                  (sub32 remain_size BLOCK_META_SIZE) IS_HOLE with
          | none => Res.panic s3
          | some (m4, remain_hole_header) =>
            Res.ok (⟨m4, { s3.kheap with
                      index := (ordered_array_insert m4 s3.kheap.index
                                  remain_hole_header).1 }⟩, alloc_pos)
        else Res.panic s3
      else Res.ok (s3, alloc_pos)
  else Res.panic s2

/-- The part of `alloc` after a hole was found (lines 185 to 226). -/
def alloc_use (s : KState) (size page_align : Nat) (iterator : Int) (alloc_pos : Nat) :
    Res KState (KState × Nat) :=
  let this := s.kheap
  let header := ordered_array_get this.index iterator.toNat
  if header_magic s.mem header ≠ KHEAP_MAGIC then Res.panic s
  else
    let block_size := header_size s.mem header
    let index1 := (ordered_array_remove this.index iterator.toNat).1
    let s1 : KState := ⟨s.mem, { this with index := index1 }⟩
    -- front carve for a page-aligned request
    let carved : Res KState (KState × Nat × Nat) :=
      if page_align ≠ 0 then
        let alloc_block_header := sub32 alloc_pos HEADER_SIZE
        if alloc_block_header > header then
          let cut_block_size := sub32 alloc_block_header header
          if cut_block_size > BLOCK_META_SIZE then
            match make_block s1.mem header (sub32 cut_block_size BLOCK_META_SIZE) IS_HOLE with
            | none => Res.panic s1
            | some (m2, _) =>
              Res.ok (⟨m2, { s1.kheap with
                        index := (ordered_array_insert m2 s1.kheap.index header).1 }⟩,
                      sub32 block_size cut_block_size, alloc_block_header)
          else Res.panic s1
        else Res.ok (s1, block_size, header)
      else Res.ok (s1, block_size, header)
    match carved with
    | Res.panic s => Res.panic s
    | Res.nofuel => Res.nofuel
    | Res.ok (s2, block_size, header) => alloc_place s2 block_size header size alloc_pos

/-- The heap growth step of `alloc` (lines 158 to 179). -/
def alloc_grow (s : KState) (size : Nat) : Res KState KState :=
  let this := s.kheap
  let old_end_address := this.end_address
  match kheap_expand this (add32 size BLOCK_META_SIZE) with
  | none => Res.panic s
  | some (this1, extended_size) =>
    let s1 : KState := ⟨s.mem, this1⟩
    let last_footer := sub32 old_end_address FOOTER_SIZE
    let last_header := footer_header s.mem last_footer
    if header_is_hole s.mem last_header ≠ 0 then
      match make_block s.mem last_header (add32 (header_size s.mem last_header) extended_size)
              IS_HOLE with
      | none => Res.panic s1
      | some (m2, _) =>
        let r := ordered_array_remove_element this1.index last_header
        let s2 : KState := ⟨m2, { this1 with index := r.1 }⟩
        if r.2 ≠ 0 then
          Res.ok ⟨m2, { this1 with index := (ordered_array_insert m2 r.1 last_header).1 }⟩
        else Res.panic s2
    else
      match make_block s.mem old_end_address (sub32 extended_size BLOCK_META_SIZE) IS_HOLE with
      | none => Res.panic s1
      | some (m2, new_last_header) =>
        Res.ok ⟨m2, { this1 with index := (ordered_array_insert m2 this1.index
                                            new_last_header).1 }⟩

/-- The function `alloc`.  Each recursive call of the C function uses one unit
of fuel. -/
def alloc : Nat → KState → Nat → Nat → Res KState (KState × Nat)
  | 0, _, _, _ => Res.nofuel
  | fuel + 1, s, size, page_align =>
    if size > 0 then
      match find_hole (fuel + 1) s.mem s.kheap size page_align 0 with
      | none => Res.nofuel
      | some (iterator, alloc_pos) =>
        if iterator < 0 then
          match alloc_grow s size with
          | Res.ok s1 => alloc fuel s1 size page_align
          | Res.panic s1 => Res.panic s1
          | Res.nofuel => Res.nofuel
        else alloc_use s size page_align iterator alloc_pos
    else Res.panic s

/-- The function `free`. -/
def free (s : KState) (ptr : Nat) : Res KState KState :=
  if ptr = 0 then Res.ok s
  else
    let header := sub32 ptr HEADER_SIZE
    let footer := add32 ptr (header_size s.mem header)
    if header_magic s.mem header ≠ KHEAP_MAGIC then Res.panic s
    else if footer_magic s.mem footer ≠ KHEAP_MAGIC then Res.panic s
    else
      let m1 := write8 s.mem (add32 header 4) 1
      let s1 : KState := ⟨m1, s.kheap⟩
      let right_header := add32 footer FOOTER_SIZE
      -- merge with right
      let merged_right : Res KState KState :=
        if header_magic m1 right_header = KHEAP_MAGIC ∧ header_is_hole m1 right_header ≠ 0 then
          match make_block m1 header
                  (add32 (add32 (header_size m1 header) (header_size m1 right_header))
                    BLOCK_META_SIZE) IS_HOLE with
          | none => Res.panic s1
          | some (m2, _) =>
            let r := ordered_array_remove_element s.kheap.index right_header
            let s2 : KState := ⟨m2, { s.kheap with index := r.1 }⟩
            if r.2 ≠ 0 then Res.ok s2 else Res.panic s2
        else Res.ok s1
      match merged_right with
      | Res.panic s => Res.panic s
      | Res.nofuel => Res.nofuel
      | Res.ok s2 =>
        -- merge with left
        let left_footer := sub32 header FOOTER_SIZE
        let merged_left : Res KState (KState × Nat) :=
          if footer_magic s2.mem left_footer = KHEAP_MAGIC ∧
              header_is_hole s2.mem (footer_header s2.mem left_footer) = 1 then
            let left_header := footer_header s2.mem left_footer
            match make_block s2.mem left_header
                    (add32 (add32 (header_size s2.mem left_header) (header_size s2.mem header))
                      BLOCK_META_SIZE) IS_HOLE with
            | none => Res.panic s2
            | some (m3, _) =>
              let r := ordered_array_remove_element s2.kheap.index left_header
              let s3 : KState := ⟨m3, { s2.kheap with index := r.1 }⟩
              if r.2 ≠ 0 then Res.ok (s3, left_header) else Res.panic s3
          else Res.ok (s2, header)
        match merged_left with
        | Res.panic s => Res.panic s
        | Res.nofuel => Res.nofuel
        | Res.ok (s3, new_hole) =>
          Res.ok ⟨s3.mem, { s3.kheap with
                    index := (ordered_array_insert s3.mem s3.kheap.index new_hole).1 }⟩

/-- The `while` loop of `kheap_validate_print` (the printing has no effect on
the state); the accumulator holds `start`, `hole_num` and `alloc_num`. -/
def validate_loop (s : KState) : Nat → Nat → Nat → Nat → Res KState (Nat × Nat)
  | 0, _, _, _ => Res.nofuel
  | fuel + 1, start, hole_num, alloc_num =>
    if start < s.kheap.end_address then
      let header := start
      if header_magic s.mem header ≠ KHEAP_MAGIC then Res.panic s
      else
        let next := add32 start (add32 (header_size s.mem header) BLOCK_META_SIZE)
        if header_is_hole s.mem header ≠ 0 then
          if ordered_array_find_element s.kheap.index header < s.kheap.index.size then
            if next ≤ s.kheap.end_address then
              validate_loop s fuel next (add32 hole_num 1) alloc_num
            else Res.panic s
          else Res.panic s
        else
          if next ≤ s.kheap.end_address then
            validate_loop s fuel next hole_num (add32 alloc_num 1)
          else Res.panic s
    else Res.ok (hole_num, alloc_num)

/-- The function `kheap_validate_print`: the number of allocated blocks. -/
def kheap_validate_print (fuel : Nat) (s : KState) (_print : Nat) : Res KState Nat :=
  match validate_loop s fuel s.kheap.start_address 0 0 with
  | Res.ok (hole_num, alloc_num) =>
    if hole_num = s.kheap.index.size then Res.ok alloc_num else Res.panic s
  | Res.panic s1 => Res.panic s1
  | Res.nofuel => Res.nofuel

/-- The function `init_kheap`; `m` is the memory and `array0` the content of
the index storage at boot. -/
def init_kheap (m : Mem) (array0 : Nat → Nat) : Res KState KState :=
  create_kheap m array0 KHEAP_START (add32 KHEAP_START KHEAP_MIN_SIZE) KHEAP_MAX 0 0

/-- The function `kmalloc_impl`. -/
def kmalloc_impl (fuel : Nat) (s : KState) (size align : Nat) : Res KState (KState × Nat) :=
  if size = 0 then Res.ok (s, 0)
  else
    match alloc fuel s size align with
    | Res.ok (s1, ptr) => if ptr = 0 then Res.panic s1 else Res.ok (s1, ptr)
    | Res.panic s1 => Res.panic s1
    | Res.nofuel => Res.nofuel

/-- The function `kmalloc` (the cooperative lock has no effect on the state). -/
def kmalloc (fuel : Nat) (s : KState) (size : Nat) : Res KState (KState × Nat) :=
  kmalloc_impl fuel s size 0

/-- The function `kmalloc_aligned`. -/
def kmalloc_aligned (fuel : Nat) (s : KState) (size : Nat) : Res KState (KState × Nat) :=
  kmalloc_impl fuel s size 1

/-- The function `kfree`. -/
def kfree (s : KState) (ptr : Nat) : Res KState KState :=
  if ptr = 0 then Res.ok s else free s ptr

/-! ## `pmm.c` -/

def MAX_BITMAP_SIZE_BYTES : Nat := 128 * 1024
def LOW_MEMORY_SIZE : Nat := 2 * (1024 * 1024)
def BOOT_INFO_MAGIC : Nat := 0x1BADB002

/-- The struct `e820_entry_t` (`addr` and `size` are 64-bit). -/
structure e820_entry_t where
  addr : Nat
  size : Nat
  type : Nat
  acpi : Nat

/-- The struct `kernel_section_info_t`. -/
structure kernel_section_info_t where
  text_start : Nat
  text_end : Nat
  rodata_start : Nat
  rodata_end : Nat
  data_start : Nat
  data_end : Nat
  bss_start : Nat
  bss_end : Nat
  kernel_end : Nat
  kernel_size : Nat
  kernel_phys_base : Nat
  kernel_virt_base : Nat

/-- The struct `boot_info_t`. -/
structure boot_info_t where
  magic : Nat
  e820_count : Nat
  e820_map : Nat → e820_entry_t
  kernel_sections : kernel_section_info_t

/-- The file-scope variables of `pmm.c`; `pmm_bitmap` gives the bytes of the
bitmap by byte index. -/
structure PmmState where
  pmm_bitmap : Nat → Nat
  pmm_bitmap_size_bytes : Nat
  pmm_total_pages : Nat
  pmm_max_ram_page : Nat
  pmm_free_pages : Nat
  pmm_last_alloc_index : Nat

/-- The values of the file-scope variables when the kernel starts. -/
def pmm_static_init : PmmState :=
  { pmm_bitmap := fun _ => 0, pmm_bitmap_size_bytes := 0, pmm_total_pages := 0,
    pmm_max_ram_page := 0, pmm_free_pages := 0, pmm_last_alloc_index := 0 }

def pmm_set_bit (bm : Nat → Nat) (bit : Nat) : Nat → Nat :=
  fun i => if i = bit / 8 then (bm i ||| (1 <<< (bit % 8))) % 256 else bm i

def pmm_clear_bit (bm : Nat → Nat) (bit : Nat) : Nat → Nat :=
  fun i => if i = bit / 8 then (bm i &&& (4294967295 ^^^ (1 <<< (bit % 8)))) % 256 else bm i

def pmm_test_bit (bm : Nat → Nat) (bit : Nat) : Bool :=
  bm (bit / 8) &&& (1 <<< (bit % 8)) != 0

/-- The `for` loop of `pmm_mark_region_used`: `n` pages starting at `p`. -/
def mark_loop : Nat → Nat → PmmState → PmmState
  | 0, _, s => s
  | n + 1, p, s =>
    if !pmm_test_bit s.pmm_bitmap p then
      mark_loop n (p + 1)
        { s with pmm_bitmap := pmm_set_bit s.pmm_bitmap p,
                 pmm_free_pages := sub32 s.pmm_free_pages 1 }
    else mark_loop n (p + 1) s

def pmm_mark_region_used (s : PmmState) (start_paddr size : Nat) : PmmState :=
  if start_paddr / PAGE_SIZE ≥ s.pmm_total_pages then s
  else
    let start_page := (start_paddr / PAGE_SIZE) % 4294967296
    let end_addr := (start_paddr + size) % 18446744073709551616
    let end_page :=
      (min (((end_addr + PAGE_SIZE - 1) % 18446744073709551616) / PAGE_SIZE)
        s.pmm_total_pages) % 4294967296
    mark_loop (end_page - start_page) start_page s

/-- The two loops of `pmm_init` that compute the highest end address; with
`ram_only` only entries of type 1 count. -/
def max_end_loop (map : Nat → e820_entry_t) (ram_only : Bool) : Nat → Nat → Nat → Nat
  | 0, _, acc => acc
  | n + 1, i, acc =>
    let entry := map i
    let entry_end := (entry.addr + entry.size) % 18446744073709551616
    if (!ram_only || entry.type == 1) && decide (entry_end > acc) then
      max_end_loop map ram_only n (i + 1) entry_end
    else max_end_loop map ram_only n (i + 1) acc

/-- The loop of `pmm_init` that marks every entry whose type is not 1. -/
def mark_reserved_loop (map : Nat → e820_entry_t) : Nat → Nat → PmmState → PmmState
  | 0, _, s => s
  | n + 1, i, s =>
    let entry := map i
    if entry.type ≠ 1 then
      mark_reserved_loop map n (i + 1) (pmm_mark_region_used s entry.addr entry.size)
    else mark_reserved_loop map n (i + 1) s

/-- The function `pmm_init`. -/
def pmm_init (s : PmmState) (boot_info : boot_info_t) : Res PmmState PmmState :=
  if boot_info.magic ≠ BOOT_INFO_MAGIC then Res.panic s
  else
    let max_phys_addr := max_end_loop boot_info.e820_map false boot_info.e820_count 0 0
    let max_ram_addr := max_end_loop boot_info.e820_map true boot_info.e820_count 0 0
    let total := (max_phys_addr / PAGE_SIZE) % 4294967296
    let s1 : PmmState :=
      { s with pmm_total_pages := total,
               pmm_max_ram_page := (max_ram_addr / PAGE_SIZE) % 4294967296,
               pmm_bitmap_size_bytes := add32 total 7 / 8 }
    if s1.pmm_bitmap_size_bytes > MAX_BITMAP_SIZE_BYTES then Res.panic s1
    else
      let s2 : PmmState :=
        { s1 with pmm_bitmap := fun i => if i < s1.pmm_bitmap_size_bytes then 0
                                         else s1.pmm_bitmap i,
                  pmm_free_pages := s1.pmm_total_pages }
      let s3 := mark_reserved_loop boot_info.e820_map boot_info.e820_count 0 s2
      let s4 := pmm_mark_region_used s3 boot_info.kernel_sections.kernel_phys_base
                  boot_info.kernel_sections.kernel_size
      Res.ok (pmm_mark_region_used s4 0 LOW_MEMORY_SIZE)

/-- The `do ... while` loop of `pmm_alloc_page`, at most `n` passes. -/
def alloc_scan (start : Nat) : Nat → Nat → PmmState → Res PmmState (PmmState × Nat)
  | 0, _, _ => Res.nofuel
  | n + 1, i, s =>
    if i ≥ LOW_MEMORY_SIZE / PAGE_SIZE ∧ pmm_test_bit s.pmm_bitmap i = false then
      Res.ok ({ s with pmm_bitmap := pmm_set_bit s.pmm_bitmap i,
                       pmm_free_pages := sub32 s.pmm_free_pages 1,
                       pmm_last_alloc_index := i }, (i * PAGE_SIZE) % 4294967296)
    else
      let i1 := (i + 1) % s.pmm_max_ram_page
      if i1 ≠ start then alloc_scan start n i1 s else Res.ok (s, 0)

/-- The function `pmm_alloc_page`.  The scan returns to `start` after at most
`pmm_max_ram_page` passes, which is the fuel given to the loop. -/
def pmm_alloc_page (s : PmmState) : Res PmmState (PmmState × Nat) :=
  if s.pmm_free_pages = 0 ∨ s.pmm_max_ram_page = 0 then Res.ok (s, 0)
  else
    let start := s.pmm_last_alloc_index % s.pmm_max_ram_page
    alloc_scan start s.pmm_max_ram_page start s

/-- The function `pmm_free_page`. -/
def pmm_free_page (s : PmmState) (paddr : Nat) : PmmState :=
  if paddr % PAGE_SIZE ≠ 0 then s
  else
    let page := paddr / PAGE_SIZE
    if page < LOW_MEMORY_SIZE / PAGE_SIZE ∨ page ≥ s.pmm_max_ram_page then s
    else if pmm_test_bit s.pmm_bitmap page = false then s
    else { s with pmm_bitmap := pmm_clear_bit s.pmm_bitmap page,
                  pmm_free_pages := add32 s.pmm_free_pages 1 }

def pmm_get_free_page_count (s : PmmState) : Nat := s.pmm_free_pages

/-! ## `vmm.c`

The paging structures are reached through their fixed virtual addresses: the
page directory at `PAGE_DIR_VIRTUAL` and the page table of directory index `d`
at `PAGE_TABLES_VIRTUAL_ADDR + d * PAGE_SIZE`.  An entry is the bit-field
struct `page_table_entry_t`; the store of entries is a map from the virtual
address of an entry to its value.  Arguments are `uint32_t` values, for which
none of the address computations below wraps. -/

def PAGE_PRESENT : Nat := 1 <<< 0
def PAGE_RW : Nat := 1 <<< 1
def PAGE_USER : Nat := 1 <<< 2
def PAGE_WRITETHROUGH : Nat := 1 <<< 3
def PAGE_CACHE_DISABLE : Nat := 1 <<< 4
def PAGE_DIR_VIRTUAL : Nat := 0xC0701000
def PAGE_TABLES_VIRTUAL_ADDR : Nat := 0xC0400000

/-- The bit-field struct `page_table_entry_t` (also `page_directory_entry_t`). -/
structure page_table_entry_t where
  present : Nat
  rw : Nat
  user : Nat
  writethrough : Nat
  cache_disable : Nat
  accessed : Nat
  dirty : Nat
  pat : Nat
  global : Nat
  avail : Nat
  frame_addr : Nat

/-- The entries of the page directory and the page tables, by virtual address. -/
abbrev PtMem := Nat → page_table_entry_t

/-- The function `get_page`: the address of the page-table entry, `none` for
`NULL`. -/
def get_page (pt : PtMem) (virt_addr : Nat) : Option Nat :=
  let page_dir_idx := virt_addr >>> 22
  let page_tbl_idx := (virt_addr >>> 12) &&& 0x3FF
  let pde := PAGE_DIR_VIRTUAL + 4 * page_dir_idx
  if (pt pde).present = 0 then none
  else
    let page_table_virt := PAGE_TABLES_VIRTUAL_ADDR + page_dir_idx * PAGE_SIZE
    some (page_table_virt + 4 * page_tbl_idx)

/-- The address of the page-directory entry that `get_page` reads. -/
def pde_addr (virt_addr : Nat) : Nat := PAGE_DIR_VIRTUAL + 4 * (virt_addr >>> 22)

/-- The address of the page-table entry that `get_page` returns. -/
def pte_addr (virt_addr : Nat) : Nat :=
  PAGE_TABLES_VIRTUAL_ADDR + (virt_addr >>> 22) * PAGE_SIZE + 4 * ((virt_addr >>> 12) &&& 0x3FF)

/-- The function `vmm_map_page`: the new entries and the returned flag (the
TLB flush has no effect on the entries). -/
def vmm_map_page (pt : PtMem) (virt_addr phys_addr flags : Nat) : PtMem × Bool :=
  match get_page pt virt_addr with
  | none => (pt, false)
  | some page =>
    let e : page_table_entry_t :=
      { pt page with
        frame_addr := (phys_addr >>> 12) % 1048576,
        present := if flags &&& PAGE_PRESENT ≠ 0 then 1 else 0,
        rw := if flags &&& PAGE_RW ≠ 0 then 1 else 0,
        user := if flags &&& PAGE_USER ≠ 0 then 1 else 0,
        writethrough := if flags &&& PAGE_WRITETHROUGH ≠ 0 then 1 else 0,
        cache_disable := if flags &&& PAGE_CACHE_DISABLE ≠ 0 then 1 else 0 }
    (fun a => if a = page then e else pt a, true)

/-- The function `vmm_get_phys_addr`. -/
def vmm_get_phys_addr (pt : PtMem) (virt_addr : Nat) : Nat :=
  match get_page pt virt_addr with
  | none => 0
  | some page =>
    if (pt page).present = 0 then 0
    else add32 (((pt page).frame_addr <<< 12) % 4294967296) (virt_addr &&& 0xFFF)

def KERNEL_LOAD_VIRTUAL_ADDR : Nat := 0xC0800000
def PAGE_KERNEL_FLAGS : Nat := PAGE_PRESENT ||| PAGE_RW

/-- The function `vmm_unmap_page` (the TLB flush has no effect on the entries). -/
def vmm_unmap_page (pt : PtMem) (virt_addr : Nat) : PtMem :=
  match get_page pt virt_addr with
  | none => pt
  | some page =>
    if (pt page).present = 0 then pt
    else fun a => if a = page then ⟨0, 0, 0, 0, 0, 0, 0, 0, 0, 0, 0⟩ else pt a

/-- The state the paging code works on: the physical allocator and the paging
entries. -/
structure VmState where
  pmm : PmmState
  pt : PtMem

/-- The function `vmm_alloc_and_map_page`. -/
def vmm_alloc_and_map_page (st : VmState) (virt_addr flags : Nat) :
    Res VmState (VmState × Bool) :=
  match pmm_alloc_page st.pmm with
  | Res.ok (s1, new_phys_page) =>
    if new_phys_page = 0 then Res.ok (⟨s1, st.pt⟩, false)
    else Res.ok (⟨s1, (vmm_map_page st.pt virt_addr new_phys_page flags).1⟩,
                 (vmm_map_page st.pt virt_addr new_phys_page flags).2)
  | Res.panic s1 => Res.panic ⟨s1, st.pt⟩
  | Res.nofuel => Res.nofuel

/-- The function `vmm_page_fault_handler`; `faulting_addr` is the content of
`CR2`. -/
def vmm_page_fault_handler (st : VmState) (faulting_addr : Nat) : Res VmState VmState :=
  if faulting_addr < KERNEL_LOAD_VIRTUAL_ADDR then Res.panic st
  else
    let aligned_addr := faulting_addr &&& 0xFFFFF000
    match vmm_alloc_and_map_page st aligned_addr PAGE_KERNEL_FLAGS with
    | Res.ok (st1, ok) => if ok = false then Res.panic st1 else Res.ok st1
    | Res.panic st1 => Res.panic st1
    | Res.nofuel => Res.nofuel

/-! ## Observations used in the statements -/

/-- The memory `make_block` leaves behind when `size > 0`. -/
def mb_mem (m : Mem) (start size is_hole : Nat) : Mem :=
  let footer := sub32 (add32 (add32 start size) BLOCK_META_SIZE) FOOTER_SIZE
  write32 (write32 (write8 (write32 (write32 m start KHEAP_MAGIC) (add32 start 5) size)
    (add32 start 4) is_hole) footer KHEAP_MAGIC) (add32 footer 4) start

/-- Kind of an outcome: `0` normal return, `1` fatal halt, `2` out of fuel. -/
def outcome {σ α : Type} : Res σ α → Nat
  | Res.ok _ => 0
  | Res.panic _ => 1
  | Res.nofuel => 2

/-- The value of a normal return. -/
def returned {σ α : Type} : Res σ α → Option α
  | Res.ok v => some v
  | _ => none

/-- Sequencing of two kernel calls on the same kind of state. -/
def andThen {σ α β : Type} (r : Res σ α) (f : α → Res σ β) : Res σ β :=
  match r with
  | Res.ok v => f v
  | Res.panic s => Res.panic s
  | Res.nofuel => Res.nofuel

/-- The pair `(hole_num, alloc_num)` counted by the loop of
`kheap_validate_print`. -/
def validate_counts (fuel : Nat) (s : KState) : Option (Nat × Nat) :=
  returned (validate_loop s fuel s.kheap.start_address 0 0)

/-- A frame the scan of `pmm_alloc_page` accepts. -/
def allocatable (s : PmmState) (f : Nat) : Prop :=
  LOW_MEMORY_SIZE / PAGE_SIZE ≤ f ∧ pmm_test_bit s.pmm_bitmap f = false

/-- Number of set bits among the positions `[0, pmm_total_pages)`. -/
def used_count (s : PmmState) : Nat :=
  ((List.range s.pmm_total_pages).filter (fun p => pmm_test_bit s.pmm_bitmap p)).length

/-- Bitmap conservation: free counter plus used frames is the total. -/
def conserved (s : PmmState) : Bool :=
  s.pmm_free_pages + used_count s == s.pmm_total_pages

/-- Number of free frames in `[512, pmm_max_ram_page)`. -/
def free_in_range (s : PmmState) : Nat :=
  ((List.range s.pmm_max_ram_page).filter
    (fun p => decide (LOW_MEMORY_SIZE / PAGE_SIZE ≤ p) && !pmm_test_bit s.pmm_bitmap p)).length

/-- A call of the physical allocator. -/
inductive PmmOp where
  | alloc : PmmOp
  | free (paddr : Nat) : PmmOp

/-- One call: the new state and, for `pmm_alloc_page`, the returned address. -/
def pmm_step (s : PmmState) : PmmOp → PmmState × Option Nat
  | PmmOp.alloc =>
    match pmm_alloc_page s with
    | Res.ok (s1, a) => (s1, some a)
    | Res.panic s1 => (s1, none)
    | Res.nofuel => (s, none)
  | PmmOp.free paddr => (pmm_free_page s paddr, none)

/-- A sequence of calls: the final state and the addresses returned by the
`pmm_alloc_page` calls, in order. -/
def pmm_run : List PmmOp → PmmState → PmmState × List Nat
  | [], s => (s, [])
  | op :: ops, s =>
    let r := pmm_step s op
    let rest := pmm_run ops r.1
    (rest.1, match r.2 with
             | some a => a :: rest.2
             | none => rest.2)

/-! ## Spec-side checks (from the wording of the invariants) -/

/-- Spec-side check of block contiguity: the walk from `addr` by
`header.size + 17` sees only headers with the magic whose footer, at
`header + 9 + size`, has the magic and points back to the header, and the
walk lands exactly on `end_`. -/
def contiguity_walk (m : Mem) (end_ : Nat) : Nat → Nat → Bool
  | 0, _ => false
  | fuel + 1, addr =>
    if addr = end_ then true
    else if addr > end_ then false
    else
      let size := header_size m addr
      let footer := addr + 9 + size
      header_magic m addr == KHEAP_MAGIC && footer_magic m footer == KHEAP_MAGIC &&
        footer_header m footer == addr && contiguity_walk m end_ fuel (addr + size + 17)

/-- Spec-side linear scan: the headers with `is_hole` set between `addr` and
`end_`. -/
def scan_holes (m : Mem) (end_ : Nat) : Nat → Nat → List Nat
  | 0, _ => []
  | fuel + 1, addr =>
    if addr < end_ then
      let rest := scan_holes m end_ fuel (addr + header_size m addr + 17)
      if header_is_hole m addr ≠ 0 then addr :: rest else rest
    else []

/-- The entries of the hole index, in order. -/
def index_entries (a : ordered_array_t) : List Nat :=
  (List.range a.size).map a.array

/-- Whether a list of headers is ordered by non-decreasing payload size. -/
def sizes_sorted (m : Mem) : List Nat → Bool
  | [] => true
  | [_] => true
  | a :: b :: rest => decide (header_size m a ≤ header_size m b) && sizes_sorted m (b :: rest)

/-- Whether a list has no duplicates. -/
def no_dup : List Nat → Bool
  | [] => true
  | a :: rest => !rest.contains a && no_dup rest

/-- Spec-side check of hole-index consistency: the index entries are, without
duplicates, exactly the holes of the linear scan, ordered by size. -/
def index_consistent (fuel : Nat) (s : KState) : Bool :=
  let idx := index_entries s.kheap.index
  let holes := scan_holes s.mem s.kheap.end_address fuel s.kheap.start_address
  no_dup idx && idx.all (fun h => holes.contains h) && holes.all (fun h => idx.contains h) &&
    sizes_sorted s.mem idx

/-! ## Concrete inputs -/

/-- Zero-filled memory. -/
def zero_mem : Mem := fun _ => 0

/-- Zero-filled index storage. -/
def zero_index : Nat → Nat := fun _ => 0

/-- Boot memory in which the eight bytes below the first block (the last two
slots of the index storage, which `create_kheap` does not clear) hold a stale
footer: the magic and the address `0xC0C8014E`. -/
def stale_mem : Mem :=
  write32 (write32 zero_mem 0xC0C7FFF8 KHEAP_MAGIC) 0xC0C7FFFC 0xC0C8014E

/-- The run `init_kheap`, `ptr1 = kmalloc(100)`, `ptr2 = kmalloc(200)`,
`kfree(ptr1)` on boot memory `m` (the slots of the index storage hold the
words of `m`); the result carries `ptr2`. -/
def free_first_run (m : Mem) : Res KState (KState × Nat) :=
  andThen (init_kheap m (fun i => read32 m (KHEAP_START + 4 * i))) fun s0 =>
  andThen (kmalloc 10 s0 100) fun r1 =>
  andThen (kmalloc 10 r1.1 200) fun r2 =>
  andThen (kfree r2.1 r1.2) fun s3 => Res.ok (s3, r2.2)

/-- The run `free_first_run` followed by `kfree(ptr2)`. -/
def free_both_run (m : Mem) : Res KState KState :=
  andThen (free_first_run m) fun r => kfree r.1 r.2

/-- A heap of one page of data: `create_kheap(0x100000, 0x181000, 0x200000)`
in zero-filled memory. -/
def small_heap : Res KState KState :=
  create_kheap zero_mem zero_index 0x100000 0x181000 0x200000 0 0

/-- The small heap filled by `alloc(4079)`, followed by `alloc(0xFFFFFFEE)`. -/
def wrap_run : Res KState (KState × Nat) :=
  andThen small_heap fun s0 =>
  andThen (alloc 10 s0 4079 0) fun r1 => alloc 10 r1.1 0xFFFFFFEE 0

/-- The call `alloc(0x50000000)` on the heap of `init_kheap`. -/
def big_run : Res KState (KState × Nat) :=
  andThen (init_kheap zero_mem zero_index) fun s0 => alloc 10 s0 0x50000000 0

/-- Kernel image of 512 KiB loaded at physical 1 MiB. -/
def low_kernel : kernel_section_info_t :=
  ⟨0, 0, 0, 0, 0, 0, 0, 0, 0, 0x80000, 0x100000, 0xC0100000⟩

/-- Memory map with usable RAM `[0, 0x204000)` and a reserved region of
`0x202000` bytes at `2^44`. -/
def high_boot : boot_info_t :=
  { magic := BOOT_INFO_MAGIC, e820_count := 2,
    e820_map := fun i =>
      if i = 0 then ⟨0, 0x204000, 1, 0⟩ else ⟨0x100000000000, 0x202000, 2, 0⟩,
    kernel_sections := low_kernel }

/-- Memory map with usable RAM `[0, 0x200000)` and `[0x201000, 0x202000)`;
the frame `0x200000` is reported by no entry. -/
def gap_boot : boot_info_t :=
  { magic := BOOT_INFO_MAGIC, e820_count := 2,
    e820_map := fun i =>
      if i = 0 then ⟨0, 0x200000, 1, 0⟩ else ⟨0x201000, 0x1000, 1, 0⟩,
    kernel_sections := low_kernel }

/-- Memory map with usable RAM `[0, 0x204000)` only. -/
def plain_boot : boot_info_t :=
  { magic := BOOT_INFO_MAGIC, e820_count := 1,
    e820_map := fun _ => ⟨0, 0x204000, 1, 0⟩,
    kernel_sections := low_kernel }

/-- Memory map with usable RAM `[0, 0x204000)` and the kernel image of
`0x2000` bytes at physical `0x200000`. -/
def kernel_boot : boot_info_t :=
  { magic := BOOT_INFO_MAGIC, e820_count := 1,
    e820_map := fun _ => ⟨0, 0x204000, 1, 0⟩,
    kernel_sections := ⟨0, 0, 0, 0, 0, 0, 0, 0, 0, 0x2000, 0x200000, 0xC0800000⟩ }

/-- Spec-side test: frame `f` lies inside an entry of type 1 of the map. -/
def frame_in_ram (b : boot_info_t) (f : Nat) : Bool :=
  (List.range b.e820_count).any fun i =>
    (b.e820_map i).type == 1 && decide ((b.e820_map i).addr ≤ f * PAGE_SIZE) &&
      decide (f * PAGE_SIZE + PAGE_SIZE ≤ (b.e820_map i).addr + (b.e820_map i).size)

/-- Spec-side next fit: the first free frame in cyclic order beginning at the
index after the cursor, wrapping within `[512, pmm_max_ram_page)`. -/
def next_fit_following (s : PmmState) : Option Nat :=
  let lo := LOW_MEMORY_SIZE / PAGE_SIZE
  let n := s.pmm_max_ram_page - lo
  ((List.range n).map (fun k => lo + (s.pmm_last_alloc_index + 1 - lo + k) % n)).find?
    (fun f => !pmm_test_bit s.pmm_bitmap f)

/-- The state after `pmm_init` on the map `b`, then the calls `ops`; with the
addresses returned by the `pmm_alloc_page` calls. -/
def pmm_boot_run (b : boot_info_t) (ops : List PmmOp) : Option (PmmState × List Nat) :=
  (returned (pmm_init pmm_static_init b)).map (pmm_run ops)

/-- The counters of a state: total, max RAM frame, free, cursor. -/
def pmm_counters (s : PmmState) : Nat × Nat × Nat × Nat :=
  (s.pmm_total_pages, s.pmm_max_ram_page, s.pmm_free_pages, s.pmm_last_alloc_index)


/-- The state `pmm_alloc_page` leaves when it hands out frame `f`. -/
def alloc_state (s : PmmState) (f : Nat) : PmmState :=
  { s with pmm_bitmap := pmm_set_bit s.pmm_bitmap f,
           pmm_free_pages := sub32 s.pmm_free_pages 1,
           pmm_last_alloc_index := f }

/-- The `j`-th index the scan of `pmm_alloc_page` visits. -/
def scan_index (s : PmmState) (j : Nat) : Nat :=
  (s.pmm_last_alloc_index % s.pmm_max_ram_page + j) % s.pmm_max_ram_page

/-- An allocator state with the first 512 frames used, frames 512 to 515 free
and the cursor at frame 512. -/
def demo_state : PmmState :=
  { pmm_bitmap := fun i => if i < 64 then 255 else 0, pmm_bitmap_size_bytes := 65,
    pmm_total_pages := 516, pmm_max_ram_page := 516, pmm_free_pages := 4,
    pmm_last_alloc_index := 512 }

/-- A store of paging entries in which every entry is present. -/
def all_present : PtMem := fun _ => ⟨1, 0, 0, 0, 0, 0, 0, 0, 0, 0, 0⟩

/-- A heap state over zero-filled memory with an empty index. -/
def blank_state : KState :=
  ⟨zero_mem, { index := ordered_array_create zero_index KHEAP_INDEX_NUM kheap_block_comparator,
               start_address := 0, end_address := 0, size := 0, max_address := 0,
               supervisor := 0, readonly := 0 }⟩

/-- The state of a normal return, `blank_state` otherwise. -/
def state_of (r : Res KState KState) : KState :=
  match r with
  | Res.ok s => s
  | _ => blank_state

/-- Spec-side sortedness of an ordered array under its comparator: an earlier
element never compares greater than a later one. -/
def sorted_under (m : Mem) (a : ordered_array_t) : Prop :=
  ∀ i j, i < j → j < a.size → a.comparator m (a.array i) (a.array j) ≤ 0

/-- An ordered array holding `1, 5` with room for four elements, under
`standard_comparator`. -/
def demo_array : ordered_array_t :=
  { array := fun i => if i = 0 then 1 else 5, size := 2, max_size := 4,
    comparator := standard_comparator }

/-- Spec-side test for a page-aligned request of `size` bytes: `b` is a page
boundary inside the hole at `header` with `b + size` within the hole's data and
a gap of more than `BLOCK_META_SIZE` bytes between the data start and `b`. -/
def admits (m : Mem) (header size b : Nat) : Prop :=
  b % 4096 = 0 ∧ header + 9 ≤ b ∧ b + size ≤ header + 9 + header_size m header ∧
    17 < b - (header + 9)

/-- A heap of four pages of data, `create_kheap(0x100000, 0x184000, 0x200000)`
in zero-filled memory, after `alloc(4053)`: the remaining hole has its header
at `0x180FE6`, so its data starts 17 bytes below the page boundary `0x181000`. -/
def gap_state : KState :=
  match andThen (create_kheap zero_mem zero_index 0x100000 0x184000 0x200000 0 0)
      (fun s0 => alloc 10 s0 4053 0) with
  | Res.ok r => r.1
  | _ => blank_state

/-- The one-page heap filled by `alloc(4079)`, followed by the growth step of
`alloc` for a request of `0xFFFFFFEE` bytes. -/
def grow_run : Res KState KState :=
  andThen small_heap fun s0 =>
  andThen (alloc 10 s0 4079 0) fun r1 => alloc_grow r1.1 0xFFFFFFEE

/-! ## `rand.c` -/

def rand_a : Nat := 33550336
def rand_c : Nat := 8128
def rand_m : Nat := 0x80000000

/-- The function `rand_seed`: the new value of the static `seed`. -/
def rand_seed (new_seed : Nat) : Nat := new_seed

/-- The function `rand`: the new value of the static `seed` and the returned
value; `tick` is what `getTick()` returns at this call. -/
def rand (tick seed : Nat) : Nat × Nat :=
  let seed := if seed = 0 then rand_seed tick else seed
  let seed := add32 ((seed * rand_a) % 4294967296) rand_c % rand_m
  (seed, seed)

/-- The static `seed` after `n` calls of `rand`, beginning with `seed`;
`tick k` is what `getTick()` would return during call `k + 1`. -/
def seed_after (tick : Nat → Nat) (seed : Nat) : Nat → Nat
  | 0 => seed
  | n + 1 => (rand (tick n) (seed_after tick seed n)).1

/-- The value returned by call `n + 1` of `rand`. -/
def rand_value (tick : Nat → Nat) (seed : Nat) (n : Nat) : Nat :=
  (rand (tick n) (seed_after tick seed n)).2

/-- A store of paging entries in which no entry is present. -/
def no_tables : PtMem := fun _ => ⟨0, 0, 0, 0, 0, 0, 0, 0, 0, 0, 0⟩

/-- The run `init_kheap`, `ptr1 = kmalloc(100)`, `ptr2 = kmalloc(200)` on boot
memory `m`; the result carries `ptr1` and `ptr2`. -/
def two_blocks_run (m : Mem) : Res KState (KState × Nat × Nat) :=
  andThen (init_kheap m (fun i => read32 m (KHEAP_START + 4 * i))) fun s0 =>
  andThen (kmalloc 10 s0 100) fun r1 =>
  andThen (kmalloc 10 r1.1 200) fun r2 => Res.ok (r2.1, r1.2, r2.2)

/-- Boot memory in which the eight bytes below the first block hold a stale
footer: the magic and the address `0xC0C800EA`. -/
def stale_mem_third : Mem :=
  write32 (write32 zero_mem 0xC0C7FFF8 KHEAP_MAGIC) 0xC0C7FFFC 0xC0C800EA

/-- The run `init_kheap`, four times `kmalloc(100)` giving `a`, `b`, `p`, `c`,
then `kfree(p)` and `kfree(a)`, on boot memory `m`. -/
def four_blocks_run (m : Mem) : Res KState KState :=
  andThen (init_kheap m (fun i => read32 m (KHEAP_START + 4 * i))) fun s0 =>
  andThen (kmalloc 10 s0 100) fun ra =>
  andThen (kmalloc 10 ra.1 100) fun rb =>
  andThen (kmalloc 10 rb.1 100) fun rp =>
  andThen (kmalloc 10 rp.1 100) fun rc =>
  andThen (kfree rc.1 rp.2) fun s5 => kfree s5 ra.2

/-- Spec-side linear walk: the blocks between `addr` and `end_`, each with its
header address, payload size and hole flag. -/
def walk_blocks (m : Mem) (end_ : Nat) : Nat → Nat → List (Nat × Nat × Nat)
  | 0, _ => []
  | fuel + 1, addr =>
    if addr < end_ then
      (addr, header_size m addr, header_is_hole m addr) ::
        walk_blocks m end_ fuel (addr + header_size m addr + 17)
    else []

/-- Spec-side check: some hole of the list is immediately followed by a hole. -/
def adjacent_holes : List (Nat × Nat × Nat) → Bool
  | a :: b :: rest => (a.2.2 != 0 && b.2.2 != 0) || adjacent_holes (b :: rest)
  | _ => false

/-- A heap state whose index holds exactly the hole `H` of payload `S`, which
is the last block of the heap: its header and its footer, at
`end_address - 8`, are in place. -/
def last_hole_only (s : KState) (H S : Nat) : Prop :=
  s.kheap.index.size = 1 ∧ s.kheap.index.array 0 = H ∧ 0 < s.kheap.index.max_size ∧
    s.kheap.end_address = H + S + 17 ∧ header_size s.mem H = S ∧
    header_is_hole s.mem H = 1 ∧ footer_header s.mem (H + S + 9) = H

/-- Spec-side linear walk of the heap: the headers met from `addr` on, each
block followed by the one at `addr + size + 17` (a 32-bit address); `none`
when a header without the magic is met, when the walk passes `end_` instead
of ending exactly there, or when the fuel runs out. -/
def heap_walk (m : Mem) (end_ : Nat) : Nat → Nat → Option (List Nat)
  | 0, _ => none
  | fuel + 1, addr =>
    if addr = end_ then some []
    else if addr > end_ then none
    else if header_magic m addr = KHEAP_MAGIC then
      (heap_walk m end_ fuel ((addr + header_size m addr + 17) % 4294967296)).map
        (fun l => addr :: l)
    else none

/-- The headers of a list that are flagged as holes. -/
def walk_holes (m : Mem) (l : List Nat) : List Nat :=
  l.filter (fun h => header_is_hole m h != 0)

/-- The headers of a list that are not flagged as holes. -/
def walk_allocs (m : Mem) (l : List Nat) : List Nat :=
  l.filter (fun h => header_is_hole m h == 0)

/-- The heap of `init_kheap` in zero-filled memory after `p = kmalloc(0x500000)`
and `kfree(p)`: the heap has grown and is one hole again. -/
def grown_heap : Res KState KState :=
  andThen (init_kheap zero_mem zero_index) fun s0 =>
  andThen (kmalloc 10 s0 0x500000) fun r0 => kfree r0.1 r0.2

/-- The calls `kmalloc(1)`, `n` times; the result carries the returned
pointers in the order of the calls. -/
def kmalloc_ones (fuel : Nat) : Nat → KState → Res KState (KState × List Nat)
  | 0, s => Res.ok (s, [])
  | n + 1, s =>
    andThen (kmalloc_ones fuel n s) fun r =>
    andThen (kmalloc fuel r.1 1) fun q => Res.ok (q.1, r.2 ++ [q.2])

/-- The calls `kfree(ptrs[1])`, `kfree(ptrs[3])`, ..., `kfree(ptrs[2 j - 1])`:
every second pointer of the list is freed. -/
def kfree_odd : Nat → KState → List Nat → Res KState KState
  | 0, s, _ => Res.ok s
  | j + 1, s, ptrs => andThen (kfree_odd j s ptrs) fun s1 => kfree s1 (ptrs.getD (2 * j + 1) 0)

/-- The run that fills the hole index: on the grown heap, 262145 calls
`kmalloc(1)`, then `kfree` of every second returned pointer, 131072 calls. -/
def overflow_run : Res KState KState :=
  andThen grown_heap fun s1 =>
  andThen (kmalloc_ones 10 262145 s1) fun r => kfree_odd 131072 r.1 r.2

/-- A block of payload 1 at `a`: header magic and size, footer magic and back
pointer. -/
def unit_block (m : Mem) (a : Nat) : Prop :=
  header_magic m a = KHEAP_MAGIC ∧ header_size m a = 1 ∧
    footer_magic m (a + 10) = KHEAP_MAGIC ∧ footer_header m (a + 10) = a

/-- The heap `[ST, E)` after `k` allocations of one byte: `k` allocated
blocks of 18 bytes followed by the only hole, which reaches the heap end. -/
def filled (s : KState) (ST E k : Nat) : Prop :=
  s.kheap.index.size = 1 ∧ s.kheap.index.array 0 = ST + 18 * k ∧
    s.kheap.index.max_size = KHEAP_INDEX_NUM ∧
    s.kheap.start_address = ST ∧ s.kheap.end_address = E ∧
    header_magic s.mem (ST + 18 * k) = KHEAP_MAGIC ∧
    header_size s.mem (ST + 18 * k) + (ST + 18 * k) + 17 = E ∧
    ∀ i, i < k → unit_block s.mem (ST + 18 * i) ∧ header_is_hole s.mem (ST + 18 * i) = 0

/-- The heap of `n` blocks of 18 bytes at `ST` after the blocks
`1, 3, ..., 2 j - 1` were freed: these are flagged as holes, the others are
not, and the index holds `1 + j` entries, each the hole behind the `n` blocks
or one of the freed blocks. -/
def thinned (s : KState) (ST E n j : Nat) : Prop :=
  s.kheap.index.size = 1 + j ∧ s.kheap.index.max_size = KHEAP_INDEX_NUM ∧
    s.kheap.start_address = ST ∧ s.kheap.end_address = E ∧
    (∀ i, i < s.kheap.index.size → s.kheap.index.array i = ST + 18 * n ∨
      ∃ t, t < j ∧ s.kheap.index.array i = ST + 18 * (2 * t + 1)) ∧
    ∀ i, i < n → unit_block s.mem (ST + 18 * i) ∧
      header_is_hole s.mem (ST + 18 * i) = (if i % 2 = 1 ∧ i < 2 * j then 1 else 0)

/-- A store of paging entries in which every entry of the page directory is
present and no entry of a page table is: every page table exists, no page is
mapped. -/
def dir_only : PtMem := fun e =>
  if PAGE_DIR_VIRTUAL ≤ e ∧ e < PAGE_DIR_VIRTUAL + 4096 then ⟨1, 0, 0, 0, 0, 0, 0, 0, 0, 0, 0⟩
  else ⟨0, 0, 0, 0, 0, 0, 0, 0, 0, 0, 0⟩

/-- The run `init_kheap`, `kmalloc(0xFFD7EFEF)`, `kmalloc(0x27FFEF)` in
zero-filled memory. -/
def wrapped_end_run : Res KState KState :=
  andThen (init_kheap zero_mem zero_index) fun s0 =>
  andThen (kmalloc 10 s0 0xFFD7EFEF) fun r1 =>
  andThen (kmalloc 10 r1.1 0x27FFEF) fun r2 => Res.ok r2.1

/-- The one-page heap after `a = alloc(100)`, `b = alloc(10)`, `c = alloc(200)`,
`d = alloc(10)`, `free(a)`, `free(c)`: three holes of payload 100, 200 and
3691. -/
def three_holes : KState :=
  state_of (
    andThen small_heap fun s0 =>
    andThen (alloc 10 s0 100 0) fun ra =>
    andThen (alloc 10 ra.1 10 0) fun rb =>
    andThen (alloc 10 rb.1 200 0) fun rc =>
    andThen (alloc 10 rc.1 10 0) fun rd =>
    andThen (free rd.1 ra.2) fun s5 => free s5 rc.2)

/-- Memory map with usable RAM `[0, 8 GiB)` and a reserved region of
`0x202000` bytes at `2^44`. -/
def wide_boot : boot_info_t :=
  { magic := BOOT_INFO_MAGIC, e820_count := 2,
    e820_map := fun i =>
      if i = 0 then ⟨0, 0x200000000, 1, 0⟩ else ⟨0x100000000000, 0x202000, 2, 0⟩,
    kernel_sections := low_kernel }

/-- The allocator state after `pmm_init` on the map `wide_boot`. -/
def wide_init : PmmState :=
  match pmm_init pmm_static_init wide_boot with
  | Res.ok s => s
  | _ => pmm_static_init

/-- The state after two calls of `pmm_alloc_page`. -/
def two_allocs (s : PmmState) : PmmState :=
  (pmm_step (pmm_step s PmmOp.alloc).1 PmmOp.alloc).1

/-- The state after `pmm_init` on `wide_boot` and two calls of
`pmm_alloc_page` (they return `0x200000` and `0x201000`). -/
def climb_start : PmmState := two_allocs wide_init

/-- After `climb_start`, `j` times the pair `pmm_free_page(A)`,
`pmm_alloc_page()`, where in pair `i` (from 0) `A = (512 + i) * 4096` is the
address returned by the allocation before the last one. -/
def climb : Nat → PmmState
  | 0 => climb_start
  | j + 1 => (pmm_step (pmm_free_page (climb j) ((512 + j) * PAGE_SIZE)) PmmOp.alloc).1

/-- The address returned by the `pmm_alloc_page` of pair `j` of `climb`. -/
def climb_returned (j : Nat) : Option Nat :=
  (pmm_step (pmm_free_page (climb j) ((512 + j) * PAGE_SIZE)) PmmOp.alloc).2

/-- Shape of the allocator state during `climb`: 2097152 frames to scan, free
counter `n`, cursor `c`, and the used frames are those below 512 and the
frames `lo` to `hi`. -/
def climbed (s : PmmState) (n lo hi c : Nat) : Prop :=
  s.pmm_max_ram_page = 2097152 ∧ s.pmm_free_pages = n ∧ s.pmm_last_alloc_index = c ∧
    ∀ p, pmm_test_bit s.pmm_bitmap p = true ↔ (p < 512 ∨ (lo ≤ p ∧ p ≤ hi))

/-- The state after 1048062 pairs of `climb` (the last allocation returned
`0xFFFFF000`, frame 1048575) and `pmm_free_page(0xFFFFE000)`. -/
def wrap_state : PmmState := pmm_free_page (climb 1048062) (1048574 * PAGE_SIZE)

/-- The state after 1048063 pairs of `climb` and `pmm_free_page(0xFFFFF000)`. -/
def wrap_state_next : PmmState := pmm_free_page (climb 1048063) (1048575 * PAGE_SIZE)


/-! # Theorems -/

/-! ## Machine arithmetic -/

theorem sub32_eq (a b : Nat) : sub32 a b = (a + 4294967296 - b) % 4294967296 := by
  unfold sub32
  split <;> omega

/-! ## Byte memory and `make_block` -/

theorem read8_write8 (m : Mem) (a v b : Nat) :
    read8 (write8 m a v) b =
      if b % 4294967296 = a % 4294967296 then v % 256 else read8 m b := by
  unfold read8 write8
  by_cases h : b % 4294967296 = a % 4294967296
  · simp [h]
  · simp [h]

theorem read8_lt (m : Mem) (a : Nat) : read8 m a < 256 := by
  unfold read8; omega

theorem read32_lt (m : Mem) (a : Nat) : read32 m a < 4294967296 := by
  have h0 := read8_lt m a
  have h1 := read8_lt m (a + 1)
  have h2 := read8_lt m (a + 2)
  have h3 := read8_lt m (a + 3)
  unfold read32; omega

theorem read32_write32_same (m : Mem) (a v : Nat) :
    read32 (write32 m a v) a = v % 4294967296 := by
  unfold read32 write32
  simp only [read8_write8]
  split_ifs <;> omega

/-- Two memories that agree on the four bytes of a word give the same word. -/
theorem read32_congr (m m1 : Mem) (b : Nat)
    (h : ∀ i, i < 4 → m1 ((b + i) % 4294967296) = m ((b + i) % 4294967296)) :
    read32 m1 b = read32 m b := by
  unfold read32 read8
  rw [show m1 (b % 4294967296) = m (b % 4294967296) from h 0 (by omega),
    h 1 (by omega), h 2 (by omega), h 3 (by omega)]

theorem read8_congr (m m1 : Mem) (b : Nat)
    (h : m1 (b % 4294967296) = m (b % 4294967296)) : read8 m1 b = read8 m b := by
  unfold read8; rw [h]

theorem write8_other (m : Mem) (a v x : Nat) (h : x ≠ a % 4294967296) :
    write8 m a v x = m x := by
  unfold write8; rw [if_neg h]

theorem write32_other (m : Mem) (a v x : Nat)
    (h : ∀ i, i < 4 → x ≠ (a + i) % 4294967296) : write32 m a v x = m x := by
  unfold write32
  have h0 : x ≠ a % 4294967296 := by simpa using h 0 (by omega)
  rw [write8_other _ _ _ _ (h 3 (by omega)), write8_other _ _ _ _ (h 2 (by omega)),
    write8_other _ _ _ _ (h 1 (by omega)), write8_other _ _ _ _ h0]

theorem read32_write32_disj (m : Mem) (a v b : Nat) (ha : a + 4 ≤ 4294967296)
    (hb : b + 4 ≤ 4294967296) (h : a + 4 ≤ b ∨ b + 4 ≤ a) :
    read32 (write32 m a v) b = read32 m b := by
  apply read32_congr
  intro i hi
  apply write32_other
  intro j hj
  omega

theorem read32_write8_disj (m : Mem) (a v b : Nat) (ha : a < 4294967296)
    (hb : b + 4 ≤ 4294967296) (h : a < b ∨ b + 4 ≤ a) :
    read32 (write8 m a v) b = read32 m b := by
  apply read32_congr
  intro i hi
  apply write8_other
  omega

theorem read8_write32_disj (m : Mem) (a v b : Nat) (ha : a + 4 ≤ 4294967296)
    (hb : b < 4294967296) (h : b < a ∨ a + 4 ≤ b) :
    read8 (write32 m a v) b = read8 m b := by
  apply read8_congr
  apply write32_other
  intro j hj
  omega

/-! ## What `make_block` writes -/

theorem make_block_eq (m : Mem) (start size is_hole : Nat) (hs : 0 < size) :
    make_block m start size is_hole = some (mb_mem m start size is_hole, start) := by
  unfold make_block mb_mem
  rw [if_pos hs]

theorem make_block_none (m : Mem) (start is_hole : Nat) :
    make_block m start 0 is_hole = none := by
  unfold make_block
  simp

theorem mb_mem_other (m : Mem) (start size is_hole x : Nat)
    (hb : start + size + 17 ≤ 4294967296)
    (h1 : x < start ∨ start + 9 ≤ x)
    (h2 : x < start + 9 + size ∨ start + size + 17 ≤ x) :
    mb_mem m start size is_hole x = m x := by
  unfold mb_mem
  have e1 : sub32 (add32 (add32 start size) BLOCK_META_SIZE) FOOTER_SIZE = start + size + 9 := by
    rw [sub32_eq]
    unfold add32 BLOCK_META_SIZE FOOTER_SIZE; omega
  simp only [e1]
  have e2 : add32 (start + size + 9) 4 = start + size + 13 := by unfold add32; omega
  have e3 : add32 start 5 = start + 5 := by unfold add32; omega
  have e4 : add32 start 4 = start + 4 := by unfold add32; omega
  rw [e2, e3, e4]
  rw [write32_other _ _ _ _ (by intro i hi; omega), write32_other _ _ _ _ (by intro i hi; omega),
    write8_other _ _ _ _ (by omega), write32_other _ _ _ _ (by intro i hi; omega),
    write32_other _ _ _ _ (by intro i hi; omega)]

theorem mb_header_magic (m : Mem) (start size is_hole : Nat) (hs : 0 < size)
    (hb : start + size + 17 ≤ 4294967296) :
    header_magic (mb_mem m start size is_hole) start = KHEAP_MAGIC := by
  unfold header_magic mb_mem
  have e1 : sub32 (add32 (add32 start size) BLOCK_META_SIZE) FOOTER_SIZE = start + size + 9 := by
    rw [sub32_eq]
    unfold add32 BLOCK_META_SIZE FOOTER_SIZE; omega
  simp only [e1]
  have e2 : add32 (start + size + 9) 4 = start + size + 13 := by unfold add32; omega
  have e3 : add32 start 5 = start + 5 := by unfold add32; omega
  have e4 : add32 start 4 = start + 4 := by unfold add32; omega
  rw [e2, e3, e4]
  rw [read32_write32_disj _ _ _ _ (by omega) (by omega) (by omega),
    read32_write32_disj _ _ _ _ (by omega) (by omega) (by omega),
    read32_write8_disj _ _ _ _ (by omega) (by omega) (by omega),
    read32_write32_disj _ _ _ _ (by omega) (by omega) (by omega),
    read32_write32_same]
  rfl

theorem mb_header_size (m : Mem) (start size is_hole : Nat) (hs : 0 < size)
    (hb : start + size + 17 ≤ 4294967296) :
    header_size (mb_mem m start size is_hole) start = size := by
  unfold header_size mb_mem
  have e1 : sub32 (add32 (add32 start size) BLOCK_META_SIZE) FOOTER_SIZE = start + size + 9 := by
    rw [sub32_eq]
    unfold add32 BLOCK_META_SIZE FOOTER_SIZE; omega
  simp only [e1]
  have e2 : add32 (start + size + 9) 4 = start + size + 13 := by unfold add32; omega
  have e3 : add32 start 5 = start + 5 := by unfold add32; omega
  have e4 : add32 start 4 = start + 4 := by unfold add32; omega
  rw [e2, e3, e4]
  rw [read32_write32_disj _ _ _ _ (by omega) (by omega) (by omega),
    read32_write32_disj _ _ _ _ (by omega) (by omega) (by omega),
    read32_write8_disj _ _ _ _ (by omega) (by omega) (by omega),
    read32_write32_same]
  omega

theorem mb_header_is_hole (m : Mem) (start size is_hole : Nat) (hs : 0 < size)
    (hb : start + size + 17 ≤ 4294967296) :
    header_is_hole (mb_mem m start size is_hole) start = is_hole % 256 := by
  unfold header_is_hole mb_mem
  have e1 : sub32 (add32 (add32 start size) BLOCK_META_SIZE) FOOTER_SIZE = start + size + 9 := by
    rw [sub32_eq]
    unfold add32 BLOCK_META_SIZE FOOTER_SIZE; omega
  simp only [e1]
  have e2 : add32 (start + size + 9) 4 = start + size + 13 := by unfold add32; omega
  have e3 : add32 start 5 = start + 5 := by unfold add32; omega
  have e4 : add32 start 4 = start + 4 := by unfold add32; omega
  rw [e2, e3, e4]
  rw [read8_write32_disj _ _ _ _ (by omega) (by omega) (by omega),
    read8_write32_disj _ _ _ _ (by omega) (by omega) (by omega),
    read8_write8, if_pos rfl]

theorem mb_footer_magic (m : Mem) (start size is_hole : Nat) (hs : 0 < size)
    (hb : start + size + 17 ≤ 4294967296) :
    footer_magic (mb_mem m start size is_hole) (start + size + 9) = KHEAP_MAGIC := by
  unfold footer_magic mb_mem
  have e1 : sub32 (add32 (add32 start size) BLOCK_META_SIZE) FOOTER_SIZE = start + size + 9 := by
    rw [sub32_eq]
    unfold add32 BLOCK_META_SIZE FOOTER_SIZE; omega
  simp only [e1]
  have e2 : add32 (start + size + 9) 4 = start + size + 13 := by unfold add32; omega
  rw [e2]
  rw [read32_write32_disj _ _ _ _ (by omega) (by omega) (by omega), read32_write32_same]
  rfl

theorem mb_footer_header (m : Mem) (start size is_hole : Nat) (hs : 0 < size)
    (hb : start + size + 17 ≤ 4294967296) :
    footer_header (mb_mem m start size is_hole) (start + size + 9) = start := by
  unfold footer_header mb_mem
  have e1 : sub32 (add32 (add32 start size) BLOCK_META_SIZE) FOOTER_SIZE = start + size + 9 := by
    rw [sub32_eq]
    unfold add32 BLOCK_META_SIZE FOOTER_SIZE; omega
  simp only [e1]
  have e2 : add32 (start + size + 9) 4 = start + size + 13 := by unfold add32; omega
  rw [e2, read32_write32_same]
  omega

theorem insert_into_empty (m : Mem) (array0 : Nat → Nat) (max_size : Nat)
    (cmp : Mem → Nat → Nat → Int) (item : Nat) (h : 0 < max_size) :
    (ordered_array_insert m (ordered_array_create array0 max_size cmp) item).1.size = 1 ∧
    (ordered_array_insert m (ordered_array_create array0 max_size cmp) item).1.max_size
      = max_size ∧
    (ordered_array_insert m (ordered_array_create array0 max_size cmp) item).1.array 0
      = item := by
  unfold ordered_array_insert ordered_array_create
  simp only [ge_iff_le]
  rw [if_neg (by omega)]
  refine ⟨rfl, rfl, ?_⟩
  simp [insert_scan]

theorem and_fff (x : Nat) : x &&& 0xFFF = x % 4096 := by
  have h := Nat.and_pow_two_sub_one_eq_mod x 12
  norm_num at h
  exact h

theorem and_fffff000_mod (x : Nat) : (x &&& 0xFFFFF000) % 4096 = 0 := by
  rw [← and_fff, Nat.and_assoc]
  have : (0xFFFFF000 : Nat) &&& 0xFFF = 0 := by decide
  rw [this]
  simp

theorem align_to_page_mod (x : Nat) : align_to_page x % 4096 = 0 := by
  unfold align_to_page
  split
  · have h := and_fffff000_mod x
    unfold add32 PAGE_SIZE
    omega
  · rename_i h
    rw [and_fff] at h
    simpa using h

theorem find_hole_page_aligned (size start end_ : Nat) :
    ∀ fuel npa p, find_hole_page size start end_ fuel npa = some (some p) →
      npa % 4096 = 0 → p % 4096 = 0 := by
  intro fuel
  induction fuel with
  | zero =>
    intro npa p h
    rw [find_hole_page] at h
    exact Option.noConfusion h
  | succ fuel ih =>
    intro npa p h hn
    rw [find_hole_page] at h
    split at h
    · split at h
      · simp only [Option.some.injEq] at h
        rw [← h]
        exact hn
      · apply ih _ _ h
        unfold add32 PAGE_SIZE
        omega
    · simp at h

theorem find_hole_loop_aligned (fuel : Nat) (m : Mem) (this : kheap_t) (size page_align : Nat)
    (alloc_pos : Nat) (hpa : page_align ≠ 0) :
    ∀ n i it pos, find_hole_loop fuel m this size page_align alloc_pos n i = some (it, pos) →
      0 ≤ it → pos % 4096 = 0 := by
  intro n
  induction n with
  | zero =>
    intro i it pos h hit
    rw [find_hole_loop] at h
    simp only [Option.some.injEq, Prod.mk.injEq] at h
    omega
  | succ n ih =>
    intro i it pos h hit
    rw [find_hole_loop] at h
    simp only [hpa, ne_eq, not_false_eq_true, if_true] at h
    split at h
    · exact Option.noConfusion h
    · rename_i p hp
      simp only [Option.some.injEq, Prod.mk.injEq] at h
      rw [← h.2]
      exact find_hole_page_aligned _ _ _ _ _ _ hp (align_to_page_mod _)
    · exact ih _ _ _ h hit

theorem and_page_mask (x : Nat) (hx : x < 4294967296) : x &&& 0xFFFFF000 = x / 4096 * 4096 := by
  apply Nat.eq_of_testBit_eq
  intro i
  have e1 : (0xFFFFF000 : Nat) = (2 ^ 20 - 1) <<< 12 := by decide
  have e2 : x / 4096 * 4096 = (x >>> 12) <<< 12 := by
    rw [Nat.shiftRight_eq_div_pow, Nat.shiftLeft_eq]
  rw [e2, Nat.testBit_and, e1, Nat.testBit_shiftLeft, Nat.testBit_shiftLeft,
    Nat.testBit_two_pow_sub_one, Nat.testBit_shiftRight]
  by_cases h12 : 12 ≤ i
  · have e3 : 12 + (i - 12) = i := by omega
    rw [e3]
    by_cases h32 : i - 12 < 20
    · simp [h12, h32]
    · have hlt : x < 2 ^ i := by
        have h2 : (2 : Nat) ^ 32 ≤ 2 ^ i := Nat.pow_le_pow_right (by norm_num) (by omega)
        omega
      rw [Nat.testBit_lt_two_pow hlt]
      simp
  · simp [h12]

theorem create_kheap_at_eq (m : Mem) (index : ordered_array_t)
    (start end_ max supervisor readonly : Nat)
    (hpos : 0 < sub32 (sub32 end_ start) BLOCK_META_SIZE) :
    create_kheap_at m index start end_ max supervisor readonly =
      Res.ok ⟨mb_mem m start (sub32 (sub32 end_ start) BLOCK_META_SIZE) IS_HOLE,
        { index := (ordered_array_insert
              (mb_mem m start (sub32 (sub32 end_ start) BLOCK_META_SIZE) IS_HOLE) index start).1,
          start_address := start, end_address := end_, size := sub32 end_ start,
          max_address := max, supervisor := supervisor, readonly := readonly }⟩ := by
  unfold create_kheap_at
  rewrite [make_block_eq _ _ _ _ hpos]
  rfl

theorem create_kheap_eq (m : Mem) (array0 : Nat → Nat)
    (start end_ max supervisor readonly : Nat)
    (hs : start % 4096 = 0) (he : end_ % 4096 = 0) (hlt : start < end_)
    (hsz : end_ - start > 4 * 131072 + 17) (hend : end_ < 4294967296) :
    create_kheap m array0 start end_ max supervisor readonly =
      Res.ok ⟨mb_mem m (start + 524288) (end_ - (start + 524288) - 17) IS_HOLE,
        { index := (ordered_array_insert
              (mb_mem m (start + 524288) (end_ - (start + 524288) - 17) IS_HOLE)
              (ordered_array_create array0 KHEAP_INDEX_NUM kheap_block_comparator)
              (start + 524288)).1,
          start_address := start + 524288, end_address := end_,
          size := end_ - (start + 524288), max_address := max,
          supervisor := supervisor, readonly := readonly }⟩ := by
  have e1 : add32 start (SIZEOF_TYPE_T * KHEAP_INDEX_NUM) = start + 524288 := by
    unfold add32 SIZEOF_TYPE_T KHEAP_INDEX_NUM; omega
  have e2 : sub32 end_ (start + 524288) = end_ - (start + 524288) := by
    rw [sub32_eq]; omega
  have e3 : sub32 (end_ - (start + 524288)) BLOCK_META_SIZE = end_ - (start + 524288) - 17 := by
    rw [sub32_eq]; unfold BLOCK_META_SIZE; omega
  have hpos : 0 < sub32 (sub32 end_ (start + 524288)) BLOCK_META_SIZE := by
    rw [e2, e3]; omega
  unfold create_kheap
  rewrite [and_fff, and_fff, hs, he]
  rewrite [if_neg (fun h => h rfl), if_neg (fun h => h rfl)]
  rewrite [e1]
  rewrite [create_kheap_at_eq _ _ _ _ _ _ _ hpos]
  rewrite [e2, e3]
  rfl

/-- Claim C6: for page-aligned `start < end_` with
`end_ - start > 4 * KHEAP_INDEX_NUM + 17`, `create_kheap` returns a heap whose
data region starts `0x80000` bytes after `start`, ends at `end_`, has
`size = end_ - start_address` and the given maximum, and consists of exactly
one block: a hole at `start_address` with payload `end_ - start_address - 17`
and valid header and footer, which is the only entry of the index; the
validator passes on it and counts 0 allocated blocks. -/
theorem create_kheap_one_hole (m : Mem) (array0 : Nat → Nat)
    (start end_ max supervisor readonly fuel : Nat)
    (hs : start % 4096 = 0) (he : end_ % 4096 = 0) (hlt : start < end_)
    (hsz : end_ - start > 4 * KHEAP_INDEX_NUM + 17) (hend : end_ < 4294967296)
    (hfuel : 2 ≤ fuel) :
    ∃ s, create_kheap m array0 start end_ max supervisor readonly = Res.ok s ∧
      s.kheap.start_address = start + 4 * KHEAP_INDEX_NUM ∧
      4 * KHEAP_INDEX_NUM = 0x80000 ∧
      s.kheap.end_address = end_ ∧
      s.kheap.size = end_ - s.kheap.start_address ∧
      s.kheap.max_address = max ∧
      header_magic s.mem s.kheap.start_address = KHEAP_MAGIC ∧
      header_is_hole s.mem s.kheap.start_address = 1 ∧
      header_size s.mem s.kheap.start_address = end_ - s.kheap.start_address - 17 ∧
      s.kheap.start_address + 9 + header_size s.mem s.kheap.start_address + 8 = end_ ∧
      footer_magic s.mem (end_ - 8) = KHEAP_MAGIC ∧
      footer_header s.mem (end_ - 8) = s.kheap.start_address ∧
      s.kheap.index.size = 1 ∧
      s.kheap.index.max_size = KHEAP_INDEX_NUM ∧
      s.kheap.index.array 0 = s.kheap.start_address ∧
      kheap_validate_print fuel s 0 = Res.ok 0 := by
  have hk : KHEAP_INDEX_NUM = 131072 := rfl
  rw [hk] at hsz
  have e1 : add32 start (SIZEOF_TYPE_T * KHEAP_INDEX_NUM) = start + 524288 := by
    unfold add32 SIZEOF_TYPE_T KHEAP_INDEX_NUM; omega
  have e2 : sub32 end_ (start + 524288) = end_ - (start + 524288) := by
    rw [sub32_eq]; omega
  have e3 : sub32 (end_ - (start + 524288)) BLOCK_META_SIZE = end_ - (start + 524288) - 17 := by
    rw [sub32_eq]; unfold BLOCK_META_SIZE; omega
  have hpos : 0 < end_ - (start + 524288) - 17 := by omega
  have hb : (start + 524288) + (end_ - (start + 524288) - 17) + 17 ≤ 4294967296 := by omega
  have hfoot : end_ - 8 = (start + 524288) + (end_ - (start + 524288) - 17) + 9 := by omega
  have hcreate := create_kheap_eq m array0 start end_ max supervisor readonly hs he hlt hsz hend
  have hins : (ordered_array_insert
      (mb_mem m (start + 524288) (end_ - (start + 524288) - 17) IS_HOLE)
      (ordered_array_create array0 KHEAP_INDEX_NUM kheap_block_comparator)
      (start + 524288)).1.size = 1 ∧
      (ordered_array_insert
      (mb_mem m (start + 524288) (end_ - (start + 524288) - 17) IS_HOLE)
      (ordered_array_create array0 KHEAP_INDEX_NUM kheap_block_comparator)
      (start + 524288)).1.max_size = KHEAP_INDEX_NUM ∧
      (ordered_array_insert
      (mb_mem m (start + 524288) (end_ - (start + 524288) - 17) IS_HOLE)
      (ordered_array_create array0 KHEAP_INDEX_NUM kheap_block_comparator)
      (start + 524288)).1.array 0 = start + 524288 := by
    exact insert_into_empty _ _ _ _ _ (by rw [hk]; omega)
  obtain ⟨hi1, hi2, hi3⟩ := hins
  refine ⟨_, hcreate, ?_, by rw [hk], rfl, rfl, rfl, ?_, ?_, ?_, ?_, ?_, ?_, hi1, hi2, hi3, ?_⟩
  · show start + 524288 = start + 4 * KHEAP_INDEX_NUM
    rw [hk]
  · exact mb_header_magic _ _ _ _ hpos hb
  · exact mb_header_is_hole _ _ _ _ hpos hb
  · exact mb_header_size _ _ _ _ hpos hb
  · show start + 524288 + 9 + header_size _ (start + 524288) + 8 = end_
    rw [mb_header_size _ _ _ _ hpos hb]
    omega
  · show footer_magic _ (end_ - 8) = KHEAP_MAGIC
    rw [hfoot]
    exact mb_footer_magic _ _ _ _ hpos hb
  · show footer_header _ (end_ - 8) = start + 524288
    rw [hfoot]
    exact mb_footer_header _ _ _ _ hpos hb
  · obtain ⟨f, rfl⟩ : ∃ f, fuel = f + 2 := ⟨fuel - 2, by omega⟩
    unfold kheap_validate_print
    have hnext : add32 (start + 524288) (add32 (end_ - (start + 524288) - 17) BLOCK_META_SIZE)
        = end_ := by
      unfold add32 BLOCK_META_SIZE; omega
    have hfind : ordered_array_find_element (ordered_array_insert
        (mb_mem m (start + 524288) (end_ - (start + 524288) - 17) IS_HOLE)
        (ordered_array_create array0 KHEAP_INDEX_NUM kheap_block_comparator)
        (start + 524288)).1 (start + 524288) = 0 := by
      unfold ordered_array_find_element
      rw [hi1]
      unfold find_scan
      rw [if_pos hi3]
    simp only [validate_loop]
    rw [if_pos (show start + 524288 < end_ by omega)]
    rw [mb_header_magic _ _ _ _ hpos hb, mb_header_is_hole _ _ _ _ hpos hb,
      mb_header_size _ _ _ _ hpos hb, hnext, hfind, hi1]
    simp [IS_HOLE, add32]


/-- Claim C6 at `create_kheap(0x100000, 0x181000, 0x200000, 0, 0)` in
zero-filled memory. -/
theorem create_kheap_one_hole_witness :
    ∃ s, create_kheap zero_mem zero_index 0x100000 0x181000 0x200000 0 0 = Res.ok s ∧
      s.kheap.start_address = 0x100000 + 4 * KHEAP_INDEX_NUM ∧
      4 * KHEAP_INDEX_NUM = 0x80000 ∧
      s.kheap.end_address = 0x181000 ∧
      s.kheap.size = 0x181000 - s.kheap.start_address ∧
      s.kheap.max_address = 0x200000 ∧
      header_magic s.mem s.kheap.start_address = KHEAP_MAGIC ∧
      header_is_hole s.mem s.kheap.start_address = 1 ∧
      header_size s.mem s.kheap.start_address = 0x181000 - s.kheap.start_address - 17 ∧
      s.kheap.start_address + 9 + header_size s.mem s.kheap.start_address + 8 = 0x181000 ∧
      footer_magic s.mem (0x181000 - 8) = KHEAP_MAGIC ∧
      footer_header s.mem (0x181000 - 8) = s.kheap.start_address ∧
      s.kheap.index.size = 1 ∧
      s.kheap.index.max_size = KHEAP_INDEX_NUM ∧
      s.kheap.index.array 0 = s.kheap.start_address ∧
      kheap_validate_print 2 s 0 = Res.ok 0 :=
  create_kheap_one_hole zero_mem zero_index 0x100000 0x181000 0x200000 0 0 2
    (by decide) (by decide) (by decide) (by decide) (by decide) (by decide)

theorem alloc_place_pointer (s2 : KState) (block_size header size alloc_pos : Nat)
    (s1 : KState) (p : Nat)
    (h : alloc_place s2 block_size header size alloc_pos = Res.ok (s1, p)) : p = alloc_pos := by
  unfold alloc_place at h
  dsimp only at h
  repeat' (split at h)
  all_goals first
    | exact Res.noConfusion h
    | exact (Prod.mk.inj (Res.ok.inj h)).2.symm

theorem alloc_use_pointer (s : KState) (size page_align : Nat) (iterator : Int) (alloc_pos : Nat)
    (s1 : KState) (p : Nat)
    (h : alloc_use s size page_align iterator alloc_pos = Res.ok (s1, p)) : p = alloc_pos := by
  unfold alloc_use at h
  dsimp only at h
  repeat' (split at h)
  all_goals first
    | exact Res.noConfusion h
    | exact alloc_place_pointer _ _ _ _ _ _ _ h

theorem alloc_pointer_aligned (page_align : Nat) (hpa : page_align ≠ 0) :
    ∀ fuel s size s1 p, alloc fuel s size page_align = Res.ok (s1, p) → p % 4096 = 0 := by
  intro fuel
  induction fuel with
  | zero =>
    intro s size s1 p h
    rw [alloc] at h
    exact Res.noConfusion h
  | succ fuel ih =>
    intro s size s1 p h
    rw [alloc] at h
    split at h
    · split at h
      · exact Res.noConfusion h
      · rename_i iterator alloc_pos hfind
        split at h
        · split at h
          · exact ih _ _ _ _ h
          · exact Res.noConfusion h
          · exact Res.noConfusion h
        · rename_i hit
          have hp := alloc_use_pointer _ _ _ _ _ _ _ h
          rw [hp]
          unfold find_hole at hfind
          exact find_hole_loop_aligned _ _ _ _ _ _ hpa _ _ _ _ hfind (by omega)
    · exact Res.noConfusion h

/-- Claim C7: every pointer returned by `alloc` with `page_align` set, and so
every pointer returned by `kmalloc_aligned`, is a multiple of 4096, whatever
the heap state and the size are and however many growth steps the call takes. -/
theorem aligned_alloc_pointer (fuel : Nat) (s : KState) (size page_align : Nat)
    (hpa : page_align ≠ 0) :
    (∀ r, returned (alloc fuel s size page_align) = some r → r.2 % 4096 = 0) ∧
    (∀ r, returned (kmalloc_aligned fuel s size) = some r → r.2 % 4096 = 0) := by
  constructor
  · intro r h
    cases ha : alloc fuel s size page_align with
    | ok v =>
      rw [ha] at h
      simp only [returned, Option.some.injEq] at h
      rw [← h]
      exact alloc_pointer_aligned page_align hpa fuel s size v.1 v.2 ha
    | panic s2 =>
      rw [ha] at h
      exact Option.noConfusion h
    | nofuel =>
      rw [ha] at h
      exact Option.noConfusion h
  · intro r h
    unfold kmalloc_aligned kmalloc_impl at h
    split at h
    · simp only [returned, Option.some.injEq] at h
      rw [← h]
      rfl
    · split at h
      · rename_i s2 ptr ha
        split at h
        · exact Option.noConfusion h
        · simp only [returned, Option.some.injEq] at h
          rw [← h]
          exact alloc_pointer_aligned 1 (by decide) fuel s size s2 ptr ha
      · exact Option.noConfusion h
      · exact Option.noConfusion h

set_option maxRecDepth 100000 in
/-- Claim C7 on the one-page heap: `alloc(100)` with `page_align = 1` needs a
growth step, returns `0x181000`, and that pointer is a multiple of 4096. -/
theorem aligned_alloc_pointer_witness :
    (returned (alloc 10 (state_of small_heap) 100 1)).map (fun r => r.2) = some 0x181000 ∧
    (returned (alloc 10 (state_of small_heap) 100 1)).map
      (fun r => r.1.kheap.end_address) = some 0x182000 ∧
    (∀ r, returned (alloc 10 (state_of small_heap) 100 1) = some r → r.2 % 4096 = 0) :=
  ⟨by decide!, by decide!, (aligned_alloc_pointer 10 (state_of small_heap) 100 1 (by decide)).1⟩

/-! ## Kernel heap -/

/-- Claim C8: `free(ptr)` with a non-null `ptr` whose header magic (at
`ptr - 9`) or footer magic (at `ptr + header.size`) differs from `KHEAP_MAGIC`
reaches the fatal halt, in the state in which it was called: no flag, header,
footer or index entry has been changed. -/
theorem free_halts_on_bad_magic (s : KState) (ptr : Nat) (hp : ptr ≠ 0)
    (hm : header_magic s.mem (sub32 ptr HEADER_SIZE) ≠ KHEAP_MAGIC ∨
      footer_magic s.mem (add32 ptr (header_size s.mem (sub32 ptr HEADER_SIZE))) ≠ KHEAP_MAGIC) :
    free s ptr = Res.panic s ∧ kfree s ptr = Res.panic s := by
  have hfree : free s ptr = Res.panic s := by
    unfold free
    rw [if_neg hp]
    by_cases h1 : header_magic s.mem (sub32 ptr HEADER_SIZE) ≠ KHEAP_MAGIC
    · exact if_pos h1
    · rcases hm with h | h
      · exact absurd h h1
      · exact (if_neg h1).trans (if_pos h)
  refine ⟨hfree, ?_⟩
  unfold kfree
  rw [if_neg hp]
  exact hfree

/-- Claim C8 at `ptr = 100` in zero-filled memory. -/
theorem free_halts_on_bad_magic_witness :
    free blank_state 100 = Res.panic blank_state ∧ kfree blank_state 100 = Res.panic blank_state :=
  free_halts_on_bad_magic blank_state 100 (by decide) (Or.inl (by decide))

/-! ## Ordered array -/

theorem shift_up_spec (iterator : Nat) :
    ∀ n (array : Nat → Nat) x,
      shift_up array iterator n x =
        if iterator < x ∧ x ≤ iterator + n then array (x - 1) else array x := by
  intro n
  induction n with
  | zero =>
    intro array x
    have h : ¬ (iterator < x ∧ x ≤ iterator + 0) := by omega
    rw [shift_up, if_neg h]
  | succ n ih =>
    intro array x
    rw [shift_up, ih]
    by_cases h1 : iterator < x ∧ x ≤ iterator + n
    · have h3 : iterator < x ∧ x ≤ iterator + (n + 1) := by omega
      have h4 : ¬ (x - 1 = iterator + n + 1) := by omega
      rw [if_pos h1, if_pos h3]
      exact if_neg h4
    · rw [if_neg h1]
      by_cases h2 : x = iterator + n + 1
      · have h3 : iterator < x ∧ x ≤ iterator + (n + 1) := by omega
        have h5 : x - 1 = iterator + n := by omega
        rw [if_pos h3, h5]
        exact if_pos h2
      · have h3 : ¬ (iterator < x ∧ x ≤ iterator + (n + 1)) := by omega
        rw [if_neg h3]
        exact if_neg h2

theorem insert_scan_spec (m : Mem) (a : ordered_array_t) (item : Nat) :
    ∀ n i, i + n = a.size →
      i ≤ insert_scan m a item n i ∧ insert_scan m a item n i ≤ a.size ∧
      (∀ k, i ≤ k → k < insert_scan m a item n i →
        a.comparator m (a.array k) item ≤ 0) ∧
      (insert_scan m a item n i < a.size →
        ¬ a.comparator m (a.array (insert_scan m a item n i)) item ≤ 0) := by
  intro n
  induction n with
  | zero =>
    intro i hi
    rw [insert_scan]
    exact ⟨Nat.le_refl _, by omega, fun k h1 h2 => by omega, fun h => by omega⟩
  | succ n ih =>
    intro i hi
    rw [insert_scan]
    by_cases hc : i < a.size ∧ a.comparator m (a.array i) item ≤ 0
    · rw [if_pos hc]
      obtain ⟨h1, h2, h3, h4⟩ := ih (i + 1) (by omega)
      refine ⟨by omega, h2, ?_, h4⟩
      intro k hk1 hk2
      by_cases hki : k = i
      · rw [hki]
        exact hc.2
      · exact h3 k (by omega) hk2
    · rw [if_neg hc]
      refine ⟨Nat.le_refl _, by omega, fun k h1 h2 => by omega, ?_⟩
      intro hlt hcmp
      exact hc ⟨hlt, hcmp⟩

/-- The result of `ordered_array_insert` when there is room. -/
theorem ordered_array_insert_eq (m : Mem) (a : ordered_array_t) (item : Nat)
    (hcap : a.size < a.max_size) :
    ordered_array_insert m a item =
      ({ a with
          array := fun x =>
            if x = insert_scan m a item a.size 0 then item
            else shift_up a.array (insert_scan m a item a.size 0)
              (a.size - insert_scan m a item a.size 0) x,
          size := a.size + 1 }, 1) := by
  unfold ordered_array_insert
  rw [if_neg (by omega)]

/-- Claim C25: for an array that is sorted under its comparator (a total,
transitive order) and has `size < max_size`, `ordered_array_insert(item)`
returns 1 and increases the size by exactly 1; the new array is the old
sequence with `item` put at the position `p` right after all elements that
compare `≤ item` (the elements before `p` keep their place, those from `p` on
move up by one), and it is sorted again. -/
theorem insert_keeps_sorted (m : Mem) (a : ordered_array_t) (item : Nat)
    (hcap : a.size < a.max_size) (hs : sorted_under m a)
    (htot : ∀ x y, a.comparator m x y ≤ 0 ∨ a.comparator m y x ≤ 0)
    (htr : ∀ x y z, a.comparator m x y ≤ 0 → a.comparator m y z ≤ 0 →
      a.comparator m x z ≤ 0) :
    ∃ p, p ≤ a.size ∧
      (ordered_array_insert m a item).2 = 1 ∧
      (ordered_array_insert m a item).1.size = a.size + 1 ∧
      (ordered_array_insert m a item).1.max_size = a.max_size ∧
      (∀ k, k < p → (ordered_array_insert m a item).1.array k = a.array k ∧
        a.comparator m (a.array k) item ≤ 0) ∧
      (ordered_array_insert m a item).1.array p = item ∧
      (∀ k, p ≤ k → k < a.size →
        (ordered_array_insert m a item).1.array (k + 1) = a.array k ∧
        ¬ a.comparator m (a.array k) item ≤ 0) ∧
      sorted_under m (ordered_array_insert m a item).1 := by
  obtain ⟨_, hp2, hp3, hp4⟩ := insert_scan_spec m a item a.size 0 (by omega)
  rw [ordered_array_insert_eq m a item hcap]
  generalize insert_scan m a item a.size 0 = p at hp2 hp3 hp4
  have hafter : ∀ k, p ≤ k → k < a.size → ¬ a.comparator m (a.array k) item ≤ 0 := by
    intro k hk1 hk2 hcmp
    by_cases hkp : k = p
    · rw [hkp] at hcmp
      exact hp4 (by omega) hcmp
    · exact hp4 (by omega) (htr _ _ _ (hs p k (by omega) hk2) hcmp)
  have hnew : ∀ x, (fun x => if x = p then item else shift_up a.array p (a.size - p) x) x =
      if x = p then item else if p < x ∧ x ≤ a.size then a.array (x - 1) else a.array x := by
    intro x
    show (if x = p then item else shift_up a.array p (a.size - p) x) = _
    rw [shift_up_spec]
    by_cases hx : x = p
    · rw [if_pos hx, if_pos hx]
    · rw [if_neg hx, if_neg hx]
      by_cases h2 : p < x ∧ x ≤ a.size
      · rw [if_pos h2, if_pos (by omega)]
      · rw [if_neg h2, if_neg (by omega)]
  refine ⟨p, hp2, rfl, rfl, rfl, ?_, ?_, ?_, ?_⟩
  · intro k hk
    refine ⟨?_, hp3 k (Nat.zero_le _) hk⟩
    show (fun x => if x = p then item else shift_up a.array p (a.size - p) x) k = _
    rw [hnew, if_neg (by omega), if_neg (by omega)]
  · show (fun x => if x = p then item else shift_up a.array p (a.size - p) x) p = _
    rw [hnew, if_pos rfl]
  · intro k hk1 hk2
    refine ⟨?_, hafter k hk1 hk2⟩
    show (fun x => if x = p then item else shift_up a.array p (a.size - p) x) (k + 1) = _
    rw [hnew, if_neg (by omega), if_pos (by omega)]
    rfl
  · intro i j hij hj
    show a.comparator m
      ((fun x => if x = p then item else shift_up a.array p (a.size - p) x) i)
      ((fun x => if x = p then item else shift_up a.array p (a.size - p) x) j) ≤ 0
    have hj2 : j < a.size + 1 := hj
    rw [hnew, hnew]
    by_cases hip : i = p
    · rw [if_pos hip, if_neg (by omega), if_pos (by omega)]
      rcases htot item (a.array (j - 1)) with h | h
      · exact h
      · exact absurd h (hafter (j - 1) (by omega) (by omega))
    · rw [if_neg hip]
      by_cases hjp : j = p
      · rw [if_pos hjp, if_neg (by omega)]
        exact hp3 i (Nat.zero_le _) (by omega)
      · rw [if_neg hjp]
        by_cases hi2 : p < i ∧ i ≤ a.size
        · rw [if_pos hi2, if_pos (by omega)]
          exact hs (i - 1) (j - 1) (by omega) (by omega)
        · rw [if_neg hi2]
          by_cases hj3 : p < j ∧ j ≤ a.size
          · rw [if_pos hj3]
            exact hs i (j - 1) (by omega) (by omega)
          · rw [if_neg hj3]
            exact hs i j hij (by omega)

theorem standard_total (m : Mem) (x y : Nat) :
    standard_comparator m x y ≤ 0 ∨ standard_comparator m y x ≤ 0 := by
  unfold standard_comparator
  by_cases h : x < y
  · left
    rw [if_pos h]
    decide
  · right
    by_cases h2 : y < x
    · rw [if_pos h2]
      decide
    · rw [if_neg h2, if_pos (by omega)]

theorem standard_le_iff (m : Mem) (x y : Nat) : standard_comparator m x y ≤ 0 ↔ x ≤ y := by
  unfold standard_comparator
  by_cases h : x < y
  · rw [if_pos h]
    exact ⟨fun _ => by omega, fun _ => by decide⟩
  · rw [if_neg h]
    by_cases h2 : x = y
    · rw [if_pos h2]
      exact ⟨fun _ => by omega, fun _ => by decide⟩
    · rw [if_neg h2]
      exact ⟨fun c => absurd c (by decide), fun c => by omega⟩

theorem demo_array_sorted : sorted_under zero_mem demo_array := by
  intro i j hij hj
  have hj2 : j < 2 := hj
  have hi0 : i = 0 := by omega
  have hj1 : j = 1 := by omega
  rw [hi0, hj1]
  decide

/-- Claim C25 at the array `1, 5` under `standard_comparator` and the item 3. -/
theorem insert_keeps_sorted_witness :
    ∃ p, p ≤ demo_array.size ∧
      (ordered_array_insert zero_mem demo_array 3).2 = 1 ∧
      (ordered_array_insert zero_mem demo_array 3).1.size = demo_array.size + 1 ∧
      (ordered_array_insert zero_mem demo_array 3).1.max_size = demo_array.max_size ∧
      (∀ k, k < p → (ordered_array_insert zero_mem demo_array 3).1.array k = demo_array.array k ∧
        demo_array.comparator zero_mem (demo_array.array k) 3 ≤ 0) ∧
      (ordered_array_insert zero_mem demo_array 3).1.array p = 3 ∧
      (∀ k, p ≤ k → k < demo_array.size →
        (ordered_array_insert zero_mem demo_array 3).1.array (k + 1) = demo_array.array k ∧
        ¬ demo_array.comparator zero_mem (demo_array.array k) 3 ≤ 0) ∧
      sorted_under zero_mem (ordered_array_insert zero_mem demo_array 3).1 :=
  insert_keeps_sorted zero_mem demo_array 3 (by decide) demo_array_sorted
    (fun x y => standard_total zero_mem x y)
    (fun x y z h1 h2 => (standard_le_iff zero_mem x z).mpr
      (Nat.le_trans ((standard_le_iff zero_mem x y).mp h1) ((standard_le_iff zero_mem y z).mp h2)))

/-- Claim C26: `ordered_array_insert` on an array with `size ≥ max_size`
returns 0 and leaves the array, with its elements and its size, as it was;
and no operation changes the capacity `max_size`. -/
theorem insert_full_and_capacity (m : Mem) (a : ordered_array_t) (item : Nat) :
    (a.size ≥ a.max_size → ordered_array_insert m a item = (a, 0)) ∧
    (ordered_array_insert m a item).1.max_size = a.max_size ∧
    (∀ i, (ordered_array_remove a i).1.max_size = a.max_size) ∧
    (∀ e, (ordered_array_remove_element a e).1.max_size = a.max_size) := by
  refine ⟨?_, ?_, ?_, ?_⟩
  · intro h
    unfold ordered_array_insert
    rw [if_pos h]
  · unfold ordered_array_insert
    split <;> rfl
  · intro i
    unfold ordered_array_remove
    split <;> rfl
  · intro e
    unfold ordered_array_remove_element
    dsimp only
    split <;> rfl

/-! ## `find_hole` -/

theorem ordered_array_get_lt (a : ordered_array_t) (i : Nat) (h : i < a.size) :
    ordered_array_get a i = a.array i := by
  unfold ordered_array_get
  rw [if_neg (by omega)]

theorem find_hole_loop_plain (fuel : Nat) (m : Mem) (this : kheap_t) (size alloc_pos : Nat) :
    ∀ n i, i + n = this.index.size →
      (find_hole_loop fuel m this size 0 alloc_pos n i = some (-1, alloc_pos) ∧
        ∀ k, i ≤ k → k < this.index.size → header_size m (this.index.array k) < size) ∨
      ∃ j, i ≤ j ∧ j < this.index.size ∧
        find_hole_loop fuel m this size 0 alloc_pos n i =
          some ((j : Int), add32 (this.index.array j) HEADER_SIZE) ∧
        header_size m (this.index.array j) ≥ size ∧
        ∀ k, i ≤ k → k < j → header_size m (this.index.array k) < size := by
  intro n
  induction n with
  | zero =>
    intro i hi
    left
    rw [find_hole_loop]
    exact ⟨rfl, fun k h1 h2 => by omega⟩
  | succ n ih =>
    intro i hi
    have hstep : find_hole_loop fuel m this size 0 alloc_pos (n + 1) i =
        if header_size m (this.index.array i) ≥ size then
          some ((i : Int), add32 (this.index.array i) HEADER_SIZE)
        else find_hole_loop fuel m this size 0 alloc_pos n (i + 1) := by
      rw [find_hole_loop]
      dsimp only
      rw [if_neg (fun h => h rfl), ordered_array_get_lt _ _ (by omega)]
    rw [hstep]
    by_cases hfit : header_size m (this.index.array i) ≥ size
    · right
      rw [if_pos hfit]
      exact ⟨i, Nat.le_refl _, by omega, rfl, hfit, fun k h1 h2 => by omega⟩
    · rw [if_neg hfit]
      rcases ih (i + 1) (by omega) with ⟨h1, h2⟩ | ⟨j, h1, h2, h3, h4, h5⟩
      · left
        refine ⟨h1, ?_⟩
        intro k hk1 hk2
        by_cases hki : k = i
        · rw [hki]
          omega
        · exact h2 k (by omega) hk2
      · right
        refine ⟨j, by omega, h2, h3, h4, ?_⟩
        intro k hk1 hk2
        by_cases hki : k = i
        · rw [hki]
          omega
        · exact h5 k (by omega) hk2

/-- Claim C27: for a heap whose index is sorted by non-decreasing hole size
and every request size, `find_hole` with `page_align = 0` returns the lowest
index position whose hole has payload size at least the request, with
`alloc_pos` the header address plus 9; that hole has minimum size among all
holes of the index that fit; and it returns -1 exactly when no hole of the
index fits. -/
theorem find_hole_best_fit (fuel : Nat) (m : Mem) (this : kheap_t) (size alloc_pos : Nat)
    (hsorted : ∀ i j, i < j → j < this.index.size →
      header_size m (this.index.array i) ≤ header_size m (this.index.array j)) :
    (find_hole fuel m this size 0 alloc_pos = some (-1, alloc_pos) ∧
      ∀ k, k < this.index.size → header_size m (this.index.array k) < size) ∨
    ∃ j, j < this.index.size ∧
      find_hole fuel m this size 0 alloc_pos =
        some ((j : Int), (this.index.array j + 9) % 4294967296) ∧
      header_size m (this.index.array j) ≥ size ∧
      (∀ k, k < j → header_size m (this.index.array k) < size) ∧
      (∀ k, k < this.index.size → header_size m (this.index.array k) ≥ size →
        header_size m (this.index.array j) ≤ header_size m (this.index.array k)) := by
  unfold find_hole
  rcases find_hole_loop_plain fuel m this size alloc_pos this.index.size 0 (by omega) with
    ⟨h1, h2⟩ | ⟨j, _, h2, h3, h4, h5⟩
  · left
    exact ⟨h1, fun k hk => h2 k (Nat.zero_le _) hk⟩
  · right
    refine ⟨j, h2, h3, h4, fun k hk => h5 k (Nat.zero_le _) hk, ?_⟩
    intro k hk hfit
    by_cases hkj : k < j
    · have := h5 k (Nat.zero_le _) hkj
      omega
    · by_cases hkj2 : k = j
      · rw [hkj2]
      · exact hsorted j k (by omega) hk

theorem small_heap_index_size : (state_of small_heap).kheap.index.size = 1 := by decide

theorem align_to_page_spec (x : Nat) (hx : x + 4096 ≤ 4294967296) :
    align_to_page x % 4096 = 0 ∧ x ≤ align_to_page x ∧ align_to_page x < x + 4096 := by
  refine ⟨align_to_page_mod x, ?_, ?_⟩
  · unfold align_to_page
    rw [and_fff, and_page_mask x (by omega)]
    split
    · unfold add32 PAGE_SIZE
      omega
    · omega
  · unfold align_to_page
    rw [and_fff, and_page_mask x (by omega)]
    split
    · unfold add32 PAGE_SIZE
      omega
    · omega

theorem find_hole_page_spec (size start end_ fuel : Nat) (hfuel : 2 ≤ fuel)
    (h1 : start + 8192 + size ≤ 4294967296) :
    (∃ b, find_hole_page size start end_ fuel (align_to_page start) = some (some b) ∧
      (b % 4096 = 0 ∧ start ≤ b ∧ b + size ≤ end_ ∧ 17 < b - start) ∧
      ∀ b1, b1 < b → ¬ (b1 % 4096 = 0 ∧ start ≤ b1 ∧ b1 + size ≤ end_ ∧ 17 < b1 - start)) ∨
    (find_hole_page size start end_ fuel (align_to_page start) = some none ∧
      ∀ b1, ¬ (b1 % 4096 = 0 ∧ start ≤ b1 ∧ b1 + size ≤ end_ ∧ 17 < b1 - start)) := by
  obtain ⟨f, rfl⟩ : ∃ f, fuel = f + 2 := ⟨fuel - 2, by omega⟩
  obtain ⟨a1, a2, a3⟩ := align_to_page_spec start (by omega)
  generalize align_to_page start = b0 at a1 a2 a3
  have e1 : add32 b0 size = b0 + size := by
    unfold add32
    omega
  have e2 : sub32 b0 start = b0 - start := by
    rw [sub32_eq]
    omega
  have e3 : add32 b0 PAGE_SIZE = b0 + 4096 := by
    unfold add32 PAGE_SIZE
    omega
  have e4 : add32 (b0 + 4096) size = b0 + 4096 + size := by
    unfold add32
    omega
  have e5 : sub32 (b0 + 4096) start = b0 + 4096 - start := by
    rw [sub32_eq]
    omega
  have hM : BLOCK_META_SIZE = 17 := rfl
  rw [find_hole_page, e1, e2, e3, hM]
  by_cases c1 : b0 + size ≤ end_
  · rw [if_pos c1]
    by_cases c2 : b0 - start > 17
    · rw [if_pos c2]
      left
      refine ⟨b0, rfl, ⟨a1, a2, c1, c2⟩, ?_⟩
      intro b1 hb1 hadm
      omega
    · rw [if_neg c2, find_hole_page, e4, e5, hM]
      by_cases c3 : b0 + 4096 + size ≤ end_
      · rw [if_pos c3, if_pos (by omega)]
        left
        refine ⟨b0 + 4096, rfl, ⟨by omega, by omega, c3, by omega⟩, ?_⟩
        intro b1 hb1 hadm
        omega
      · rw [if_neg c3]
        right
        refine ⟨rfl, ?_⟩
        intro b1 hadm
        omega
  · rw [if_neg c1]
    right
    refine ⟨rfl, ?_⟩
    intro b1 hadm
    omega

theorem find_hole_loop_aligned_spec (fuel : Nat) (m : Mem) (this : kheap_t)
    (size page_align alloc_pos : Nat) (hpa : page_align ≠ 0) (hfuel : 2 ≤ fuel)
    (hwf : ∀ k, k < this.index.size →
      this.index.array k + 9 + header_size m (this.index.array k) < 4294967296 ∧
      this.index.array k + 9 + 8192 + size ≤ 4294967296) :
    ∀ n i, i + n = this.index.size →
      (find_hole_loop fuel m this size page_align alloc_pos n i = some (-1, alloc_pos) ∧
        ∀ k, i ≤ k → k < this.index.size → ∀ b, ¬ admits m (this.index.array k) size b) ∨
      ∃ j b, i ≤ j ∧ j < this.index.size ∧
        find_hole_loop fuel m this size page_align alloc_pos n i = some ((j : Int), b) ∧
        admits m (this.index.array j) size b ∧
        (∀ b1, b1 < b → ¬ admits m (this.index.array j) size b1) ∧
        ∀ k, i ≤ k → k < j → ∀ b1, ¬ admits m (this.index.array k) size b1 := by
  intro n
  induction n with
  | zero =>
    intro i hi
    left
    rw [find_hole_loop]
    exact ⟨rfl, fun k h1 h2 => by omega⟩
  | succ n ih =>
    intro i hi
    obtain ⟨w1, w2⟩ := hwf i (by omega)
    have es : add32 (this.index.array i) HEADER_SIZE = this.index.array i + 9 := by
      unfold add32 HEADER_SIZE
      omega
    have ee : add32 (this.index.array i + 9) (header_size m (this.index.array i)) =
        this.index.array i + 9 + header_size m (this.index.array i) := by
      unfold add32
      omega
    have hstep : find_hole_loop fuel m this size page_align alloc_pos (n + 1) i =
        match find_hole_page size (this.index.array i + 9)
            (this.index.array i + 9 + header_size m (this.index.array i)) fuel
            (align_to_page (this.index.array i + 9)) with
        | none => none
        | some (some p) => some ((i : Int), p)
        | some none => find_hole_loop fuel m this size page_align alloc_pos n (i + 1) := by
      rw [find_hole_loop]
      dsimp only
      rw [if_pos hpa, ordered_array_get_lt _ _ (by omega), es, ee]
    rw [hstep]
    rcases find_hole_page_spec size (this.index.array i + 9)
        (this.index.array i + 9 + header_size m (this.index.array i)) fuel hfuel (by omega) with
      ⟨b, hb1, hb2, hb3⟩ | ⟨hn1, hn2⟩
    · right
      rw [hb1]
      exact ⟨i, b, Nat.le_refl _, by omega, rfl, hb2, hb3, fun k h1 h2 => by omega⟩
    · rw [hn1]
      rcases ih (i + 1) (by omega) with ⟨h1, h2⟩ | ⟨j, b, h1, h2, h3, h4, h5, h6⟩
      · left
        refine ⟨h1, ?_⟩
        intro k hk1 hk2 b
        by_cases hki : k = i
        · rw [hki]
          exact hn2 b
        · exact h2 k (by omega) hk2 b
      · right
        refine ⟨j, b, by omega, h2, h3, h4, h5, ?_⟩
        intro k hk1 hk2 b1
        by_cases hki : k = i
        · rw [hki]
          exact hn2 b1
        · exact h6 k (by omega) hk2 b1

/-- Claim C28, amended: for a page-aligned request of size `s` (with holes and
a size for which no 32-bit sum wraps), `find_hole` picks, in the first hole in
index order that admits one, the first page boundary `b` at or after the
hole's data start with `b + s` within the hole's data and a gap
`b - (data start)` of more than `BLOCK_META_SIZE = 17` bytes, and returns the
index position of that hole with `alloc_pos = b`; it returns -1 when no hole
of the index admits such a boundary. -/
theorem find_hole_page_aligned_pick (fuel : Nat) (m : Mem) (this : kheap_t)
    (size page_align alloc_pos : Nat) (hpa : page_align ≠ 0) (hfuel : 2 ≤ fuel)
    (hwf : ∀ k, k < this.index.size →
      this.index.array k + 9 + header_size m (this.index.array k) < 4294967296 ∧
      this.index.array k + 9 + 8192 + size ≤ 4294967296) :
    (find_hole fuel m this size page_align alloc_pos = some (-1, alloc_pos) ∧
      ∀ k, k < this.index.size → ∀ b, ¬ admits m (this.index.array k) size b) ∨
    ∃ j b, j < this.index.size ∧
      find_hole fuel m this size page_align alloc_pos = some ((j : Int), b) ∧
      admits m (this.index.array j) size b ∧
      (∀ b1, b1 < b → ¬ admits m (this.index.array j) size b1) ∧
      ∀ k, k < j → ∀ b1, ¬ admits m (this.index.array k) size b1 := by
  unfold find_hole
  rcases find_hole_loop_aligned_spec fuel m this size page_align alloc_pos hpa hfuel hwf
      this.index.size 0 (by omega) with ⟨h1, h2⟩ | ⟨j, b, _, h2, h3, h4, h5, h6⟩
  · left
    exact ⟨h1, fun k hk => h2 k (Nat.zero_le _) hk⟩
  · right
    exact ⟨j, b, h2, h3, h4, h5, fun k hk => h6 k (Nat.zero_le _) hk⟩

set_option maxRecDepth 100000 in
theorem gap_state_index :
    gap_state.kheap.index.size = 1 ∧ gap_state.kheap.index.array 0 = 0x180FE6 ∧
    header_size gap_state.mem 0x180FE6 = 12297 := by
  decide!

/-- Claim C28 (amended) on the four-page heap after `alloc(4053)`, for a
page-aligned request of 100 bytes. -/
theorem find_hole_page_aligned_pick_witness :
    (find_hole 2 gap_state.mem gap_state.kheap 100 1 0 = some (-1, 0) ∧
      ∀ k, k < gap_state.kheap.index.size →
        ∀ b, ¬ admits gap_state.mem (gap_state.kheap.index.array k) 100 b) ∨
    ∃ j b, j < gap_state.kheap.index.size ∧
      find_hole 2 gap_state.mem gap_state.kheap 100 1 0 = some ((j : Int), b) ∧
      admits gap_state.mem (gap_state.kheap.index.array j) 100 b ∧
      (∀ b1, b1 < b → ¬ admits gap_state.mem (gap_state.kheap.index.array j) 100 b1) ∧
      ∀ k, k < j → ∀ b1, ¬ admits gap_state.mem (gap_state.kheap.index.array k) 100 b1 :=
  find_hole_page_aligned_pick 2 gap_state.mem gap_state.kheap 100 1 0 (by decide) (by decide)
    (fun k hk => by
      obtain ⟨h1, h2, h3⟩ := gap_state_index
      have hk0 : k = 0 := by omega
      rw [hk0, h2, h3]
      omega)

set_option maxRecDepth 100000 in
/-- Claim C28 as stated fails: in the hole with header `0x180FE6` (data start
`0x180FEF`, payload 12297) the page boundary `0x181000` leaves room for 100
bytes and a gap of 17 bytes, which is at least `BLOCK_META_SIZE`, yet
`find_hole` for a page-aligned 100 bytes returns the later boundary
`0x182000`. -/
theorem gap_of_17_is_skipped :
    find_hole 2 gap_state.mem gap_state.kheap 100 1 0 = some (0, 0x182000) ∧
    gap_state.kheap.index.array 0 = 0x180FE6 ∧
    header_size gap_state.mem 0x180FE6 = 12297 ∧
    0x181000 % 4096 = 0 ∧ 0x181000 + 100 ≤ 0x180FE6 + 9 + 12297 ∧
    0x181000 - (0x180FE6 + 9) ≥ 17 ∧ 0x181000 < 0x182000 := by
  decide!

/-! ## Sizing of the allocated block -/

theorem alloc_place_split (s2 : KState) (block_size header size alloc_pos : Nat)
    (hs : 0 < size) (hsB : size ≤ block_size) (hB : block_size < 4294967296)
    (hwrap : header + block_size + 17 ≤ 4294967296)
    (hgt : 17 < block_size - size) :
    alloc_place s2 block_size header size alloc_pos =
      Res.ok (⟨mb_mem (mb_mem s2.mem header size NOT_HOLE) (header + size + 17)
            (block_size - size - 17) IS_HOLE,
          { s2.kheap with
            index := (ordered_array_insert
              (mb_mem (mb_mem s2.mem header size NOT_HOLE) (header + size + 17)
                (block_size - size - 17) IS_HOLE)
              s2.kheap.index (header + size + 17)).1 }⟩, alloc_pos) := by
  have e1 : sub32 block_size size = block_size - size := by
    rw [sub32_eq]
    omega
  have e2 : sub32 (block_size - size) BLOCK_META_SIZE = block_size - size - 17 := by
    rw [sub32_eq]
    unfold BLOCK_META_SIZE
    omega
  have e3 : add32 (add32 header BLOCK_META_SIZE) size = header + size + 17 := by
    unfold add32 BLOCK_META_SIZE
    omega
  have hnle : ¬ block_size - size ≤ BLOCK_META_SIZE := by
    unfold BLOCK_META_SIZE
    omega
  have hge : block_size ≥ size := hsB
  have hpos : block_size - size > 0 := by omega
  have hgt2 : block_size - size > BLOCK_META_SIZE := by
    unfold BLOCK_META_SIZE
    omega
  unfold alloc_place
  rewrite [if_pos hge]
  dsimp only
  rewrite [e1, if_neg hnle, if_neg hnle, make_block_eq _ _ _ _ hs]
  dsimp only
  rewrite [if_pos hpos, if_pos hgt2, e2, e3,
    make_block_eq _ _ _ _ (by omega : 0 < block_size - size - 17)]
  rfl

set_option maxRecDepth 100000 in
/-- Claim C1, at the failing input: on boot memory holding a stale footer just
below the first block, `init_kheap`, `kmalloc(100)`, `kmalloc(200)` and
`kfree(ptr1)` all return, and the following `kheap_validate_print(0)` halts on
a failed assertion instead of returning the live count 1. -/
theorem validate_halts_after_stale_free :
    (returned (free_first_run stale_mem)).map
      (fun r => outcome (kheap_validate_print 100 r.1 0)) = some 1 := by
  decide!

set_option maxRecDepth 100000 in
/-- Claim C2, at the failing input: on a one-page heap filled by `alloc(4079)`
the call `alloc(0xFFFFFFEE)` returns the pointer `0x181009`, which lies above
`end_address = 0x181000`. -/
theorem alloc_returns_pointer_past_end :
    (returned wrap_run).map
      (fun r => (r.2, r.1.kheap.start_address, r.1.kheap.end_address)) =
      some (0x181009, 0x180000, 0x181000) := by
  decide!

set_option maxRecDepth 100000 in
/-- Claim C3, at the failing input: after `kfree(ptr1)` on boot memory holding
a stale footer below the first block, the walk from `start_address` does not
satisfy block contiguity. -/
theorem contiguity_lost_after_stale_free :
    (returned (free_first_run stale_mem)).map
      (fun r => contiguity_walk r.1.mem r.1.kheap.end_address 100 r.1.kheap.start_address) =
      some false := by
  decide!

set_option maxRecDepth 100000 in
/-- Claim C4, at the failing input: after `kfree(ptr1)` on boot memory holding
a stale footer below the first block, the hole index holds only the header
`0xC0C8014E` although the linear scan finds the holes `0xC0C80000` and
`0xC0C8014E`. -/
theorem index_lost_after_stale_free :
    (returned (free_first_run stale_mem)).map
      (fun r => (index_entries r.1.kheap.index,
        scan_holes r.1.mem r.1.kheap.end_address 100 r.1.kheap.start_address,
        index_consistent 100 r.1)) =
      some ([0xC0C8014E], [0xC0C80000, 0xC0C8014E], false) := by
  decide!

set_option maxRecDepth 100000 in
/-- Claim C5 as stated fails: on a fresh heap in zero-filled memory, after
`kmalloc(100)`, `kmalloc(200)`, `kfree(ptr1)` the heap does not consist of 1
hole and 1 allocated block. -/
theorem one_hole_after_first_free_fails :
    ¬ ((returned (free_first_run zero_mem)).bind (fun r => validate_counts 100 r.1) =
        some (1, 1)) := by
  decide!

set_option maxRecDepth 100000 in
/-- Claim C5, amended: on a heap freshly created by `init_kheap` in zero-filled
memory, after `ptr1 = kmalloc(100)`, `ptr2 = kmalloc(200)`, `kfree(ptr1)` the
heap consists of exactly 2 holes and 1 allocated block and
`kheap_validate_print` returns 1; after the following `kfree(ptr2)` it consists
of exactly 1 hole and 0 allocated blocks and `kheap_validate_print` returns 0. -/
theorem coalescing_scenario :
    (returned (free_first_run zero_mem)).map
        (fun r => (validate_counts 100 r.1, returned (kheap_validate_print 100 r.1 0))) =
      some (some (2, 1), some 1) ∧
    (returned (free_both_run zero_mem)).map
        (fun s => (validate_counts 100 s, returned (kheap_validate_print 100 s 0))) =
      some (some (1, 0), some 0) := by
  decide!

set_option maxRecDepth 100000 in
/-- Claim C9, at the failing input: on the heap of `init_kheap` the call
`alloc(0x50000000)` returns although the page-rounded new end exceeds
`max_address`; it leaves `end_address = 0x10F01000`, below the old end
`0xC0F00000`. -/
theorem alloc_returns_with_smaller_end :
    (returned big_run).map (fun r => (r.1.kheap.end_address, r.1.kheap.max_address)) =
      some (0x10F01000, 0xE0000000) ∧
    (returned (init_kheap zero_mem zero_index)).map (fun s => s.kheap.end_address) =
      some 0xC0F00000 := by
  decide!

set_option maxRecDepth 100000 in
/-- Claim C30, at the failing input: on the one-page heap filled by
`alloc(4079)` no hole is left for a request of `0xFFFFFFEE` bytes; the growth
step leaves `end_address = 0x181000` as it was and puts the header `0x181000`
into the index, although the scan of `[start_address, end_address)` finds no
hole: index consistency does not hold before the search is retried. -/
theorem growth_step_breaks_index :
    (returned (andThen small_heap fun s0 => alloc 10 s0 4079 0)).map
      (fun r => find_hole 2 r.1.mem r.1.kheap 0xFFFFFFEE 0 0) = some (some (-1, 0)) ∧
    (returned grow_run).map
      (fun s => (s.kheap.end_address, index_entries s.kheap.index,
        scan_holes s.mem s.kheap.end_address 100 s.kheap.start_address,
        index_consistent 100 s)) =
      some (0x181000, [0x181000], [], false) := by
  decide!

/-! ## Bitmap lemmas -/

theorem and_two_pow_ne_zero (x k : Nat) : (x &&& 2 ^ k != 0) = x.testBit k := by
  cases h : x.testBit k
  · have hz : x &&& 2 ^ k = 0 := by
      apply Nat.eq_of_testBit_eq
      intro i
      rw [Nat.testBit_and, Nat.testBit_two_pow, Nat.zero_testBit]
      by_cases hi : k = i
      · subst hi
        simp [h]
      · simp [hi]
    simp [hz]
  · have hne : x &&& 2 ^ k ≠ 0 := by
      intro hz
      have := Nat.testBit_and x (2 ^ k) k
      rw [hz, Nat.zero_testBit, h, Nat.testBit_two_pow_self] at this
      simp at this
    simp [hne]

theorem pmm_test_bit_eq (bm : Nat → Nat) (bit : Nat) :
    pmm_test_bit bm bit = (bm (bit / 8)).testBit (bit % 8) := by
  unfold pmm_test_bit
  rw [Nat.one_shiftLeft, and_two_pow_ne_zero]

theorem frame_eq_of_byte_bit (p q : Nat) (h1 : q / 8 = p / 8) (h2 : q % 8 = p % 8) : q = p := by
  omega

theorem test_set_same (bm : Nat → Nat) (p : Nat) :
    pmm_test_bit (pmm_set_bit bm p) p = true := by
  rw [pmm_test_bit_eq]
  unfold pmm_set_bit
  rw [if_pos rfl, Nat.one_shiftLeft]
  have e : (256 : Nat) = 2 ^ 8 := by norm_num
  rw [e, Nat.testBit_mod_two_pow, Nat.testBit_or, Nat.testBit_two_pow_self]
  have : p % 8 < 8 := Nat.mod_lt _ (by norm_num)
  simp [this]

theorem test_set_other (bm : Nat → Nat) (p q : Nat) (h : q ≠ p) :
    pmm_test_bit (pmm_set_bit bm p) q = pmm_test_bit bm q := by
  rw [pmm_test_bit_eq, pmm_test_bit_eq]
  unfold pmm_set_bit
  by_cases hb : q / 8 = p / 8
  · rw [if_pos hb, Nat.one_shiftLeft]
    have e : (256 : Nat) = 2 ^ 8 := by norm_num
    have hk : p % 8 ≠ q % 8 := fun hk => h (frame_eq_of_byte_bit p q hb hk.symm)
    rw [e, Nat.testBit_mod_two_pow, Nat.testBit_or, Nat.testBit_two_pow_of_ne hk, hb]
    have : q % 8 < 8 := Nat.mod_lt _ (by norm_num)
    simp [this]
  · rw [if_neg hb]

theorem test_clear_same (bm : Nat → Nat) (p : Nat) :
    pmm_test_bit (pmm_clear_bit bm p) p = false := by
  rw [pmm_test_bit_eq]
  unfold pmm_clear_bit
  rw [if_pos rfl, Nat.one_shiftLeft]
  have e : (256 : Nat) = 2 ^ 8 := by norm_num
  rw [e, Nat.testBit_mod_two_pow, Nat.testBit_and, Nat.testBit_xor, Nat.testBit_two_pow_self]
  have e2 : (4294967295 : Nat) = 2 ^ 32 - 1 := by norm_num
  rw [e2, Nat.testBit_two_pow_sub_one]
  have : p % 8 < 32 := by omega
  simp [this]

theorem test_clear_other (bm : Nat → Nat) (p q : Nat) (h : q ≠ p) :
    pmm_test_bit (pmm_clear_bit bm p) q = pmm_test_bit bm q := by
  rw [pmm_test_bit_eq, pmm_test_bit_eq]
  unfold pmm_clear_bit
  by_cases hb : q / 8 = p / 8
  · rw [if_pos hb, Nat.one_shiftLeft]
    have e : (256 : Nat) = 2 ^ 8 := by norm_num
    have hk : p % 8 ≠ q % 8 := fun hk => h (frame_eq_of_byte_bit p q hb hk.symm)
    rw [e, Nat.testBit_mod_two_pow, Nat.testBit_and, Nat.testBit_xor,
      Nat.testBit_two_pow_of_ne hk, hb]
    have e2 : (4294967295 : Nat) = 2 ^ 32 - 1 := by norm_num
    rw [e2, Nat.testBit_two_pow_sub_one]
    have h8 : q % 8 < 8 := Nat.mod_lt _ (by norm_num)
    have h32 : q % 8 < 32 := by omega
    simp [h8, h32]
  · rw [if_neg hb]

/-- Clearing a bit that was set in a bitmap of bytes restores the bitmap when
the bit was clear before. -/
theorem clear_set_restores (bm : Nat → Nat) (p : Nat) (hbytes : ∀ i, bm i < 256)
    (hfree : pmm_test_bit bm p = false) : pmm_clear_bit (pmm_set_bit bm p) p = bm := by
  funext i
  unfold pmm_clear_bit
  by_cases hb : i = p / 8
  · rw [if_pos hb]
    unfold pmm_set_bit
    rw [if_pos hb, Nat.one_shiftLeft]
    rw [pmm_test_bit_eq, ← hb] at hfree
    apply Nat.eq_of_testBit_eq
    intro j
    have e : (256 : Nat) = 2 ^ 8 := by norm_num
    have e2 : (4294967295 : Nat) = 2 ^ 32 - 1 := by norm_num
    rw [e, Nat.testBit_mod_two_pow, Nat.testBit_and, Nat.testBit_mod_two_pow, Nat.testBit_or,
      Nat.testBit_xor, e2, Nat.testBit_two_pow_sub_one, Nat.testBit_two_pow]
    by_cases hj : j < 8
    · have h32 : j < 32 := by omega
      by_cases hk : p % 8 = j
      · subst hk
        simp [hj, h32, hfree]
      · simp [hj, h32, hk]
    · have hlt : bm i < 2 ^ j := by
        have h1 := hbytes i
        have h2 : (2 : Nat) ^ 8 ≤ 2 ^ j := Nat.pow_le_pow_right (by norm_num) (by omega)
        omega
      rw [Nat.testBit_lt_two_pow hlt]
      simp [hj]
  · rw [if_neg hb]
    unfold pmm_set_bit
    rw [if_neg hb]

/-! ## The scan of `pmm_alloc_page` -/

theorem mod_shift_ne (start k M : Nat) (hs : start < M) (hk : 0 < k) (hkM : k < M) :
    (start + k) % M ≠ start := by
  by_cases h : start + k < M
  · rw [Nat.mod_eq_of_lt h]
    omega
  · rw [Nat.mod_eq_sub_mod (by omega), Nat.mod_eq_of_lt (by omega)]
    omega

theorem mod_shift_full (start M : Nat) (hs : start < M) : (start + M) % M = start := by
  rw [Nat.add_mod_right, Nat.mod_eq_of_lt hs]

theorem mod_shift_onto (start q M : Nat) (hs : start < M) (hq : q < M) :
    ∃ j, j < M ∧ (start + j) % M = q := by
  by_cases h : start ≤ q
  · refine ⟨q - start, by omega, ?_⟩
    rw [show start + (q - start) = q by omega, Nat.mod_eq_of_lt hq]
  · refine ⟨q + M - start, by omega, ?_⟩
    rw [show start + (q + M - start) = q + M by omega, Nat.add_mod_right, Nat.mod_eq_of_lt hq]

theorem alloc_scan_cases (s : PmmState) (start : Nat) (hst : start < s.pmm_max_ram_page) :
    ∀ n k, k + n + 1 = s.pmm_max_ram_page →
      (alloc_scan start (n + 1) ((start + k) % s.pmm_max_ram_page) s = Res.ok (s, 0) ∧
        ∀ j, k ≤ j → j < s.pmm_max_ram_page →
          ¬ allocatable s ((start + j) % s.pmm_max_ram_page)) ∨
      ∃ d, k ≤ d ∧ d < s.pmm_max_ram_page ∧
        allocatable s ((start + d) % s.pmm_max_ram_page) ∧
        (∀ j, k ≤ j → j < d → ¬ allocatable s ((start + j) % s.pmm_max_ram_page)) ∧
        alloc_scan start (n + 1) ((start + k) % s.pmm_max_ram_page) s =
          Res.ok (alloc_state s ((start + d) % s.pmm_max_ram_page),
            ((start + d) % s.pmm_max_ram_page * PAGE_SIZE) % 4294967296) := by
  intro n
  induction n with
  | zero =>
    intro k hk
    by_cases ha : allocatable s ((start + k) % s.pmm_max_ram_page)
    · right
      refine ⟨k, Nat.le_refl _, by omega, ha, fun j h1 h2 => by omega, ?_⟩
      have ha2 : (start + k) % s.pmm_max_ram_page ≥ LOW_MEMORY_SIZE / PAGE_SIZE ∧
          pmm_test_bit s.pmm_bitmap ((start + k) % s.pmm_max_ram_page) = false := ha
      rw [alloc_scan, if_pos ha2]
      rfl
    · left
      constructor
      · have ha2 : ¬ ((start + k) % s.pmm_max_ram_page ≥ LOW_MEMORY_SIZE / PAGE_SIZE ∧
            pmm_test_bit s.pmm_bitmap ((start + k) % s.pmm_max_ram_page) = false) := ha
        rw [alloc_scan, if_neg ha2]
        have e : ((start + k) % s.pmm_max_ram_page + 1) % s.pmm_max_ram_page = start := by
          rw [Nat.mod_add_mod, show start + k + 1 = start + s.pmm_max_ram_page by omega]
          exact mod_shift_full _ _ hst
        simp only [e, ne_eq, not_true_eq_false, if_false]
      · intro j h1 h2
        have : j = k := by omega
        rw [this]
        exact ha
  | succ n ih =>
    intro k hk
    by_cases ha : allocatable s ((start + k) % s.pmm_max_ram_page)
    · right
      refine ⟨k, Nat.le_refl _, by omega, ha, fun j h1 h2 => by omega, ?_⟩
      have ha2 : (start + k) % s.pmm_max_ram_page ≥ LOW_MEMORY_SIZE / PAGE_SIZE ∧
          pmm_test_bit s.pmm_bitmap ((start + k) % s.pmm_max_ram_page) = false := ha
      rw [alloc_scan, if_pos ha2]
      rfl
    · have e : ((start + k) % s.pmm_max_ram_page + 1) % s.pmm_max_ram_page =
          (start + (k + 1)) % s.pmm_max_ram_page := by
        rw [Nat.mod_add_mod, Nat.add_assoc]
      have hne : (start + (k + 1)) % s.pmm_max_ram_page ≠ start :=
        mod_shift_ne _ _ _ hst (by omega) (by omega)
      have hstep : alloc_scan start (n + 1 + 1) ((start + k) % s.pmm_max_ram_page) s =
          alloc_scan start (n + 1) ((start + (k + 1)) % s.pmm_max_ram_page) s := by
        have ha2 : ¬ ((start + k) % s.pmm_max_ram_page ≥ LOW_MEMORY_SIZE / PAGE_SIZE ∧
            pmm_test_bit s.pmm_bitmap ((start + k) % s.pmm_max_ram_page) = false) := ha
        rw [alloc_scan, if_neg ha2]
        simp only [e, ne_eq, hne, not_false_eq_true, if_true]
      rw [hstep]
      rcases ih (k + 1) (by omega) with ⟨h1, h2⟩ | ⟨d, h1, h2, h3, h4, h5⟩
      · left
        refine ⟨h1, ?_⟩
        intro j hj1 hj2
        by_cases hjk : j = k
        · rw [hjk]
          exact ha
        · exact h2 j (by omega) hj2
      · right
        refine ⟨d, by omega, h2, h3, ?_, h5⟩
        intro j hj1 hj2
        by_cases hjk : j = k
        · rw [hjk]
          exact ha
        · exact h4 j (by omega) hj2

/-- The two ways `pmm_alloc_page` returns: with 0 and the state unchanged, or
with the first allocatable frame of the scan that starts at the cursor. -/
theorem pmm_alloc_page_cases (s : PmmState) :
    (pmm_alloc_page s = Res.ok (s, 0) ∧
      (s.pmm_free_pages ≠ 0 → ∀ q, q < s.pmm_max_ram_page → ¬ allocatable s q)) ∨
    ∃ d, d < s.pmm_max_ram_page ∧ s.pmm_free_pages ≠ 0 ∧
      scan_index s d < s.pmm_max_ram_page ∧ allocatable s (scan_index s d) ∧
      (∀ j, j < d → ¬ allocatable s (scan_index s j)) ∧
      pmm_alloc_page s =
        Res.ok (alloc_state s (scan_index s d), (scan_index s d * PAGE_SIZE) % 4294967296) := by
  unfold pmm_alloc_page
  by_cases h0 : s.pmm_free_pages = 0 ∨ s.pmm_max_ram_page = 0
  · left
    rw [if_pos h0]
    refine ⟨rfl, ?_⟩
    intro hf q hq
    rcases h0 with h0 | h0
    · exact absurd h0 hf
    · omega
  · rw [if_neg h0]
    have hM : 0 < s.pmm_max_ram_page := by omega
    have hf : s.pmm_free_pages ≠ 0 := fun h => h0 (Or.inl h)
    have hst : s.pmm_last_alloc_index % s.pmm_max_ram_page < s.pmm_max_ram_page :=
      Nat.mod_lt _ hM
    obtain ⟨n, hn⟩ : ∃ n, s.pmm_max_ram_page = n + 1 := ⟨s.pmm_max_ram_page - 1, by omega⟩
    have key := alloc_scan_cases s (s.pmm_last_alloc_index % s.pmm_max_ram_page) hst n 0
      (by omega)
    have e0 : (s.pmm_last_alloc_index % s.pmm_max_ram_page + 0) % s.pmm_max_ram_page =
        s.pmm_last_alloc_index % s.pmm_max_ram_page := by
      rw [Nat.add_zero, Nat.mod_mod]
    rw [e0, ← hn] at key
    rcases key with ⟨h1, h2⟩ | ⟨d, h1, h2, h3, h4, h5⟩
    · left
      refine ⟨h1, ?_⟩
      intro _ q hq
      obtain ⟨j, hj, hjq⟩ := mod_shift_onto _ q _ hst hq
      have := h2 j (Nat.zero_le _) hj
      rw [hjq] at this
      exact this
    · right
      refine ⟨d, h2, hf, Nat.mod_lt _ hM, h3, ?_, h5⟩
      intro j hj
      exact h4 j (Nat.zero_le _) hj

theorem low_limit_eq : LOW_MEMORY_SIZE / PAGE_SIZE = 512 := by decide

theorem frame_addr_facts (f M : Nat) (hf : f < M) (hM : M ≤ 1048576) :
    (f * PAGE_SIZE) % 4294967296 = f * 4096 ∧ f * 4096 / 4096 = f ∧ f * 4096 % 4096 = 0 := by
  unfold PAGE_SIZE
  refine ⟨Nat.mod_eq_of_lt (by omega), by omega, by omega⟩

/-- Claim C12, amended: `pmm_alloc_page` performs a next-fit scan that begins
at the cursor itself (the index of the last allocated frame, modulo
`max_ram_frame`): it visits the indices in cyclic order within
`[0, max_ram_frame)`, accepts only free frames with index at least 512,
returns the first such frame and records it as the new cursor; it returns 0
with the state unchanged when the free counter is 0 or no frame of
`[512, max_ram_frame)` is free, and only then.  Stated for `max_ram_frame`
within the bitmap capacity of 1048576 frames. -/
theorem pmm_alloc_page_next_fit (s : PmmState) (hM : s.pmm_max_ram_page ≤ 1048576) :
    ∃ s1 a, pmm_alloc_page s = Res.ok (s1, a) ∧
      ((s.pmm_free_pages = 0 ∨ ∀ q, q < s.pmm_max_ram_page → ¬ allocatable s q) →
        a = 0 ∧ s1 = s) ∧
      (a = 0 → s1 = s ∧
        (s.pmm_free_pages ≠ 0 → ∀ q, q < s.pmm_max_ram_page → ¬ allocatable s q)) ∧
      (a ≠ 0 → ∃ d, d < s.pmm_max_ram_page ∧ a = scan_index s d * PAGE_SIZE ∧
        allocatable s (scan_index s d) ∧ (∀ j, j < d → ¬ allocatable s (scan_index s j)) ∧
        s1.pmm_last_alloc_index = scan_index s d) := by
  rcases pmm_alloc_page_cases s with ⟨h1, h2⟩ | ⟨d, h1, h2, h3, h4, h5, h6⟩
  · exact ⟨s, 0, h1, fun _ => ⟨rfl, rfl⟩, fun _ => ⟨rfl, h2⟩, fun h => absurd rfl h⟩
  · obtain ⟨e1, _, _⟩ := frame_addr_facts _ _ h3 hM
    have hlow : 512 ≤ scan_index s d := by
      have := h4.1
      rw [low_limit_eq] at this
      exact this
    refine ⟨_, _, h6, ?_, ?_, ?_⟩
    · intro h
      rcases h with h | h
      · exact absurd h h2
      · exact absurd h4 (h _ h3)
    · intro h
      rw [e1] at h
      omega
    · intro _
      refine ⟨d, h1, ?_, h4, h5, rfl⟩
      rw [e1]
      rfl

/-- Within the bitmap capacity (`max_ram_frame` at most 1048576): when
`pmm_alloc_page` returns an address `a` other than 0, `a`
is a multiple of 4096 with `2 MiB ≤ a < max_ram_frame * 4096`, frame
`a / 4096` was free before the call and is used after it, every other bit of
the bitmap is unchanged and the free count drops by exactly one; when it
returns 0, the bitmap, the free count and the cursor are unchanged. -/
theorem pmm_alloc_page_effect (s : PmmState) (hM : s.pmm_max_ram_page ≤ 1048576)
    (hc : s.pmm_free_pages < 4294967296) :
    ∃ s1 a, pmm_alloc_page s = Res.ok (s1, a) ∧
      (a ≠ 0 → a % 4096 = 0 ∧ 2097152 ≤ a ∧ a < s.pmm_max_ram_page * 4096 ∧
        pmm_test_bit s.pmm_bitmap (a / 4096) = false ∧
        pmm_test_bit s1.pmm_bitmap (a / 4096) = true ∧
        (∀ q, q ≠ a / 4096 → pmm_test_bit s1.pmm_bitmap q = pmm_test_bit s.pmm_bitmap q) ∧
        s1.pmm_free_pages + 1 = s.pmm_free_pages) ∧
      (a = 0 → s1.pmm_bitmap = s.pmm_bitmap ∧ s1.pmm_free_pages = s.pmm_free_pages ∧
        s1.pmm_last_alloc_index = s.pmm_last_alloc_index) := by
  rcases pmm_alloc_page_cases s with ⟨h1, _⟩ | ⟨d, h1, h2, h3, h4, h5, h6⟩
  · exact ⟨s, 0, h1, fun h => absurd rfl h, fun _ => ⟨rfl, rfl, rfl⟩⟩
  · obtain ⟨e1, e2, e3⟩ := frame_addr_facts _ _ h3 hM
    have hlow : 512 ≤ scan_index s d := by
      have := h4.1
      rw [low_limit_eq] at this
      exact this
    refine ⟨_, _, h6, ?_, ?_⟩
    · intro _
      rw [e1, e2]
      refine ⟨e3, by omega, by omega, h4.2, test_set_same _ _, ?_, ?_⟩
      · intro q hq
        exact test_set_other _ _ _ hq
      · show sub32 s.pmm_free_pages 1 + 1 = s.pmm_free_pages
        rw [sub32_eq]
        omega
    · intro h
      rw [e1] at h
      omega

/-- The effect of `pmm_alloc_page` at the state with cursor 512, four free
frames `512 … 515` and free count 4. -/
theorem pmm_alloc_page_effect_witness :
    ∃ s1 a, pmm_alloc_page demo_state = Res.ok (s1, a) ∧
      (a ≠ 0 → a % 4096 = 0 ∧ 2097152 ≤ a ∧ a < demo_state.pmm_max_ram_page * 4096 ∧
        pmm_test_bit demo_state.pmm_bitmap (a / 4096) = false ∧
        pmm_test_bit s1.pmm_bitmap (a / 4096) = true ∧
        (∀ q, q ≠ a / 4096 →
          pmm_test_bit s1.pmm_bitmap q = pmm_test_bit demo_state.pmm_bitmap q) ∧
        s1.pmm_free_pages + 1 = demo_state.pmm_free_pages) ∧
      (a = 0 → s1.pmm_bitmap = demo_state.pmm_bitmap ∧
        s1.pmm_free_pages = demo_state.pmm_free_pages ∧
        s1.pmm_last_alloc_index = demo_state.pmm_last_alloc_index) :=
  pmm_alloc_page_effect demo_state (by decide) (by decide)

/-- Claim C12 (amended) at the state with cursor 512 and four free frames. -/
theorem pmm_alloc_page_next_fit_witness :
    ∃ s1 a, pmm_alloc_page demo_state = Res.ok (s1, a) ∧
      ((demo_state.pmm_free_pages = 0 ∨
          ∀ q, q < demo_state.pmm_max_ram_page → ¬ allocatable demo_state q) →
        a = 0 ∧ s1 = demo_state) ∧
      (a = 0 → s1 = demo_state ∧
        (demo_state.pmm_free_pages ≠ 0 →
          ∀ q, q < demo_state.pmm_max_ram_page → ¬ allocatable demo_state q)) ∧
      (a ≠ 0 → ∃ d, d < demo_state.pmm_max_ram_page ∧ a = scan_index demo_state d * PAGE_SIZE ∧
        allocatable demo_state (scan_index demo_state d) ∧
        (∀ j, j < d → ¬ allocatable demo_state (scan_index demo_state j)) ∧
        s1.pmm_last_alloc_index = scan_index demo_state d) :=
  pmm_alloc_page_next_fit demo_state (by decide)

/-- Within the bitmap capacity (`max_ram_frame` at most 1048576): when
`pmm_alloc_page` returns an address `a` other than 0, the
following `pmm_free_page(a)` restores the bitmap and the free count to their
values before the allocation. -/
theorem alloc_free_round_trip (s : PmmState) (hM : s.pmm_max_ram_page ≤ 1048576)
    (hc : s.pmm_free_pages < 4294967296) (hbytes : ∀ i, s.pmm_bitmap i < 256) :
    ∃ s1 a, pmm_alloc_page s = Res.ok (s1, a) ∧
      (a ≠ 0 → (pmm_free_page s1 a).pmm_bitmap = s.pmm_bitmap ∧
        (pmm_free_page s1 a).pmm_free_pages = s.pmm_free_pages) := by
  rcases pmm_alloc_page_cases s with ⟨h1, _⟩ | ⟨d, h1, h2, h3, h4, h5, h6⟩
  · exact ⟨s, 0, h1, fun h => absurd rfl h⟩
  · obtain ⟨e1, e2, e3⟩ := frame_addr_facts _ _ h3 hM
    have hlow : 512 ≤ scan_index s d := by
      have := h4.1
      rw [low_limit_eq] at this
      exact this
    refine ⟨_, _, h6, ?_⟩
    intro _
    rw [e1]
    have hfree : pmm_free_page (alloc_state s (scan_index s d)) (scan_index s d * 4096) =
        { alloc_state s (scan_index s d) with
          pmm_bitmap := pmm_clear_bit (alloc_state s (scan_index s d)).pmm_bitmap (scan_index s d),
          pmm_free_pages := add32 (alloc_state s (scan_index s d)).pmm_free_pages 1 } := by
      unfold pmm_free_page
      have hmod : ¬ (scan_index s d * 4096 % PAGE_SIZE ≠ 0) := by
        unfold PAGE_SIZE
        omega
      have hdiv : scan_index s d * 4096 / PAGE_SIZE = scan_index s d := by
        unfold PAGE_SIZE
        omega
      rw [if_neg hmod]
      simp only [hdiv, low_limit_eq]
      have hrange : ¬ (scan_index s d < 512 ∨
          scan_index s d ≥ (alloc_state s (scan_index s d)).pmm_max_ram_page) := by
        have : (alloc_state s (scan_index s d)).pmm_max_ram_page = s.pmm_max_ram_page := rfl
        rw [this]
        omega
      rw [if_neg hrange]
      have hset : ¬ (pmm_test_bit (alloc_state s (scan_index s d)).pmm_bitmap (scan_index s d) =
          false) := by
        have : (alloc_state s (scan_index s d)).pmm_bitmap =
            pmm_set_bit s.pmm_bitmap (scan_index s d) := rfl
        rw [this, test_set_same]
        simp
      rw [if_neg hset]
    rw [hfree]
    constructor
    · show pmm_clear_bit (pmm_set_bit s.pmm_bitmap (scan_index s d)) (scan_index s d) =
        s.pmm_bitmap
      exact clear_set_restores _ _ hbytes h4.2
    · show add32 (sub32 s.pmm_free_pages 1) 1 = s.pmm_free_pages
      rw [sub32_eq]
      unfold add32
      omega

/-- The round trip at the state with cursor 512, four free frames and free
count 4. -/
theorem alloc_free_round_trip_witness :
    ∃ s1 a, pmm_alloc_page demo_state = Res.ok (s1, a) ∧
      (a ≠ 0 → (pmm_free_page s1 a).pmm_bitmap = demo_state.pmm_bitmap ∧
        (pmm_free_page s1 a).pmm_free_pages = demo_state.pmm_free_pages) :=
  alloc_free_round_trip demo_state (by decide) (by decide)
    (fun i => by unfold demo_state; dsimp only; split <;> decide)

/-- Claim C15: `pmm_free_page(a)` leaves the state unchanged when `a` is not a
multiple of 4096, when `a / 4096 < 512`, when `a / 4096 ≥ max_ram_frame` or
when the bit of the frame is already clear; in every other case it clears
exactly the bit of frame `a / 4096` and increments the free count by exactly
one. -/
theorem pmm_free_page_effect (s : PmmState) (a : Nat)
    (hc : s.pmm_free_pages + 1 < 4294967296) :
    ((a % 4096 ≠ 0 ∨ a / 4096 < 512 ∨ s.pmm_max_ram_page ≤ a / 4096 ∨
        pmm_test_bit s.pmm_bitmap (a / 4096) = false) → pmm_free_page s a = s) ∧
    (¬ (a % 4096 ≠ 0 ∨ a / 4096 < 512 ∨ s.pmm_max_ram_page ≤ a / 4096 ∨
        pmm_test_bit s.pmm_bitmap (a / 4096) = false) →
      pmm_test_bit (pmm_free_page s a).pmm_bitmap (a / 4096) = false ∧
      (∀ q, q ≠ a / 4096 →
        pmm_test_bit (pmm_free_page s a).pmm_bitmap q = pmm_test_bit s.pmm_bitmap q) ∧
      (pmm_free_page s a).pmm_free_pages = s.pmm_free_pages + 1) := by
  have hP : PAGE_SIZE = 4096 := rfl
  constructor
  · intro h
    unfold pmm_free_page
    simp only [low_limit_eq]
    simp only [hP]
    by_cases h1 : a % 4096 ≠ 0
    · rw [if_pos h1]
    · rw [if_neg h1]
      by_cases h2 : a / 4096 < 512 ∨ a / 4096 ≥ s.pmm_max_ram_page
      · rw [if_pos h2]
      · rw [if_neg h2]
        have h3 : pmm_test_bit s.pmm_bitmap (a / 4096) = false := by
          rcases h with h | h | h | h
          · exact absurd h h1
          · exact absurd (Or.inl h) h2
          · exact absurd (Or.inr h) h2
          · exact h
        rw [if_pos h3]
  · intro h
    have h1 : ¬ (a % 4096 ≠ 0) := fun c => h (Or.inl c)
    have h2 : ¬ (a / 4096 < 512 ∨ a / 4096 ≥ s.pmm_max_ram_page) := by
      intro c
      rcases c with c | c
      · exact h (Or.inr (Or.inl c))
      · exact h (Or.inr (Or.inr (Or.inl c)))
    have h3 : ¬ (pmm_test_bit s.pmm_bitmap (a / 4096) = false) :=
      fun c => h (Or.inr (Or.inr (Or.inr c)))
    have hfree : pmm_free_page s a =
        { s with pmm_bitmap := pmm_clear_bit s.pmm_bitmap (a / 4096),
                 pmm_free_pages := add32 s.pmm_free_pages 1 } := by
      unfold pmm_free_page
      simp only [low_limit_eq]
      simp only [hP]
      rw [if_neg h1, if_neg h2, if_neg h3]
    rw [hfree]
    refine ⟨test_clear_same _ _, fun q hq => test_clear_other _ _ _ hq, ?_⟩
    show add32 s.pmm_free_pages 1 = s.pmm_free_pages + 1
    unfold add32
    omega

/-- Claim C15 at the state with cursor 512 and free count 4, for the address
`0x1000` of a frame below 2 MiB. -/
theorem pmm_free_page_effect_witness : pmm_free_page demo_state 0x1000 = demo_state :=
  (pmm_free_page_effect demo_state 0x1000 (by decide)).1 (Or.inr (Or.inl (by decide)))

/-- The clearing case of `pmm_free_page`. -/
theorem pmm_free_page_eq (s : PmmState) (a : Nat) (h1 : a % 4096 = 0) (h2 : 512 ≤ a / 4096)
    (h3 : a / 4096 < s.pmm_max_ram_page) (h4 : pmm_test_bit s.pmm_bitmap (a / 4096) = true) :
    pmm_free_page s a =
      { s with pmm_bitmap := pmm_clear_bit s.pmm_bitmap (a / 4096),
               pmm_free_pages := add32 s.pmm_free_pages 1 } := by
  have hP : PAGE_SIZE = 4096 := rfl
  unfold pmm_free_page
  simp only [low_limit_eq]
  simp only [hP]
  rw [if_neg (by omega), if_neg (by omega), if_neg (by rw [h4]; exact Bool.noConfusion)]

/-! ## Sequences of allocator calls -/

theorem pmm_step_max_ram (s : PmmState) (op : PmmOp) :
    (pmm_step s op).1.pmm_max_ram_page = s.pmm_max_ram_page := by
  cases op with
  | alloc =>
    unfold pmm_step
    rcases pmm_alloc_page_cases s with ⟨h1, _⟩ | ⟨d, _, _, _, _, _, h6⟩
    · rw [h1]
    · rw [h6]
      rfl
  | free a =>
    unfold pmm_step pmm_free_page
    dsimp only
    split
    · rfl
    · split
      · rfl
      · split <;> rfl

theorem pmm_step_keeps_used (s : PmmState) (op : PmmOp) (p : Nat)
    (hM : s.pmm_max_ram_page ≤ 1048576)
    (hused : pmm_test_bit s.pmm_bitmap p = true)
    (hop : ∀ a, op = PmmOp.free a → a ≠ p * 4096 ∨ p < 512 ∨ s.pmm_max_ram_page ≤ p) :
    pmm_test_bit (pmm_step s op).1.pmm_bitmap p = true ∧
    ∀ a, (pmm_step s op).2 = some a → a ≠ 0 → a ≠ p * 4096 := by
  cases op with
  | alloc =>
    unfold pmm_step
    rcases pmm_alloc_page_cases s with ⟨h1, _⟩ | ⟨d, _, _, h3, h4, _, h6⟩
    · rw [h1]
      refine ⟨hused, ?_⟩
      intro a ha hne
      simp only [Option.some.injEq] at ha
      exact absurd ha.symm hne
    · rw [h6]
      obtain ⟨e1, _, _⟩ := frame_addr_facts _ _ h3 hM
      have hne : scan_index s d ≠ p := by
        intro c
        have := h4.2
        rw [c, hused] at this
        exact Bool.noConfusion this
      constructor
      · show pmm_test_bit (pmm_set_bit s.pmm_bitmap (scan_index s d)) p = true
        rw [test_set_other _ _ _ (Ne.symm hne), hused]
      · intro a ha _
        simp only [Option.some.injEq] at ha
        rw [← ha, e1]
        omega
  | free a =>
    have hP : PAGE_SIZE = 4096 := rfl
    constructor
    · unfold pmm_step pmm_free_page
      simp only [low_limit_eq]
      simp only [hP]
      by_cases h1 : a % 4096 ≠ 0
      · rw [if_pos h1]
        exact hused
      · rw [if_neg h1]
        by_cases h2 : a / 4096 < 512 ∨ a / 4096 ≥ s.pmm_max_ram_page
        · rw [if_pos h2]
          exact hused
        · rw [if_neg h2]
          by_cases h3 : pmm_test_bit s.pmm_bitmap (a / 4096) = false
          · rw [if_pos h3]
            exact hused
          · rw [if_neg h3]
            have hne : p ≠ a / 4096 := by
              rcases hop a rfl with h | h | h
              · omega
              · omega
              · omega
            show pmm_test_bit (pmm_clear_bit s.pmm_bitmap (a / 4096)) p = true
            rw [test_clear_other _ _ _ hne, hused]
    · intro b hb
      unfold pmm_step at hb
      exact Option.noConfusion hb

/-- Claim C17, amended: a frame that is marked used (as the frames `pmm_init`
marks for non-RAM regions, the kernel image and the first 2 MiB are) is still
marked used after any sequence of `pmm_alloc_page` and `pmm_free_page` calls
in which every `pmm_free_page` argument differs from the address of that
frame, or the frame lies below 2 MiB or at or above `max_ram_frame`; and its
address is never returned by `pmm_alloc_page`.  `pmm_free_page` called with
the address of a used frame inside `[2 MiB, max_ram_frame * 4096)` clears its
bit.  Stated for `max_ram_frame` within the bitmap capacity of 1048576
frames. -/
theorem used_frame_stays_used (ops : List PmmOp) (s : PmmState) (p : Nat)
    (hM : s.pmm_max_ram_page ≤ 1048576)
    (hused : pmm_test_bit s.pmm_bitmap p = true)
    (hops : ∀ a, PmmOp.free a ∈ ops → a ≠ p * 4096 ∨ p < 512 ∨ s.pmm_max_ram_page ≤ p) :
    pmm_test_bit (pmm_run ops s).1.pmm_bitmap p = true ∧
    (∀ a, a ∈ (pmm_run ops s).2 → a ≠ 0 → a ≠ p * 4096) ∧
    (512 ≤ p → p < s.pmm_max_ram_page →
      pmm_test_bit (pmm_free_page s (p * 4096)).pmm_bitmap p = false) := by
  have hclear : 512 ≤ p → p < s.pmm_max_ram_page →
      pmm_test_bit (pmm_free_page s (p * 4096)).pmm_bitmap p = false := by
    intro h1 h2
    have e : p * 4096 / 4096 = p := by omega
    rw [pmm_free_page_eq s (p * 4096) (by omega) (by omega) (by omega) (by rw [e]; exact hused), e]
    exact test_clear_same _ _
  have hmain : pmm_test_bit (pmm_run ops s).1.pmm_bitmap p = true ∧
      ∀ a, a ∈ (pmm_run ops s).2 → a ≠ 0 → a ≠ p * 4096 := by
    clear hclear
    induction ops generalizing s with
    | nil =>
      refine ⟨hused, ?_⟩
      intro a ha
      simp [pmm_run] at ha
    | cons op ops ih =>
      have hstep := pmm_step_keeps_used s op p hM hused
        (fun a ha => hops a (by rw [ha]; exact List.mem_cons_self _ _))
      have hmax := pmm_step_max_ram s op
      have hrest := ih (pmm_step s op).1 (by rw [hmax]; exact hM) hstep.1
        (fun a ha => by rw [hmax]; exact hops a (List.mem_cons_of_mem _ ha))
      unfold pmm_run
      dsimp only
      refine ⟨hrest.1, ?_⟩
      intro a ha hne
      cases hr : (pmm_step s op).2 with
      | none =>
        rw [hr] at ha
        exact hrest.2 a ha hne
      | some b =>
        rw [hr] at ha
        rcases List.mem_cons.mp ha with h | h
        · rw [h]
          exact hstep.2 b hr (by rw [← h]; exact hne)
        · exact hrest.2 a h hne
  exact ⟨hmain.1, hmain.2, hclear⟩

/-- Claim C17 (amended) at the state in which the first 512 frames and frame
512 are used, for frame 512 and the calls `pmm_alloc_page()`,
`pmm_free_page(0x201000)`, `pmm_free_page(0x3000)`, `pmm_alloc_page()`: frame
512 stays used and `0x200000` is not returned, whereas `pmm_free_page(0x200000)`
clears its bit. -/
theorem used_frame_stays_used_witness :
    pmm_test_bit (pmm_run [PmmOp.alloc, PmmOp.free 0x201000, PmmOp.free 0x3000, PmmOp.alloc]
      (alloc_state demo_state 512)).1.pmm_bitmap 512 = true ∧
    (∀ a, a ∈ (pmm_run [PmmOp.alloc, PmmOp.free 0x201000, PmmOp.free 0x3000, PmmOp.alloc]
      (alloc_state demo_state 512)).2 → a ≠ 0 → a ≠ 512 * 4096) ∧
    (512 ≤ 512 → 512 < (alloc_state demo_state 512).pmm_max_ram_page →
      pmm_test_bit (pmm_free_page (alloc_state demo_state 512) (512 * 4096)).pmm_bitmap 512 =
        false) :=
  used_frame_stays_used [PmmOp.alloc, PmmOp.free 0x201000, PmmOp.free 0x3000, PmmOp.alloc]
    (alloc_state demo_state 512) 512 (by decide) (by decide)
    (fun a ha => Or.inl (by
      simp only [List.mem_cons, PmmOp.free.injEq, List.mem_singleton, reduceCtorEq, false_or,
        or_false, List.not_mem_nil] at ha
      rcases ha with h | h
      · rw [h]
        decide
      · rw [h]
        decide))

/-- What a call of `pmm_alloc_page` returns and how it changes the state. -/
theorem alloc_result_facts (s : PmmState) (hM : s.pmm_max_ram_page ≤ 1048576)
    (hc : s.pmm_free_pages < 4294967296) :
    ∃ s1 a, pmm_alloc_page s = Res.ok (s1, a) ∧
      (a = 0 → s1 = s) ∧
      (s.pmm_free_pages ≠ 0 → (∃ q, q < s.pmm_max_ram_page ∧ allocatable s q) → a ≠ 0) ∧
      (a ≠ 0 → a % 4096 = 0 ∧ 2097152 ≤ a ∧ a < 4294967296 ∧
        pmm_test_bit s.pmm_bitmap (a / 4096) = false ∧
        pmm_test_bit s1.pmm_bitmap (a / 4096) = true ∧
        (∀ q, q ≠ a / 4096 → pmm_test_bit s1.pmm_bitmap q = pmm_test_bit s.pmm_bitmap q) ∧
        s1.pmm_free_pages + 1 = s.pmm_free_pages) := by
  rcases pmm_alloc_page_cases s with ⟨h1, h2⟩ | ⟨d, h1, h2, h3, h4, h5, h6⟩
  · refine ⟨s, 0, h1, fun _ => rfl, ?_, fun h => absurd rfl h⟩
    intro hf hq
    obtain ⟨q, hq1, hq2⟩ := hq
    exact absurd hq2 (h2 hf q hq1)
  · obtain ⟨e1, e2, e3⟩ := frame_addr_facts _ _ h3 hM
    have hlow : 512 ≤ scan_index s d := by
      have := h4.1
      rw [low_limit_eq] at this
      exact this
    have hne : scan_index s d * 4096 ≠ 0 := by omega
    refine ⟨_, _, h6, ?_, ?_, ?_⟩
    · intro h
      rw [e1] at h
      exact absurd h hne
    · intro _ _
      rw [e1]
      exact hne
    · intro _
      rw [e1, e2]
      refine ⟨e3, by omega, by omega, h4.2, test_set_same _ _, ?_, ?_⟩
      · intro q hq
        exact test_set_other _ _ _ hq
      · show sub32 s.pmm_free_pages 1 + 1 = s.pmm_free_pages
        rw [sub32_eq]
        omega

/-! ## Virtual memory manager -/

theorem get_page_eq (pt : PtMem) (virt : Nat) :
    get_page pt virt = if (pt (pde_addr virt)).present = 0 then none else some (pte_addr virt) := by
  unfold get_page pde_addr pte_addr
  rfl

theorem same_page_indices (v virt : Nat) (hv : v / 4096 = virt / 4096) :
    pde_addr v = pde_addr virt ∧ pte_addr v = pte_addr virt := by
  have h22 : v >>> 22 = virt >>> 22 := by
    rw [Nat.shiftRight_eq_div_pow, Nat.shiftRight_eq_div_pow]
    have e : (2 : Nat) ^ 22 = 4096 * 1024 := by norm_num
    rw [e, ← Nat.div_div_eq_div_mul, ← Nat.div_div_eq_div_mul, hv]
  have h12 : v >>> 12 = virt >>> 12 := by
    rw [Nat.shiftRight_eq_div_pow, Nat.shiftRight_eq_div_pow]
    have e : (2 : Nat) ^ 12 = 4096 := by norm_num
    rw [e, hv]
  unfold pde_addr pte_addr
  rw [h22, h12]
  exact ⟨rfl, rfl⟩

/-- Claim C19: `vmm_map_page(virt, phys, flags)` returns false exactly when the
page-directory entry for `virt >> 22` is not present, and then leaves every
entry as it was; otherwise it returns true, the entry selected by `virt` gets
the frame number `phys >> 12` and the present, writable, user, write-through
and cache-disable bits of `flags` (its other fields keep their values), and
every other entry is unchanged. -/
theorem vmm_map_page_effect (pt : PtMem) (virt phys flags : Nat) (hphys : phys < 4294967296) :
    ((pt (pde_addr virt)).present = 0 → vmm_map_page pt virt phys flags = (pt, false)) ∧
    ((pt (pde_addr virt)).present ≠ 0 →
      (vmm_map_page pt virt phys flags).2 = true ∧
      (∀ a, a ≠ pte_addr virt → (vmm_map_page pt virt phys flags).1 a = pt a) ∧
      ((vmm_map_page pt virt phys flags).1 (pte_addr virt)).frame_addr = phys >>> 12 ∧
      ((vmm_map_page pt virt phys flags).1 (pte_addr virt)).present =
        (if flags &&& PAGE_PRESENT ≠ 0 then 1 else 0) ∧
      ((vmm_map_page pt virt phys flags).1 (pte_addr virt)).rw =
        (if flags &&& PAGE_RW ≠ 0 then 1 else 0) ∧
      ((vmm_map_page pt virt phys flags).1 (pte_addr virt)).user =
        (if flags &&& PAGE_USER ≠ 0 then 1 else 0) ∧
      ((vmm_map_page pt virt phys flags).1 (pte_addr virt)).writethrough =
        (if flags &&& PAGE_WRITETHROUGH ≠ 0 then 1 else 0) ∧
      ((vmm_map_page pt virt phys flags).1 (pte_addr virt)).cache_disable =
        (if flags &&& PAGE_CACHE_DISABLE ≠ 0 then 1 else 0) ∧
      ((vmm_map_page pt virt phys flags).1 (pte_addr virt)).accessed =
        (pt (pte_addr virt)).accessed ∧
      ((vmm_map_page pt virt phys flags).1 (pte_addr virt)).dirty = (pt (pte_addr virt)).dirty ∧
      ((vmm_map_page pt virt phys flags).1 (pte_addr virt)).pat = (pt (pte_addr virt)).pat ∧
      ((vmm_map_page pt virt phys flags).1 (pte_addr virt)).global =
        (pt (pte_addr virt)).global ∧
      ((vmm_map_page pt virt phys flags).1 (pte_addr virt)).avail = (pt (pte_addr virt)).avail) := by
  constructor
  · intro h
    unfold vmm_map_page
    rw [get_page_eq, if_pos h]
  · intro h
    have hfr : (phys >>> 12) % 1048576 = phys >>> 12 := by
      rw [Nat.shiftRight_eq_div_pow]
      apply Nat.mod_eq_of_lt
      have e : (2 : Nat) ^ 12 = 4096 := by norm_num
      rw [e]
      omega
    unfold vmm_map_page
    rw [get_page_eq, if_neg h]
    refine ⟨rfl, ?_, ?_, ?_, ?_, ?_, ?_, ?_, ?_, ?_, ?_, ?_, ?_⟩
    · intro a ha
      simp [ha]
    all_goals simp [hfr]

/-- Claim C19 at `virt = 0xC0C80000`, `phys = 0x200000`, flags present and
writable, for a store of entries that are all present. -/
theorem vmm_map_page_effect_witness :
    (vmm_map_page all_present 0xC0C80000 0x200000 3).2 = true ∧
    ((vmm_map_page all_present 0xC0C80000 0x200000 3).1 (pte_addr 0xC0C80000)).frame_addr =
      0x200000 >>> 12 :=
  ⟨((vmm_map_page_effect all_present 0xC0C80000 0x200000 3 (by decide)).2 (by decide)).1,
   ((vmm_map_page_effect all_present 0xC0C80000 0x200000 3 (by decide)).2 (by decide)).2.2.1⟩

/-- Claim C20: when the page table of `virt` exists, `phys` is page aligned
and `flags` contains `PAGE_PRESENT`, `vmm_map_page(virt, phys, flags)` returns
true and afterwards `vmm_get_phys_addr(v) = phys + (v & 0xFFF)` for every `v`
in the 4 KiB page of `virt`; and `vmm_get_phys_addr` returns 0 for every
address whose page-directory entry or page-table entry is not present. -/
theorem map_translate_round_trip (pt : PtMem) (virt phys flags v : Nat)
    (hpde : (pt (pde_addr virt)).present ≠ 0) (hal : phys % 4096 = 0)
    (hphys : phys < 4294967296) (hfl : flags &&& PAGE_PRESENT ≠ 0)
    (hv : v / 4096 = virt / 4096) :
    ((vmm_map_page pt virt phys flags).2 = true ∧
      vmm_get_phys_addr (vmm_map_page pt virt phys flags).1 v = phys + (v &&& 0xFFF)) ∧
    (∀ (pt2 : PtMem) (w : Nat),
      (pt2 (pde_addr w)).present = 0 ∨ (pt2 (pte_addr w)).present = 0 →
        vmm_get_phys_addr pt2 w = 0) := by
  constructor
  · obtain ⟨hd, ht⟩ := same_page_indices v virt hv
    have hfr : (phys >>> 12) % 1048576 = phys / 4096 := by
      rw [Nat.shiftRight_eq_div_pow]
      have e : (2 : Nat) ^ 12 = 4096 := by norm_num
      rw [e]
      apply Nat.mod_eq_of_lt
      omega
    have hoff : v &&& 0xFFF = v % 4096 := by
      have h := Nat.and_pow_two_sub_one_eq_mod v 12
      norm_num at h
      exact h
    unfold vmm_map_page
    rw [get_page_eq, if_neg hpde]
    refine ⟨rfl, ?_⟩
    unfold vmm_get_phys_addr
    rw [get_page_eq, hd, ht]
    have hpde2 : ¬ ((fun a => if a = pte_addr virt then
        ({ pt (pte_addr virt) with
            frame_addr := (phys >>> 12) % 1048576,
            present := if flags &&& PAGE_PRESENT ≠ 0 then 1 else 0,
            rw := if flags &&& PAGE_RW ≠ 0 then 1 else 0,
            user := if flags &&& PAGE_USER ≠ 0 then 1 else 0,
            writethrough := if flags &&& PAGE_WRITETHROUGH ≠ 0 then 1 else 0,
            cache_disable := if flags &&& PAGE_CACHE_DISABLE ≠ 0 then 1 else 0 } :
          page_table_entry_t) else pt a) (pde_addr virt)).present = 0 := by
      by_cases hc : pde_addr virt = pte_addr virt
      · simp [hc, hfl]
      · simp [hc, hpde]
    rw [if_neg hpde2]
    simp only [if_true, hfl, ne_eq, not_false_eq_true, one_ne_zero, if_false, hfr, hoff]
    rw [Nat.shiftLeft_eq]
    unfold add32
    have e : (2 : Nat) ^ 12 = 4096 := by norm_num
    rw [e]
    omega
  · intro pt2 w h
    unfold vmm_get_phys_addr
    rw [get_page_eq]
    by_cases hd : (pt2 (pde_addr w)).present = 0
    · rw [if_pos hd]
    · rw [if_neg hd]
      rcases h with h | h
      · exact absurd h hd
      · simp [h]

/-- Claim C20 at `virt = 0xC0C80000`, `phys = 0x200000`, flags present and
writable, `v = 0xC0C80123`, for a store of entries that are all present. -/
theorem map_translate_round_trip_witness :
    ((vmm_map_page all_present 0xC0C80000 0x200000 3).2 = true ∧
      vmm_get_phys_addr (vmm_map_page all_present 0xC0C80000 0x200000 3).1 0xC0C80123 =
        0x200000 + (0xC0C80123 &&& 0xFFF)) ∧
    (∀ (pt2 : PtMem) (w : Nat),
      (pt2 (pde_addr w)).present = 0 ∨ (pt2 (pte_addr w)).present = 0 →
        vmm_get_phys_addr pt2 w = 0) :=
  map_translate_round_trip all_present 0xC0C80000 0x200000 3 0xC0C80123
    (by decide) (by decide) (by decide) (by decide) (by decide)

theorem vmm_unmap_page_eq (pt : PtMem) (virt : Nat) :
    vmm_unmap_page pt virt =
      if (pt (pde_addr virt)).present = 0 then pt
      else if (pt (pte_addr virt)).present = 0 then pt
      else fun a => if a = pte_addr virt then ⟨0, 0, 0, 0, 0, 0, 0, 0, 0, 0, 0⟩ else pt a := by
  unfold vmm_unmap_page
  rw [get_page_eq]
  by_cases hd : (pt (pde_addr virt)).present = 0
  · rw [if_pos hd, if_pos hd]
  · rw [if_neg hd, if_neg hd]

theorem unmap_absent (pt : PtMem) (virt : Nat) :
    ((vmm_unmap_page pt virt) (pde_addr virt)).present = 0 ∨
    ((vmm_unmap_page pt virt) (pte_addr virt)).present = 0 := by
  rw [vmm_unmap_page_eq]
  by_cases hd : (pt (pde_addr virt)).present = 0
  · rw [if_pos hd]
    exact Or.inl hd
  · rw [if_neg hd]
    by_cases ht : (pt (pte_addr virt)).present = 0
    · rw [if_pos ht]
      exact Or.inr ht
    · right
      rw [if_neg ht]
      simp

theorem get_phys_absent (pt : PtMem) (w : Nat)
    (h : (pt (pde_addr w)).present = 0 ∨ (pt (pte_addr w)).present = 0) :
    vmm_get_phys_addr pt w = 0 := by
  unfold vmm_get_phys_addr
  rw [get_page_eq]
  by_cases hd : (pt (pde_addr w)).present = 0
  · rw [if_pos hd]
  · rw [if_neg hd]
    rcases h with h | h
    · exact absurd h hd
    · simp [h]

theorem unmap_noop (pt : PtMem) (virt : Nat)
    (h : (pt (pde_addr virt)).present = 0 ∨ (pt (pte_addr virt)).present = 0) :
    vmm_unmap_page pt virt = pt := by
  rw [vmm_unmap_page_eq]
  by_cases hd : (pt (pde_addr virt)).present = 0
  · rw [if_pos hd]
  · rw [if_neg hd]
    rcases h with h | h
    · exact absurd h hd
    · rw [if_pos h]

/-- Claim C21: `vmm_unmap_page(virt)` changes nothing when the page table of
`virt` does not exist or the entry is not present; otherwise it sets every
field of the one entry of `virt` to zero and leaves every other entry
unchanged; afterwards `vmm_get_phys_addr` returns 0 for every address in the
page of `virt`; and applying it twice gives the state of applying it once. -/
theorem vmm_unmap_page_effect (pt : PtMem) (virt : Nat) :
    (((pt (pde_addr virt)).present = 0 ∨ (pt (pte_addr virt)).present = 0) →
      vmm_unmap_page pt virt = pt) ∧
    (¬ ((pt (pde_addr virt)).present = 0 ∨ (pt (pte_addr virt)).present = 0) →
      vmm_unmap_page pt virt (pte_addr virt) = ⟨0, 0, 0, 0, 0, 0, 0, 0, 0, 0, 0⟩ ∧
      ∀ a, a ≠ pte_addr virt → vmm_unmap_page pt virt a = pt a) ∧
    (∀ v, v / 4096 = virt / 4096 → vmm_get_phys_addr (vmm_unmap_page pt virt) v = 0) ∧
    vmm_unmap_page (vmm_unmap_page pt virt) virt = vmm_unmap_page pt virt := by
  refine ⟨unmap_noop pt virt, ?_, ?_, unmap_noop _ _ (unmap_absent pt virt)⟩
  · intro h
    have hd : ¬ (pt (pde_addr virt)).present = 0 := fun c => h (Or.inl c)
    have ht : ¬ (pt (pte_addr virt)).present = 0 := fun c => h (Or.inr c)
    rw [vmm_unmap_page_eq, if_neg hd, if_neg ht]
    refine ⟨by simp, ?_⟩
    intro a ha
    simp [ha]
  · intro v hv
    obtain ⟨e1, e2⟩ := same_page_indices v virt hv
    apply get_phys_absent
    rw [e1, e2]
    exact unmap_absent pt virt

theorem alloc_and_map_cases (st : VmState) (virt flags : Nat) :
    ∃ s1 a, pmm_alloc_page st.pmm = Res.ok (s1, a) ∧
      vmm_alloc_and_map_page st virt flags =
        (if a = 0 then Res.ok (⟨s1, st.pt⟩, false)
         else Res.ok (⟨s1, (vmm_map_page st.pt virt a flags).1⟩,
                      (vmm_map_page st.pt virt a flags).2)) := by
  unfold vmm_alloc_and_map_page
  rcases pmm_alloc_page_cases st.pmm with ⟨h1, _⟩ | ⟨d, _, _, _, _, _, h6⟩
  · exact ⟨_, _, h1, by rw [h1]⟩
  · exact ⟨_, _, h6, by rw [h6]⟩

/-- Claim C24: for a faulting address below `KERNEL_LOAD_VIRTUAL_ADDR` the
page-fault handler reaches the fatal halt in the state in which it was
called (no frame allocated, no entry changed); for an address at or above it
the handler calls `vmm_alloc_and_map_page` on the page of the address and
halts exactly when that call returns false. -/
theorem page_fault_guard (st : VmState) (a : Nat) :
    (a < KERNEL_LOAD_VIRTUAL_ADDR → vmm_page_fault_handler st a = Res.panic st) ∧
    (KERNEL_LOAD_VIRTUAL_ADDR ≤ a →
      ∃ st1 ok, vmm_alloc_and_map_page st (a &&& 0xFFFFF000) PAGE_KERNEL_FLAGS =
          Res.ok (st1, ok) ∧
        (ok = false → vmm_page_fault_handler st a = Res.panic st1) ∧
        (ok = true → vmm_page_fault_handler st a = Res.ok st1)) := by
  constructor
  · intro h
    unfold vmm_page_fault_handler
    rw [if_pos h]
  · intro h
    obtain ⟨s1, x, _, h2⟩ := alloc_and_map_cases st (a &&& 0xFFFFF000) PAGE_KERNEL_FLAGS
    have hnot : ¬ a < KERNEL_LOAD_VIRTUAL_ADDR := by omega
    by_cases hx : x = 0
    · rw [if_pos hx] at h2
      refine ⟨_, _, h2, ?_, ?_⟩
      · intro _
        unfold vmm_page_fault_handler
        rw [if_neg hnot]
        dsimp only
        rw [h2]
        rfl
      · intro c
        exact Bool.noConfusion c
    · rw [if_neg hx] at h2
      refine ⟨_, _, h2, ?_, ?_⟩
      · intro c
        unfold vmm_page_fault_handler
        rw [if_neg hnot]
        dsimp only
        rw [h2]
        dsimp only
        rw [if_pos c]
      · intro c
        unfold vmm_page_fault_handler
        rw [if_neg hnot]
        dsimp only
        rw [h2]
        dsimp only
        rw [if_neg (by rw [c]; exact Bool.noConfusion)]

theorem vmm_map_page_eq (pt : PtMem) (virt phys flags : Nat) :
    vmm_map_page pt virt phys flags =
      if (pt (pde_addr virt)).present = 0 then (pt, false)
      else (fun a => if a = pte_addr virt then
              { pt (pte_addr virt) with
                frame_addr := (phys >>> 12) % 1048576,
                present := if flags &&& PAGE_PRESENT ≠ 0 then 1 else 0,
                rw := if flags &&& PAGE_RW ≠ 0 then 1 else 0,
                user := if flags &&& PAGE_USER ≠ 0 then 1 else 0,
                writethrough := if flags &&& PAGE_WRITETHROUGH ≠ 0 then 1 else 0,
                cache_disable := if flags &&& PAGE_CACHE_DISABLE ≠ 0 then 1 else 0 }
            else pt a, true) := by
  unfold vmm_map_page
  rw [get_page_eq]
  by_cases hd : (pt (pde_addr virt)).present = 0
  · rw [if_pos hd, if_pos hd]
  · rw [if_neg hd, if_neg hd]

theorem frame_number_eq (a : Nat) (ha : a < 4294967296) : (a >>> 12) % 1048576 = a / 4096 := by
  rw [Nat.shiftRight_eq_div_pow]
  have e : (2 : Nat) ^ 12 = 4096 := by norm_num
  rw [e]
  apply Nat.mod_eq_of_lt
  omega

/-- Within the bitmap capacity (`max_ram_frame` at most 1048576):
`vmm_alloc_and_map_page(virt, flags)` returns false exactly
when `pmm_alloc_page` returns 0 or the page table of `virt` does not exist;
when it returns true, the free-frame count has dropped by exactly one and the
entry of `virt` holds the frame number of the frame just allocated and the
present, writable, user, write-through and cache-disable bits of `flags`. -/
theorem alloc_and_map_effect (st : VmState) (virt flags : Nat)
    (hM : st.pmm.pmm_max_ram_page ≤ 1048576) (hc : st.pmm.pmm_free_pages < 4294967296) :
    ∃ s1 a pt1 ok, pmm_alloc_page st.pmm = Res.ok (s1, a) ∧
      vmm_alloc_and_map_page st virt flags = Res.ok (⟨s1, pt1⟩, ok) ∧
      (ok = false ↔ (a = 0 ∨ (st.pt (pde_addr virt)).present = 0)) ∧
      (ok = true →
        s1.pmm_free_pages + 1 = st.pmm.pmm_free_pages ∧
        pmm_test_bit st.pmm.pmm_bitmap (a / 4096) = false ∧
        pmm_test_bit s1.pmm_bitmap (a / 4096) = true ∧
        (pt1 (pte_addr virt)).frame_addr = a / 4096 ∧
        (pt1 (pte_addr virt)).present = (if flags &&& PAGE_PRESENT ≠ 0 then 1 else 0) ∧
        (pt1 (pte_addr virt)).rw = (if flags &&& PAGE_RW ≠ 0 then 1 else 0) ∧
        (pt1 (pte_addr virt)).user = (if flags &&& PAGE_USER ≠ 0 then 1 else 0) ∧
        (pt1 (pte_addr virt)).writethrough =
          (if flags &&& PAGE_WRITETHROUGH ≠ 0 then 1 else 0) ∧
        (pt1 (pte_addr virt)).cache_disable =
          (if flags &&& PAGE_CACHE_DISABLE ≠ 0 then 1 else 0)) := by
  obtain ⟨s1, a, h1, _, _, h4⟩ := alloc_result_facts st.pmm hM hc
  obtain ⟨s2, a2, k1, k2⟩ := alloc_and_map_cases st virt flags
  rw [h1] at k1
  have e := Prod.mk.inj (Res.ok.inj k1)
  rw [← e.1, ← e.2] at k2
  by_cases ha : a = 0
  · rw [if_pos ha] at k2
    refine ⟨s1, a, st.pt, false, h1, k2, ?_, ?_⟩
    · exact ⟨fun _ => Or.inl ha, fun _ => rfl⟩
    · intro c
      exact Bool.noConfusion c
  · rw [if_neg ha, vmm_map_page_eq] at k2
    obtain ⟨f1, f2, f3, f4, f5, _, f7⟩ := h4 ha
    by_cases hd : (st.pt (pde_addr virt)).present = 0
    · rw [if_pos hd] at k2
      refine ⟨s1, a, st.pt, false, h1, k2, ?_, ?_⟩
      · exact ⟨fun _ => Or.inr hd, fun _ => rfl⟩
      · intro c
        exact Bool.noConfusion c
    · rw [if_neg hd] at k2
      refine ⟨s1, a, _, true, h1, k2, ?_, ?_⟩
      · constructor
        · intro c
          exact Bool.noConfusion c
        · intro c
          rcases c with c | c
          · exact absurd c ha
          · exact absurd c hd
      · intro _
        refine ⟨f7, f4, f5, ?_, ?_, ?_, ?_, ?_, ?_⟩
        · simp [frame_number_eq a f3]
        all_goals simp

/-- The effect of `vmm_alloc_and_map_page` at the allocator state with four
free frames, a store of entries
that are all present, `virt = 0xC0C80000` and flags present and writable. -/
theorem alloc_and_map_effect_witness :
    ∃ s1 a pt1 ok, pmm_alloc_page demo_state = Res.ok (s1, a) ∧
      vmm_alloc_and_map_page ⟨demo_state, all_present⟩ 0xC0C80000 3 = Res.ok (⟨s1, pt1⟩, ok) ∧
      (ok = false ↔ (a = 0 ∨ (all_present (pde_addr 0xC0C80000)).present = 0)) ∧
      (ok = true →
        s1.pmm_free_pages + 1 = demo_state.pmm_free_pages ∧
        pmm_test_bit demo_state.pmm_bitmap (a / 4096) = false ∧
        pmm_test_bit s1.pmm_bitmap (a / 4096) = true ∧
        (pt1 (pte_addr 0xC0C80000)).frame_addr = a / 4096 ∧
        (pt1 (pte_addr 0xC0C80000)).present = (if 3 &&& PAGE_PRESENT ≠ 0 then 1 else 0) ∧
        (pt1 (pte_addr 0xC0C80000)).rw = (if 3 &&& PAGE_RW ≠ 0 then 1 else 0) ∧
        (pt1 (pte_addr 0xC0C80000)).user = (if 3 &&& PAGE_USER ≠ 0 then 1 else 0) ∧
        (pt1 (pte_addr 0xC0C80000)).writethrough =
          (if 3 &&& PAGE_WRITETHROUGH ≠ 0 then 1 else 0) ∧
        (pt1 (pte_addr 0xC0C80000)).cache_disable =
          (if 3 &&& PAGE_CACHE_DISABLE ≠ 0 then 1 else 0)) :=
  alloc_and_map_effect ⟨demo_state, all_present⟩ 0xC0C80000 3 (by decide) (by decide)

/-- Within the bitmap capacity (`max_ram_frame` at most 1048576): for a
faulting address `a` at or above
`KERNEL_LOAD_VIRTUAL_ADDR` whose page table exists, in an allocator state that
can hand out a frame (free count not 0 and a free frame in
`[512, max_ram_frame)`), the page-fault handler returns; it has allocated
exactly one frame (one bit of the bitmap set, free count one less) and mapped
it at the page of `a` with present and writable set, and afterwards
`vmm_get_phys_addr(a & ~0xFFF)` is the address of that frame, not 0. -/
theorem demand_paging (st : VmState) (a : Nat)
    (ha : KERNEL_LOAD_VIRTUAL_ADDR ≤ a) (ha32 : a < 4294967296)
    (hpde : (st.pt (pde_addr a)).present ≠ 0)
    (hM : st.pmm.pmm_max_ram_page ≤ 1048576) (hc : st.pmm.pmm_free_pages < 4294967296)
    (hfree : st.pmm.pmm_free_pages ≠ 0)
    (hq : ∃ q, q < st.pmm.pmm_max_ram_page ∧ allocatable st.pmm q) :
    ∃ st1 f, vmm_page_fault_handler st a = Res.ok st1 ∧
      st1.pmm.pmm_free_pages + 1 = st.pmm.pmm_free_pages ∧
      512 ≤ f ∧
      pmm_test_bit st.pmm.pmm_bitmap f = false ∧
      pmm_test_bit st1.pmm.pmm_bitmap f = true ∧
      (∀ q, q ≠ f → pmm_test_bit st1.pmm.pmm_bitmap q = pmm_test_bit st.pmm.pmm_bitmap q) ∧
      (st1.pt (pte_addr a)).frame_addr = f ∧
      (st1.pt (pte_addr a)).present = 1 ∧
      (st1.pt (pte_addr a)).rw = 1 ∧
      (∀ e, e ≠ pte_addr a → st1.pt e = st.pt e) ∧
      vmm_get_phys_addr st1.pt (a &&& 0xFFFFF000) = f * 4096 ∧
      vmm_get_phys_addr st1.pt (a &&& 0xFFFFF000) ≠ 0 := by
  have hmask := and_page_mask a ha32
  have hsame : (a &&& 0xFFFFF000) / 4096 = a / 4096 := by
    rw [hmask]
    omega
  obtain ⟨ed, et⟩ := same_page_indices (a &&& 0xFFFFF000) a hsame
  obtain ⟨s1, x, h1, _, h3, h4⟩ := alloc_result_facts st.pmm hM hc
  obtain ⟨s2, x2, k1, k2⟩ := alloc_and_map_cases st (a &&& 0xFFFFF000) PAGE_KERNEL_FLAGS
  rw [h1] at k1
  have e := Prod.mk.inj (Res.ok.inj k1)
  rw [← e.1, ← e.2] at k2
  have hx : x ≠ 0 := h3 hfree hq
  obtain ⟨f1, f2, f3, f4, f5, f6, f7⟩ := h4 hx
  rw [if_neg hx, vmm_map_page_eq, ed, et, if_neg hpde] at k2
  have hnot : ¬ a < KERNEL_LOAD_VIRTUAL_ADDR := by omega
  have hhandler : vmm_page_fault_handler st a = Res.ok ⟨s1, fun a1 =>
      if a1 = pte_addr a then
        { st.pt (pte_addr a) with
          frame_addr := (x >>> 12) % 1048576,
          present := if PAGE_KERNEL_FLAGS &&& PAGE_PRESENT ≠ 0 then 1 else 0,
          rw := if PAGE_KERNEL_FLAGS &&& PAGE_RW ≠ 0 then 1 else 0,
          user := if PAGE_KERNEL_FLAGS &&& PAGE_USER ≠ 0 then 1 else 0,
          writethrough := if PAGE_KERNEL_FLAGS &&& PAGE_WRITETHROUGH ≠ 0 then 1 else 0,
          cache_disable := if PAGE_KERNEL_FLAGS &&& PAGE_CACHE_DISABLE ≠ 0 then 1 else 0 }
      else st.pt a1⟩ := by
    unfold vmm_page_fault_handler
    rw [if_neg hnot]
    dsimp only
    rw [k2]
    rfl
  have hp : (if PAGE_KERNEL_FLAGS &&& PAGE_PRESENT ≠ 0 then 1 else 0) = 1 := by decide
  have hw : (if PAGE_KERNEL_FLAGS &&& PAGE_RW ≠ 0 then 1 else 0) = 1 := by decide
  have hoff : (a &&& 0xFFFFF000) &&& 0xFFF = 0 := by
    rw [and_fff, hmask]
    omega
  have hphys : vmm_get_phys_addr (fun a1 =>
      if a1 = pte_addr a then
        ({ st.pt (pte_addr a) with
          frame_addr := (x >>> 12) % 1048576,
          present := if PAGE_KERNEL_FLAGS &&& PAGE_PRESENT ≠ 0 then 1 else 0,
          rw := if PAGE_KERNEL_FLAGS &&& PAGE_RW ≠ 0 then 1 else 0,
          user := if PAGE_KERNEL_FLAGS &&& PAGE_USER ≠ 0 then 1 else 0,
          writethrough := if PAGE_KERNEL_FLAGS &&& PAGE_WRITETHROUGH ≠ 0 then 1 else 0,
          cache_disable := if PAGE_KERNEL_FLAGS &&& PAGE_CACHE_DISABLE ≠ 0 then 1 else 0 } :
          page_table_entry_t)
      else st.pt a1) (a &&& 0xFFFFF000) = x / 4096 * 4096 := by
    unfold vmm_get_phys_addr
    rw [get_page_eq, ed, et]
    have hpde2 : ¬ ((fun a1 =>
      if a1 = pte_addr a then
        ({ st.pt (pte_addr a) with
          frame_addr := (x >>> 12) % 1048576,
          present := if PAGE_KERNEL_FLAGS &&& PAGE_PRESENT ≠ 0 then 1 else 0,
          rw := if PAGE_KERNEL_FLAGS &&& PAGE_RW ≠ 0 then 1 else 0,
          user := if PAGE_KERNEL_FLAGS &&& PAGE_USER ≠ 0 then 1 else 0,
          writethrough := if PAGE_KERNEL_FLAGS &&& PAGE_WRITETHROUGH ≠ 0 then 1 else 0,
          cache_disable := if PAGE_KERNEL_FLAGS &&& PAGE_CACHE_DISABLE ≠ 0 then 1 else 0 } :
          page_table_entry_t)
      else st.pt a1) (pde_addr a)).present = 0 := by
      by_cases hcase : pde_addr a = pte_addr a
      · simp [hcase, hp]
      · simp [hcase, hpde]
    rw [if_neg hpde2]
    simp only [if_true, hp, one_ne_zero, if_false, hoff, frame_number_eq x f3]
    rw [Nat.shiftLeft_eq]
    unfold add32
    have e12 : (2 : Nat) ^ 12 = 4096 := by norm_num
    rw [e12]
    omega
  refine ⟨_, x / 4096, hhandler, f7, by omega, f4, f5, f6, ?_, ?_, ?_, ?_, hphys, ?_⟩
  · simp [frame_number_eq x f3]
  · simp [hp]
  · simp [hw]
  · intro e1 he1
    simp [he1]
  · rw [hphys]
    omega

/-- Demand paging at the allocator state with four free frames, a store of
entries
that are all present and the faulting address `0xC0C80123`. -/
theorem demand_paging_witness :
    ∃ st1 f, vmm_page_fault_handler ⟨demo_state, all_present⟩ 0xC0C80123 = Res.ok st1 ∧
      st1.pmm.pmm_free_pages + 1 = demo_state.pmm_free_pages ∧
      512 ≤ f ∧
      pmm_test_bit demo_state.pmm_bitmap f = false ∧
      pmm_test_bit st1.pmm.pmm_bitmap f = true ∧
      (∀ q, q ≠ f → pmm_test_bit st1.pmm.pmm_bitmap q = pmm_test_bit demo_state.pmm_bitmap q) ∧
      (st1.pt (pte_addr 0xC0C80123)).frame_addr = f ∧
      (st1.pt (pte_addr 0xC0C80123)).present = 1 ∧
      (st1.pt (pte_addr 0xC0C80123)).rw = 1 ∧
      (∀ e, e ≠ pte_addr 0xC0C80123 → st1.pt e = all_present e) ∧
      vmm_get_phys_addr st1.pt (0xC0C80123 &&& 0xFFFFF000) = f * 4096 ∧
      vmm_get_phys_addr st1.pt (0xC0C80123 &&& 0xFFFFF000) ≠ 0 :=
  demand_paging ⟨demo_state, all_present⟩ 0xC0C80123 (by decide) (by decide) (by decide)
    (by decide) (by decide) (by decide)
    ⟨512, by decide, (show _ ∧ _ from ⟨by decide, by decide⟩)⟩

/-! ## `pmm_mark_region_used` and `pmm_init`, step by step -/

theorem mark_loop_succ (n p : Nat) (s : PmmState) :
    mark_loop (n + 1) p s =
      if !pmm_test_bit s.pmm_bitmap p then
        mark_loop n (p + 1)
          { s with pmm_bitmap := pmm_set_bit s.pmm_bitmap p,
                   pmm_free_pages := sub32 s.pmm_free_pages 1 }
      else mark_loop n (p + 1) s := rfl

theorem mark_loop_add : ∀ (a b p : Nat) (s : PmmState),
    mark_loop (a + b) p s = mark_loop b (p + a) (mark_loop a p s) := by
  intro a
  induction a with
  | zero =>
    intro b p s
    rw [Nat.zero_add]
    rfl
  | succ a ih =>
    intro b p s
    have e : a + 1 + b = a + b + 1 := by omega
    have e2 : p + (a + 1) = p + 1 + a := by omega
    rw [e, mark_loop_succ, mark_loop_succ, e2]
    by_cases hb : (!pmm_test_bit s.pmm_bitmap p) = true
    · rw [if_pos hb, if_pos hb]
      exact ih b (p + 1) _
    · rw [if_neg hb, if_neg hb]
      exact ih b (p + 1) _

/-- The loop over a range in which every frame is already marked. -/
theorem mark_loop_set : ∀ (n p : Nat) (s : PmmState),
    (∀ q, p ≤ q → q < p + n → pmm_test_bit s.pmm_bitmap q = true) → mark_loop n p s = s := by
  intro n
  induction n with
  | zero =>
    intro p s _
    rfl
  | succ n ih =>
    intro p s h
    have hp := h p (Nat.le_refl _) (by omega)
    rw [mark_loop_succ, if_neg (by rw [hp]; decide)]
    exact ih (p + 1) s (fun q h1 h2 => h q (by omega) (by omega))

/-- The loop over a range in which no frame is marked yet. -/
theorem mark_loop_clear : ∀ (n p : Nat) (s : PmmState),
    (∀ q, p ≤ q → q < p + n → pmm_test_bit s.pmm_bitmap q = false) →
    n ≤ s.pmm_free_pages → s.pmm_free_pages < 4294967296 →
    (mark_loop n p s).pmm_free_pages = s.pmm_free_pages - n ∧
    (mark_loop n p s).pmm_total_pages = s.pmm_total_pages ∧
    (mark_loop n p s).pmm_max_ram_page = s.pmm_max_ram_page ∧
    (mark_loop n p s).pmm_last_alloc_index = s.pmm_last_alloc_index ∧
    ∀ q, pmm_test_bit (mark_loop n p s).pmm_bitmap q = true ↔
      (pmm_test_bit s.pmm_bitmap q = true ∨ (p ≤ q ∧ q < p + n)) := by
  intro n
  induction n with
  | zero =>
    intro p s _ _ _
    refine ⟨rfl, rfl, rfl, rfl, ?_⟩
    intro q
    constructor
    · intro h
      exact Or.inl h
    · rintro (h | h)
      · exact h
      · omega
  | succ n ih =>
    intro p s h hn hlt
    have hp := h p (Nat.le_refl _) (by omega)
    rw [mark_loop_succ, if_pos (by rw [hp]; decide)]
    have hfree : sub32 s.pmm_free_pages 1 = s.pmm_free_pages - 1 := by
      rw [sub32_eq]
      omega
    obtain ⟨r1, r2, r3, r4, r5⟩ := ih (p + 1)
      { s with pmm_bitmap := pmm_set_bit s.pmm_bitmap p,
               pmm_free_pages := sub32 s.pmm_free_pages 1 }
      (fun q h1 h2 => by
        show pmm_test_bit (pmm_set_bit s.pmm_bitmap p) q = false
        rw [test_set_other _ _ _ (by omega)]
        exact h q (by omega) (by omega))
      (by show n ≤ sub32 s.pmm_free_pages 1; rw [hfree]; omega)
      (by show sub32 s.pmm_free_pages 1 < 4294967296; rw [hfree]; omega)
    refine ⟨?_, r2, r3, r4, ?_⟩
    · rw [r1]
      show sub32 s.pmm_free_pages 1 - n = s.pmm_free_pages - (n + 1)
      rw [hfree]
      omega
    · intro q
      rw [r5 q]
      show (pmm_test_bit (pmm_set_bit s.pmm_bitmap p) q = true ∨ _) ↔ _
      by_cases hq : q = p
      · rw [hq, test_set_same]
        constructor
        · intro _
          exact Or.inr ⟨Nat.le_refl _, by omega⟩
        · intro _
          exact Or.inl rfl
      · rw [test_set_other _ _ _ hq]
        constructor
        · rintro (g | g)
          · exact Or.inl g
          · exact Or.inr ⟨by omega, by omega⟩
        · rintro (g | g)
          · exact Or.inl g
          · exact Or.inr ⟨by omega, by omega⟩

/-- The loop that `pmm_mark_region_used` runs when nothing wraps. -/
theorem mark_region_eq (s : PmmState) (start size : Nat)
    (h : start / 4096 < s.pmm_total_pages) (ht : s.pmm_total_pages < 4294967296)
    (h64 : start + size + 4095 < 18446744073709551616) :
    pmm_mark_region_used s start size =
      mark_loop (min ((start + size + 4095) / 4096) s.pmm_total_pages - start / 4096)
        (start / 4096) s := by
  have hP : PAGE_SIZE = 4096 := rfl
  unfold pmm_mark_region_used
  rw [hP, if_neg (by omega)]
  dsimp only
  have e1 : start / 4096 % 4294967296 = start / 4096 := Nat.mod_eq_of_lt (by omega)
  have e2 : (start + size) % 18446744073709551616 = start + size := Nat.mod_eq_of_lt (by omega)
  have e3 : (start + size + 4096 - 1) % 18446744073709551616 = start + size + 4095 :=
    Nat.mod_eq_of_lt (by omega)
  have e4 : min ((start + size + 4095) / 4096) s.pmm_total_pages % 4294967296 =
      min ((start + size + 4095) / 4096) s.pmm_total_pages :=
    Nat.mod_eq_of_lt (lt_of_le_of_lt (Nat.min_le_right _ _) ht)
  rw [e1, e2, e3, e4]

theorem mark_region_skip (s : PmmState) (start size : Nat)
    (h : s.pmm_total_pages ≤ start / 4096) : pmm_mark_region_used s start size = s := by
  have hP : PAGE_SIZE = 4096 := rfl
  unfold pmm_mark_region_used
  rw [hP, if_pos h]

/-- The state in which `pmm_init` begins to mark regions. -/
theorem pmm_init_eq (b : boot_info_t) (hm : b.magic = BOOT_INFO_MAGIC)
    (hs : add32 (max_end_loop b.e820_map false b.e820_count 0 0 / PAGE_SIZE % 4294967296) 7 / 8 ≤
      MAX_BITMAP_SIZE_BYTES) :
    pmm_init pmm_static_init b =
      Res.ok (pmm_mark_region_used (pmm_mark_region_used
        (mark_reserved_loop b.e820_map b.e820_count 0
          { pmm_bitmap := fun i =>
              if i < add32 (max_end_loop b.e820_map false b.e820_count 0 0 / PAGE_SIZE %
                4294967296) 7 / 8 then 0
              else pmm_static_init.pmm_bitmap i,
            pmm_bitmap_size_bytes :=
              add32 (max_end_loop b.e820_map false b.e820_count 0 0 / PAGE_SIZE % 4294967296) 7 /
                8,
            pmm_total_pages := max_end_loop b.e820_map false b.e820_count 0 0 / PAGE_SIZE %
              4294967296,
            pmm_max_ram_page := max_end_loop b.e820_map true b.e820_count 0 0 / PAGE_SIZE %
              4294967296,
            pmm_free_pages := max_end_loop b.e820_map false b.e820_count 0 0 / PAGE_SIZE %
              4294967296,
            pmm_last_alloc_index := pmm_static_init.pmm_last_alloc_index })
        b.kernel_sections.kernel_phys_base b.kernel_sections.kernel_size) 0 LOW_MEMORY_SIZE) := by
  unfold pmm_init
  split
  · rename_i hc
    exact absurd hm hc
  · dsimp only
    split
    · rename_i hc
      have hc2 : add32 (max_end_loop b.e820_map false b.e820_count 0 0 / PAGE_SIZE %
          4294967296) 7 / 8 > MAX_BITMAP_SIZE_BYTES := hc
      omega
    · rfl

theorem test_zero_byte (bm : Nat → Nat) (q : Nat) (h : bm (q / 8) = 0) :
    pmm_test_bit bm q = false := by
  rw [pmm_test_bit_eq, h, Nat.zero_testBit]

/-- What `mark_loop` never changes, and the bound on the bitmap bytes. -/
theorem mark_loop_frame : ∀ (n p : Nat) (s : PmmState),
    (mark_loop n p s).pmm_bitmap_size_bytes = s.pmm_bitmap_size_bytes ∧
    (mark_loop n p s).pmm_total_pages = s.pmm_total_pages ∧
    ((∀ i, s.pmm_bitmap i < 256) → ∀ i, (mark_loop n p s).pmm_bitmap i < 256) := by
  intro n
  induction n with
  | zero =>
    intro p s
    exact ⟨rfl, rfl, fun h => h⟩
  | succ n ih =>
    intro p s
    rw [mark_loop_succ]
    by_cases hb : (!pmm_test_bit s.pmm_bitmap p) = true
    · rw [if_pos hb]
      obtain ⟨h1, h2, h3⟩ := ih (p + 1)
        { s with pmm_bitmap := pmm_set_bit s.pmm_bitmap p,
                 pmm_free_pages := sub32 s.pmm_free_pages 1 }
      refine ⟨h1, h2, fun h => h3 ?_⟩
      intro i
      show (if i = p / 8 then (s.pmm_bitmap i ||| (1 <<< (p % 8))) % 256 else s.pmm_bitmap i) <
        256
      split
      · exact Nat.mod_lt _ (by decide)
      · exact h i
    · rw [if_neg hb]
      exact ih (p + 1) s

/-- The two marking loops that `pmm_init` runs on a memory map whose entries
of another type than 1 lie above the bitmap: the kernel image, then the low
2 MiB, on the state with `T` frames, all of them free. -/
theorem pmm_init_loops (b : boot_info_t) (T M : Nat) (hm : b.magic = BOOT_INFO_MAGIC)
    (ht : max_end_loop b.e820_map false b.e820_count 0 0 / PAGE_SIZE % 4294967296 = T)
    (hM : max_end_loop b.e820_map true b.e820_count 0 0 / PAGE_SIZE % 4294967296 = M)
    (hT1 : 512 ≤ T) (hT2 : T ≤ 1048576)
    (hk1 : b.kernel_sections.kernel_phys_base / 4096 < T)
    (hk2 : b.kernel_sections.kernel_phys_base + b.kernel_sections.kernel_size + 4095 <
      18446744073709551616)
    (hr : ∀ S : PmmState, S.pmm_total_pages = T →
      mark_reserved_loop b.e820_map b.e820_count 0 S = S) :
    pmm_init pmm_static_init b =
      Res.ok (mark_loop 512 0 (mark_loop
        (min ((b.kernel_sections.kernel_phys_base + b.kernel_sections.kernel_size + 4095) / 4096)
          T - b.kernel_sections.kernel_phys_base / 4096)
        (b.kernel_sections.kernel_phys_base / 4096)
        { pmm_bitmap := fun i => if i < add32 T 7 / 8 then 0 else 0,
          pmm_bitmap_size_bytes := add32 T 7 / 8, pmm_total_pages := T, pmm_max_ram_page := M,
          pmm_free_pages := T, pmm_last_alloc_index := 0 })) := by
  have hs : add32 T 7 / 8 ≤ MAX_BITMAP_SIZE_BYTES := by
    show (T + 7) % 4294967296 / 8 ≤ 128 * 1024
    omega
  have key : pmm_init pmm_static_init b =
      Res.ok (pmm_mark_region_used (pmm_mark_region_used
        (mark_reserved_loop b.e820_map b.e820_count 0
          { pmm_bitmap := fun i => if i < add32 T 7 / 8 then 0 else 0,
            pmm_bitmap_size_bytes := add32 T 7 / 8, pmm_total_pages := T, pmm_max_ram_page := M,
            pmm_free_pages := T, pmm_last_alloc_index := 0 })
        b.kernel_sections.kernel_phys_base b.kernel_sections.kernel_size) 0 0x200000) := by
    rw [pmm_init_eq b hm (by rw [ht]; exact hs), ht, hM]
    rfl
  rw [key, hr _ rfl, mark_region_eq _ _ _ hk1 (by show T < 4294967296; omega) hk2]
  dsimp only
  have t4 := (mark_loop_frame
    (min ((b.kernel_sections.kernel_phys_base + b.kernel_sections.kernel_size + 4095) / 4096)
      T - b.kernel_sections.kernel_phys_base / 4096)
    (b.kernel_sections.kernel_phys_base / 4096)
    { pmm_bitmap := fun i => if i < add32 T 7 / 8 then 0 else 0,
      pmm_bitmap_size_bytes := add32 T 7 / 8, pmm_total_pages := T, pmm_max_ram_page := M,
      pmm_free_pages := T, pmm_last_alloc_index := 0 }).2.1
  generalize mark_loop
    (min ((b.kernel_sections.kernel_phys_base + b.kernel_sections.kernel_size + 4095) / 4096)
      T - b.kernel_sections.kernel_phys_base / 4096)
    (b.kernel_sections.kernel_phys_base / 4096)
    { pmm_bitmap := fun i => if i < add32 T 7 / 8 then 0 else 0,
      pmm_bitmap_size_bytes := add32 T 7 / 8, pmm_total_pages := T, pmm_max_ram_page := M,
      pmm_free_pages := T, pmm_last_alloc_index := 0 } = s4 at t4 ⊢
  have t4x : s4.pmm_total_pages = T := t4
  have n3 : (0 + 0x200000 + 4095) / 4096 = 512 := by decide
  have n4 : (0 : Nat) / 4096 = 0 := by decide
  rw [mark_region_eq s4 0 0x200000 (by rw [t4x, n4]; omega) (by rw [t4x]; omega) (by decide),
    t4x, n3, n4, Nat.min_eq_left hT1]

/-- The state after the two loops when the kernel image covers the frames
256 to 383: exactly the frames below 512 are marked. -/
theorem low_loops_shape (S : PmmState) (hz : ∀ q, pmm_test_bit S.pmm_bitmap q = false)
    (h1 : 512 ≤ S.pmm_free_pages) (h2 : S.pmm_free_pages < 4294967296) :
    (mark_loop 512 0 (mark_loop 128 256 S)).pmm_free_pages = S.pmm_free_pages - 512 ∧
    (mark_loop 512 0 (mark_loop 128 256 S)).pmm_max_ram_page = S.pmm_max_ram_page ∧
    (mark_loop 512 0 (mark_loop 128 256 S)).pmm_last_alloc_index = S.pmm_last_alloc_index ∧
    ∀ q, pmm_test_bit (mark_loop 512 0 (mark_loop 128 256 S)).pmm_bitmap q = true ↔ q < 512 := by
  obtain ⟨f1, _, f3, f4, f5⟩ := mark_loop_clear 128 256 S (fun q _ _ => hz q) (by omega) h2
  generalize mark_loop 128 256 S = s4 at f1 f3 f4 f5 ⊢
  have f5x : ∀ q, pmm_test_bit s4.pmm_bitmap q = true ↔ (256 ≤ q ∧ q < 384) := by
    intro q
    rw [f5 q, hz q]
    constructor
    · rintro (g | g)
      · exact Bool.noConfusion g
      · omega
    · intro g
      exact Or.inr (by omega)
  have e : mark_loop 512 0 s4 =
      mark_loop 128 (0 + 256 + 128) (mark_loop 128 (0 + 256) (mark_loop 256 0 s4)) :=
    (mark_loop_add 256 (128 + 128) 0 s4).trans (mark_loop_add 128 128 (0 + 256) _)
  rw [e]
  obtain ⟨a1, _, a3, a4, a5⟩ := mark_loop_clear 256 0 s4
    (fun q h1 h2 => by
      cases hb : pmm_test_bit s4.pmm_bitmap q with
      | false => rfl
      | true =>
        have := (f5x q).1 hb
        omega)
    (by omega) (by omega)
  generalize mark_loop 256 0 s4 = s5 at a1 a3 a4 a5 ⊢
  have a5x : ∀ q, pmm_test_bit s5.pmm_bitmap q = true ↔ q < 384 := by
    intro q
    rw [a5 q, f5x q]
    omega
  rw [mark_loop_set 128 (0 + 256) s5 (fun q h1 h2 => (a5x q).2 (by omega))]
  obtain ⟨b1, _, b3, b4, b5⟩ := mark_loop_clear 128 (0 + 256 + 128) s5
    (fun q h1 h2 => by
      cases hb : pmm_test_bit s5.pmm_bitmap q with
      | false => rfl
      | true =>
        have := (a5x q).1 hb
        omega)
    (by omega) (by omega)
  refine ⟨by omega, ?_, ?_, ?_⟩
  · rw [b3, a3, f3]
  · rw [b4, a4, f4]
  · intro q
    rw [b5 q, a5x q]
    omega

/-- The state after the two loops when the kernel image covers the frames
512 and 513: exactly the frames below 514 are marked. -/
theorem high_kernel_loops_shape (S : PmmState)
    (hz : ∀ q, pmm_test_bit S.pmm_bitmap q = false)
    (h1 : 514 ≤ S.pmm_free_pages) (h2 : S.pmm_free_pages < 4294967296) :
    (mark_loop 512 0 (mark_loop 2 512 S)).pmm_free_pages = S.pmm_free_pages - 514 ∧
    (mark_loop 512 0 (mark_loop 2 512 S)).pmm_max_ram_page = S.pmm_max_ram_page ∧
    (mark_loop 512 0 (mark_loop 2 512 S)).pmm_last_alloc_index = S.pmm_last_alloc_index ∧
    ∀ q, pmm_test_bit (mark_loop 512 0 (mark_loop 2 512 S)).pmm_bitmap q = true ↔ q < 514 := by
  obtain ⟨f1, _, f3, f4, f5⟩ := mark_loop_clear 2 512 S (fun q _ _ => hz q) (by omega) h2
  generalize mark_loop 2 512 S = s4 at f1 f3 f4 f5 ⊢
  have f5x : ∀ q, pmm_test_bit s4.pmm_bitmap q = true ↔ (512 ≤ q ∧ q < 514) := by
    intro q
    rw [f5 q, hz q]
    constructor
    · rintro (g | g)
      · exact Bool.noConfusion g
      · omega
    · intro g
      exact Or.inr (by omega)
  obtain ⟨a1, _, a3, a4, a5⟩ := mark_loop_clear 512 0 s4
    (fun q h1 h2 => by
      cases hb : pmm_test_bit s4.pmm_bitmap q with
      | false => rfl
      | true =>
        have := (f5x q).1 hb
        omega)
    (by omega) (by omega)
  refine ⟨by omega, ?_, ?_, ?_⟩
  · rw [a3, f3]
  · rw [a4, f4]
  · intro q
    rw [a5 q, f5x q]
    omega

/-- Two bitmaps of bytes with the same bits are equal. -/
theorem bitmap_eq_of_bits (bm c : Nat → Nat) (h1 : ∀ i, bm i < 256) (h2 : ∀ i, c i < 256)
    (h : ∀ p, pmm_test_bit bm p = pmm_test_bit c p) : bm = c := by
  funext i
  apply Nat.eq_of_testBit_eq
  intro k
  by_cases hk : k < 8
  · have g := h (8 * i + k)
    rw [pmm_test_bit_eq, pmm_test_bit_eq] at g
    have e1 : (8 * i + k) / 8 = i := by omega
    have e2 : (8 * i + k) % 8 = k := by omega
    rw [e1, e2] at g
    exact g
  · have hp : 256 ≤ 2 ^ k := by
      have : 2 ^ 8 ≤ 2 ^ k := Nat.pow_le_pow_right (by decide) (by omega)
      exact this
    rw [Nat.testBit_lt_two_pow (lt_of_lt_of_le (h1 i) hp),
      Nat.testBit_lt_two_pow (lt_of_lt_of_le (h2 i) hp)]

theorem bool_eq_decide (x : Bool) (P : Prop) [Decidable P] (h : x = true ↔ P) :
    x = decide P := by
  cases x with
  | true => exact (decide_eq_true (h.1 rfl)).symm
  | false =>
    symm
    apply decide_eq_false
    intro c
    exact Bool.noConfusion (h.2 c)

theorem full_bytes_bits (p : Nat) :
    pmm_test_bit (fun i => if i < 64 then 255 else 0) p = decide (p < 512) := by
  have h255 : ∀ k, k < 8 → Nat.testBit 255 k = true := by decide
  rw [pmm_test_bit_eq]
  show (if p / 8 < 64 then 255 else 0).testBit (p % 8) = decide (p < 512)
  by_cases hp : p / 8 < 64
  · rw [if_pos hp, h255 _ (Nat.mod_lt _ (by decide))]
    exact (decide_eq_true (by omega)).symm
  · rw [if_neg hp, Nat.zero_testBit]
    exact (decide_eq_false (by omega)).symm

theorem full_bytes_two_bits (p : Nat) :
    pmm_test_bit (fun i => if i < 64 then 255 else if i = 64 then 3 else 0) p =
      decide (p < 514) := by
  have h255 : ∀ k, k < 8 → Nat.testBit 255 k = true := by decide
  have h3 : ∀ k, k < 8 → Nat.testBit 3 k = decide (k < 2) := by decide
  rw [pmm_test_bit_eq]
  show (if p / 8 < 64 then 255 else if p / 8 = 64 then 3 else 0).testBit (p % 8) =
    decide (p < 514)
  by_cases hp : p / 8 < 64
  · rw [if_pos hp, h255 _ (Nat.mod_lt _ (by decide))]
    exact (decide_eq_true (by omega)).symm
  · rw [if_neg hp]
    by_cases hq : p / 8 = 64
    · rw [if_pos hq, h3 _ (Nat.mod_lt _ (by decide))]
      by_cases hr : p % 8 < 2
      · rw [decide_eq_true hr]
        exact (decide_eq_true (by omega)).symm
      · rw [decide_eq_false hr]
        exact (decide_eq_false (by omega)).symm
    · rw [if_neg hq, Nat.zero_testBit]
      exact (decide_eq_false (by omega)).symm

/-- A state is determined by its counters and the bits of its bitmap. -/
theorem state_eq_of_bits (s : PmmState) (c : Nat → Nat) (sz T M F cur : Nat)
    (h1 : ∀ i, s.pmm_bitmap i < 256) (h2 : ∀ i, c i < 256)
    (h : ∀ p, pmm_test_bit s.pmm_bitmap p = pmm_test_bit c p)
    (hsz : s.pmm_bitmap_size_bytes = sz) (hT : s.pmm_total_pages = T)
    (hM : s.pmm_max_ram_page = M) (hF : s.pmm_free_pages = F)
    (hcur : s.pmm_last_alloc_index = cur) :
    s = { pmm_bitmap := c, pmm_bitmap_size_bytes := sz, pmm_total_pages := T,
          pmm_max_ram_page := M, pmm_free_pages := F, pmm_last_alloc_index := cur } := by
  have hb := bitmap_eq_of_bits s.pmm_bitmap c h1 h2 h
  cases s
  simp only at hb hsz hT hM hF hcur
  rw [hb, hsz, hT, hM, hF, hcur]

/-- The state `pmm_init` returns for a memory map with `T` frames in the
bitmap, no entry of another type than 1 inside them and the kernel image of
512 KiB at 1 MiB. -/
theorem low_init_eq (b : boot_info_t) (T M : Nat) (hm : b.magic = BOOT_INFO_MAGIC)
    (hk : b.kernel_sections = low_kernel)
    (ht : max_end_loop b.e820_map false b.e820_count 0 0 / PAGE_SIZE % 4294967296 = T)
    (hM : max_end_loop b.e820_map true b.e820_count 0 0 / PAGE_SIZE % 4294967296 = M)
    (hT1 : 512 ≤ T) (hT2 : T ≤ 1048576)
    (hr : ∀ S : PmmState, S.pmm_total_pages = T →
      mark_reserved_loop b.e820_map b.e820_count 0 S = S) :
    pmm_init pmm_static_init b =
      Res.ok { pmm_bitmap := fun i => if i < 64 then 255 else 0,
               pmm_bitmap_size_bytes := add32 T 7 / 8, pmm_total_pages := T,
               pmm_max_ram_page := M, pmm_free_pages := T - 512, pmm_last_alloc_index := 0 } := by
  have hz : ∀ q, pmm_test_bit (fun i => if i < add32 T 7 / 8 then 0 else 0) q = false := by
    intro q
    apply test_zero_byte
    show (if q / 8 < add32 T 7 / 8 then 0 else 0) = 0
    split
    · rfl
    · rfl
  have n1 : min ((0x100000 + 0x80000 + 4095) / 4096) T - 0x100000 / 4096 = 128 := by
    have : (0x100000 + 0x80000 + 4095) / 4096 = 384 := by decide
    rw [this, Nat.min_eq_left (by omega)]
  have n2 : (0x100000 : Nat) / 4096 = 256 := by decide
  have L := pmm_init_loops b T M hm ht hM hT1 hT2 (by rw [hk]; show 0x100000 / 4096 < T; omega)
    (by rw [hk]; decide) hr
  rw [hk] at L
  have L2 : pmm_init pmm_static_init b =
      Res.ok (mark_loop 512 0 (mark_loop 128 256
        { pmm_bitmap := fun i => if i < add32 T 7 / 8 then 0 else 0,
          pmm_bitmap_size_bytes := add32 T 7 / 8, pmm_total_pages := T, pmm_max_ram_page := M,
          pmm_free_pages := T, pmm_last_alloc_index := 0 })) := by
    rw [L]
    show Res.ok (mark_loop 512 0 (mark_loop
      (min ((0x100000 + 0x80000 + 4095) / 4096) T - 0x100000 / 4096) (0x100000 / 4096) _)) = _
    rw [n1, n2]
  rw [L2]
  obtain ⟨g1, g2, g3, g4⟩ := low_loops_shape
    { pmm_bitmap := fun i => if i < add32 T 7 / 8 then 0 else 0,
      pmm_bitmap_size_bytes := add32 T 7 / 8, pmm_total_pages := T, pmm_max_ram_page := M,
      pmm_free_pages := T, pmm_last_alloc_index := 0 }
    hz (by show 512 ≤ T; omega) (by show T < 4294967296; omega)
  obtain ⟨k1, k2, k3⟩ := mark_loop_frame 512 0 (mark_loop 128 256
    { pmm_bitmap := fun i => if i < add32 T 7 / 8 then 0 else 0,
      pmm_bitmap_size_bytes := add32 T 7 / 8, pmm_total_pages := T, pmm_max_ram_page := M,
      pmm_free_pages := T, pmm_last_alloc_index := 0 })
  obtain ⟨j1, j2, j3⟩ := mark_loop_frame 128 256
    { pmm_bitmap := fun i => if i < add32 T 7 / 8 then 0 else 0,
      pmm_bitmap_size_bytes := add32 T 7 / 8, pmm_total_pages := T, pmm_max_ram_page := M,
      pmm_free_pages := T, pmm_last_alloc_index := 0 }
  have hbytes := k3 (j3 (fun i => by
    show (if i < add32 T 7 / 8 then 0 else 0) < 256
    split
    · decide
    · decide))
  exact congrArg Res.ok (state_eq_of_bits _ _ _ _ _ _ _ hbytes
    (fun i => by
      show (if i < 64 then 255 else 0) < 256
      split
      · decide
      · decide)
    (fun p => by
      rw [full_bytes_bits p]
      exact bool_eq_decide _ _ (g4 p))
    (k1.trans j1) (k2.trans j2) g2 g1 g3)

theorem high_boot_init :
    pmm_init pmm_static_init high_boot =
      Res.ok { pmm_bitmap := fun i => if i < 64 then 255 else 0, pmm_bitmap_size_bytes := 65,
               pmm_total_pages := 514, pmm_max_ram_page := 516, pmm_free_pages := 2,
               pmm_last_alloc_index := 0 } :=
  low_init_eq high_boot 514 516 rfl rfl (by decide) (by decide) (by decide) (by decide)
    (fun S hS => by
      have e : mark_reserved_loop high_boot.e820_map high_boot.e820_count 0 S =
          pmm_mark_region_used S 0x100000000000 0x202000 := rfl
      rw [e, mark_region_skip S _ _ (by rw [hS]; decide)])

theorem wide_boot_init :
    pmm_init pmm_static_init wide_boot =
      Res.ok { pmm_bitmap := fun i => if i < 64 then 255 else 0, pmm_bitmap_size_bytes := 65,
               pmm_total_pages := 514, pmm_max_ram_page := 2097152, pmm_free_pages := 2,
               pmm_last_alloc_index := 0 } :=
  low_init_eq wide_boot 514 2097152 rfl rfl (by decide) (by decide) (by decide) (by decide)
    (fun S hS => by
      have e : mark_reserved_loop wide_boot.e820_map wide_boot.e820_count 0 S =
          pmm_mark_region_used S 0x100000000000 0x202000 := rfl
      rw [e, mark_region_skip S _ _ (by rw [hS]; decide)])

theorem gap_boot_init :
    pmm_init pmm_static_init gap_boot =
      Res.ok { pmm_bitmap := fun i => if i < 64 then 255 else 0, pmm_bitmap_size_bytes := 65,
               pmm_total_pages := 514, pmm_max_ram_page := 514, pmm_free_pages := 2,
               pmm_last_alloc_index := 0 } :=
  low_init_eq gap_boot 514 514 rfl rfl (by decide) (by decide) (by decide) (by decide)
    (fun _ _ => rfl)

theorem plain_boot_init :
    pmm_init pmm_static_init plain_boot =
      Res.ok { pmm_bitmap := fun i => if i < 64 then 255 else 0, pmm_bitmap_size_bytes := 65,
               pmm_total_pages := 516, pmm_max_ram_page := 516, pmm_free_pages := 4,
               pmm_last_alloc_index := 0 } :=
  low_init_eq plain_boot 516 516 rfl rfl (by decide) (by decide) (by decide) (by decide)
    (fun _ _ => rfl)

theorem kernel_boot_init :
    pmm_init pmm_static_init kernel_boot =
      Res.ok { pmm_bitmap := fun i => if i < 64 then 255 else if i = 64 then 3 else 0,
               pmm_bitmap_size_bytes := 65, pmm_total_pages := 516, pmm_max_ram_page := 516,
               pmm_free_pages := 2, pmm_last_alloc_index := 0 } := by
  have hz : ∀ q, pmm_test_bit (fun i => if i < 65 then 0 else 0) q = false := by
    intro q
    apply test_zero_byte
    show (if q / 8 < 65 then 0 else 0) = 0
    split
    · rfl
    · rfl
  have L : pmm_init pmm_static_init kernel_boot =
      Res.ok (mark_loop 512 0 (mark_loop 2 512
        { pmm_bitmap := fun i => if i < 65 then 0 else 0, pmm_bitmap_size_bytes := 65,
          pmm_total_pages := 516, pmm_max_ram_page := 516, pmm_free_pages := 516,
          pmm_last_alloc_index := 0 })) :=
    pmm_init_loops kernel_boot 516 516 rfl (by decide) (by decide) (by decide) (by decide)
      (by decide) (by decide) (fun _ _ => rfl)
  rw [L]
  obtain ⟨g1, g2, g3, g4⟩ := high_kernel_loops_shape
    { pmm_bitmap := fun i => if i < 65 then 0 else 0, pmm_bitmap_size_bytes := 65,
      pmm_total_pages := 516, pmm_max_ram_page := 516, pmm_free_pages := 516,
      pmm_last_alloc_index := 0 }
    hz (by decide) (by decide)
  obtain ⟨k1, k2, k3⟩ := mark_loop_frame 512 0 (mark_loop 2 512
    { pmm_bitmap := fun i => if i < 65 then 0 else 0, pmm_bitmap_size_bytes := 65,
      pmm_total_pages := 516, pmm_max_ram_page := 516, pmm_free_pages := 516,
      pmm_last_alloc_index := 0 })
  obtain ⟨j1, j2, j3⟩ := mark_loop_frame 2 512
    { pmm_bitmap := fun i => if i < 65 then 0 else 0, pmm_bitmap_size_bytes := 65,
      pmm_total_pages := 516, pmm_max_ram_page := 516, pmm_free_pages := 516,
      pmm_last_alloc_index := 0 }
  have hbytes := k3 (j3 (fun i => by
    show (if i < 65 then 0 else 0) < 256
    split
    · decide
    · decide))
  exact congrArg Res.ok (state_eq_of_bits _ _ _ _ _ _ _ hbytes
    (fun i => by
      show (if i < 64 then 255 else if i = 64 then 3 else 0) < 256
      split
      · decide
      · split
        · decide
        · decide)
    (fun p => by
      rw [full_bytes_two_bits p]
      exact bool_eq_decide _ _ (g4 p))
    (k1.trans j1) (k2.trans j2) g2 g1 g3)

/-- The run of calls after `pmm_init`, from the state that `pmm_init` returns. -/
theorem boot_run_of (b : boot_info_t) (s : PmmState) (ops : List PmmOp)
    (h : pmm_init pmm_static_init b = Res.ok s) :
    pmm_boot_run b ops = some (pmm_run ops s) := by
  unfold pmm_boot_run
  rw [h]
  rfl

/-! ## Evaluations of the physical allocator at concrete inputs -/

/-- A clear bit below `pmm_total_pages` keeps the used count below the total. -/
theorem used_count_lt_total (s : PmmState) (p : Nat) (hp : p < s.pmm_total_pages)
    (hb : pmm_test_bit s.pmm_bitmap p = false) : used_count s < s.pmm_total_pages := by
  unfold used_count
  have h : ((List.range s.pmm_total_pages).filter
      (fun p => pmm_test_bit s.pmm_bitmap p)).length < (List.range s.pmm_total_pages).length := by
    rw [List.length_filter_lt_length_iff_exists]
    exact ⟨p, List.mem_range.mpr hp, by simp [hb]⟩
  simpa using h

/-- Claim C10, at the failing input: the map `high_boot` passes the capacity
check of `pmm_init` (the frame count `2^32 + 514` is cut to 514), and after
`pmm_alloc_page` twice, `pmm_free_page(0x200000)` and `pmm_alloc_page` the free
counter is 0 although frame 512, below `total_frames = 514`, is free:
conservation does not hold. -/
theorem conservation_lost_on_high_map :
    (pmm_boot_run high_boot
        [PmmOp.alloc, PmmOp.alloc, PmmOp.free 0x200000, PmmOp.alloc]).map
      (fun r => conserved r.1) = some false := by
  have h : (pmm_boot_run high_boot
        [PmmOp.alloc, PmmOp.alloc, PmmOp.free 0x200000, PmmOp.alloc]).map
      (fun r => (r.1.pmm_free_pages, r.1.pmm_total_pages, pmm_test_bit r.1.pmm_bitmap 512)) =
      some (0, 514, false) := by
    rw [boot_run_of _ _ _ high_boot_init]
    decide!
  cases hr : pmm_boot_run high_boot
      [PmmOp.alloc, PmmOp.alloc, PmmOp.free 0x200000, PmmOp.alloc] with
  | none => rw [hr] at h; simp at h
  | some r =>
    rw [hr] at h
    simp only [Option.map_some', Option.some.injEq, Prod.mk.injEq] at h
    obtain ⟨h1, h2, h3⟩ := h
    have hlt := used_count_lt_total r.1 512 (by omega) h3
    simp only [Option.map_some', Option.some.injEq, conserved]
    rw [h1, h2] at *
    simp
    omega

/-- Claim C11, at the failing input: after `pmm_init` on the map `high_boot`
conservation holds and 4 frames in `[512, max_ram_frame)` are free, yet the
third `pmm_alloc_page` call already returns 0. -/
theorem third_alloc_fails_on_high_map :
    (pmm_boot_run high_boot []).map
      (fun r => (conserved r.1, free_in_range r.1,
        (pmm_run [PmmOp.alloc, PmmOp.alloc, PmmOp.alloc] r.1).2)) =
      some (true, 4, [0x200000, 0x201000, 0]) := by
  rw [boot_run_of _ _ _ high_boot_init]
  decide!

/-- Claim C12 as stated fails: after two allocations and `pmm_free_page` of
the second frame (frame 513, the cursor), the first free frame in cyclic order
beginning after the cursor is frame 514, but `pmm_alloc_page` returns frame
513 again. -/
theorem next_fit_starts_at_cursor :
    (pmm_boot_run plain_boot [PmmOp.alloc, PmmOp.alloc, PmmOp.free 0x201000]).map
      (fun r => (r.1.pmm_last_alloc_index, next_fit_following r.1,
        (pmm_run [PmmOp.alloc] r.1).2)) =
      some (513, some 514, [513 * PAGE_SIZE]) := by
  rw [boot_run_of _ _ _ plain_boot_init]
  decide!

/-- Claim C16, at the failing input: frame 512 lies in no entry of type 1 of
the map `gap_boot`, yet after `pmm_init` the first `pmm_alloc_page` returns its
address `0x200000`. -/
theorem alloc_returns_unreported_frame :
    frame_in_ram gap_boot 512 = false ∧
    (pmm_boot_run gap_boot [PmmOp.alloc]).map (fun r => r.2) = some [0x200000] := by
  rw [boot_run_of _ _ _ gap_boot_init]
  decide!

/-- Claim C17 as stated fails: `pmm_init` on the map `kernel_boot` marks frame
512 (kernel image) used, but after `pmm_free_page(0x200000)` the frame is free
and the next `pmm_alloc_page` returns it. -/
theorem reserved_frame_freed_and_returned :
    (pmm_boot_run kernel_boot []).map
      (fun r => (pmm_test_bit r.1.pmm_bitmap 512,
        pmm_test_bit (pmm_run [PmmOp.free 0x200000] r.1).1.pmm_bitmap 512,
        (pmm_run [PmmOp.free 0x200000, PmmOp.alloc] r.1).2)) =
      some (true, false, [0x200000]) := by
  rw [boot_run_of _ _ _ kernel_boot_init]
  decide!

/-- Claim C18, at the failing input: for the map `high_boot` the highest end
address covers `2^32 + 514` frames, more than the capacity 1048576, yet
`pmm_init` returns instead of halting. -/
theorem init_returns_on_high_map :
    max_end_loop high_boot.e820_map false high_boot.e820_count 0 0 / PAGE_SIZE = 4294967810 ∧
    outcome (pmm_init pmm_static_init high_boot) = 0 := by
  decide!

/-! ## Pseudo-random numbers -/

theorem rand_step (tick seed : Nat) :
    (rand tick seed).1 = ((if seed = 0 then tick else seed) * 33550336 + 8128) % 2147483648 ∧
    (rand tick seed).2 = (rand tick seed).1 := by
  refine ⟨?_, rfl⟩
  unfold rand rand_seed add32 rand_a rand_c rand_m
  dsimp only
  omega

theorem seed_after_succ (tick : Nat → Nat) (seed n : Nat) :
    seed_after tick seed (n + 1) % 4096 = 8128 % 4096 ∧ seed_after tick seed (n + 1) ≠ 0 := by
  have h : seed_after tick seed (n + 1) = (rand (tick n) (seed_after tick seed n)).1 := rfl
  rw [h, (rand_step _ _).1]
  omega

theorem seed_after_const (tick : Nat → Nat) (seed n : Nat) :
    seed_after tick seed (n + 3) = 1040457664 := by
  induction n with
  | zero =>
    have h1 := seed_after_succ tick seed 0
    have h2 := seed_after_succ tick seed 1
    have e1 : seed_after tick seed 1 = (rand (tick 0) (seed_after tick seed 0)).1 := rfl
    have e2 : seed_after tick seed 2 = (rand (tick 1) (seed_after tick seed 1)).1 := rfl
    have e3 : seed_after tick seed 3 = (rand (tick 2) (seed_after tick seed 2)).1 := rfl
    have g1 : seed_after tick seed 1 ≠ 0 := h1.2
    have g2 : seed_after tick seed 2 ≠ 0 := h2.2
    rw [(rand_step _ _).1] at e1 e2 e3
    rw [if_neg g1] at e2
    rw [if_neg g2] at e3
    generalize (if seed_after tick seed 0 = 0 then tick 0 else seed_after tick seed 0) = x at e1
    show seed_after tick seed 3 = 1040457664
    omega
  | succ n ih =>
    have e : seed_after tick seed (n + 1 + 3) = (rand (tick (n + 3)) (seed_after tick seed (n + 3))).1 :=
      rfl
    rw [e, (rand_step _ _).1, ih, if_neg (by decide)]

/-- Claim C40: after `rand_seed(seed)` with a non-zero seed, the static seed is
non-zero before every call of `rand` (the reseed from the timer is never
taken), and the third and every later value returned by `rand` is
1040457664, whatever the seed and the timer ticks. -/
theorem rand_degenerates (tick : Nat → Nat) (seed : Nat) (hs : seed ≠ 0) :
    (∀ n, seed_after tick (rand_seed seed) n ≠ 0) ∧
    (∀ n, 2 ≤ n → rand_value tick (rand_seed seed) n = 1040457664) := by
  refine ⟨?_, ?_⟩
  · intro n
    cases n with
    | zero => exact hs
    | succ n => exact (seed_after_succ tick _ n).2
  · intro n hn
    obtain ⟨k, rfl⟩ : ∃ k, n = k + 2 := ⟨n - 2, by omega⟩
    have e : rand_value tick (rand_seed seed) (k + 2) = seed_after tick (rand_seed seed) (k + 3) := rfl
    rw [e]
    exact seed_after_const tick _ k

/-- Claim C40 at the seed 5 of `kheap_killer`, with the timer at 0. -/
theorem rand_degenerates_witness :
    (∀ n, seed_after (fun _ => 0) (rand_seed 5) n ≠ 0) ∧
    (∀ n, 2 ≤ n → rand_value (fun _ => 0) (rand_seed 5) n = 1040457664) :=
  rand_degenerates (fun _ => 0) 5 (by decide)

/-! ## Removal and search in the ordered array -/

theorem shift_down_spec : ∀ (n : Nat) (array : Nat → Nat) (i x : Nat),
    shift_down array n i x = if i ≤ x ∧ x < i + n then array (x + 1) else array x := by
  intro n
  induction n with
  | zero =>
    intro array i x
    have h : ¬ (i ≤ x ∧ x < i + 0) := by omega
    rw [if_neg h]
    rfl
  | succ n ih =>
    intro array i x
    have e : shift_down array (n + 1) i x =
        shift_down (fun y => if y = i then array (i + 1) else array y) n (i + 1) x := rfl
    rw [e, ih]
    by_cases h1 : i + 1 ≤ x ∧ x < i + 1 + n
    · have h2 : i ≤ x ∧ x < i + (n + 1) := by omega
      have h3 : ¬ (x + 1 = i) := by omega
      rw [if_pos h1, if_pos h2]
      exact if_neg h3
    · rw [if_neg h1]
      by_cases h4 : x = i
      · have h2 : i ≤ x ∧ x < i + (n + 1) := by omega
        rw [if_pos h2, h4]
        exact if_pos rfl
      · have h2 : ¬ (i ≤ x ∧ x < i + (n + 1)) := by omega
        rw [if_neg h2]
        exact if_neg h4

theorem find_scan_spec (a : ordered_array_t) (ele : Nat) : ∀ (n i : Nat), i + n = a.size →
    i ≤ find_scan a ele n i ∧ find_scan a ele n i ≤ a.size ∧
    (∀ j, i ≤ j → j < find_scan a ele n i → a.array j ≠ ele) ∧
    (find_scan a ele n i < a.size → a.array (find_scan a ele n i) = ele) := by
  intro n
  induction n with
  | zero =>
    intro i hi
    have e : find_scan a ele 0 i = a.size := rfl
    rw [e]
    refine ⟨by omega, le_refl _, ?_, ?_⟩
    · intro j h1 h2
      omega
    · intro h
      omega
  | succ n ih =>
    intro i hi
    have e : find_scan a ele (n + 1) i =
        if a.array i = ele then i else find_scan a ele n (i + 1) := rfl
    rw [e]
    by_cases h : a.array i = ele
    · rw [if_pos h]
      refine ⟨le_refl _, by omega, ?_, ?_⟩
      · intro j h1 h2
        omega
      · intro _
        exact h
    · rw [if_neg h]
      obtain ⟨h1, h2, h3, h4⟩ := ih (i + 1) (by omega)
      refine ⟨by omega, h2, ?_, h4⟩
      intro j hj1 hj2
      by_cases hji : j = i
      · rw [hji]
        exact h
      · exact h3 j (by omega) hj2

theorem find_element_spec (a : ordered_array_t) (x : Nat) :
    ordered_array_find_element a x ≤ a.size ∧
    (∀ j, j < ordered_array_find_element a x → a.array j ≠ x) ∧
    (ordered_array_find_element a x < a.size → a.array (ordered_array_find_element a x) = x) := by
  obtain ⟨_, h2, h3, h4⟩ := find_scan_spec a x a.size 0 (by omega)
  exact ⟨h2, fun j hj => h3 j (Nat.zero_le j) hj, h4⟩

theorem find_element_lt_iff (a : ordered_array_t) (x : Nat) :
    ordered_array_find_element a x < a.size ↔ ∃ j, j < a.size ∧ a.array j = x := by
  obtain ⟨h1, h2, h3⟩ := find_element_spec a x
  constructor
  · intro h
    exact ⟨_, h, h3 h⟩
  · rintro ⟨j, hj, hx⟩
    by_contra hc
    exact h2 j (by omega) hx

theorem mem_index_entries (a : ordered_array_t) (x : Nat) :
    x ∈ index_entries a ↔ ∃ j, j < a.size ∧ a.array j = x := by
  unfold index_entries
  rw [List.mem_map]
  constructor
  · rintro ⟨j, hj, hx⟩
    exact ⟨j, List.mem_range.mp hj, hx⟩
  · rintro ⟨j, hj, hx⟩
    exact ⟨j, List.mem_range.mpr hj, hx⟩

theorem ordered_array_remove_eq (a : ordered_array_t) (i : Nat) (h : i < a.size) :
    ordered_array_remove a i =
      ({ a with array := shift_down a.array (a.size - 1 - i) i, size := a.size - 1 }, 1) := by
  unfold ordered_array_remove
  exact if_neg (by omega)

/-- Claim C38: `ordered_array_remove(i)` with `i < size` returns 1, makes the
size one less and leaves the old sequence with the element at position `i`
deleted (positions below `i` keep their element, position `j >= i` gets the
element of `j + 1`), so an array sorted under its comparator stays sorted;
with `i >= size` it returns 0 and changes nothing.  `ordered_array_get(i)` is
the element at position `i` when `i < size` and 0 otherwise. -/
theorem ordered_array_remove_effect (a : ordered_array_t) (i : Nat) :
    (i < a.size →
      (ordered_array_remove a i).2 = 1 ∧
      (ordered_array_remove a i).1.size = a.size - 1 ∧
      (ordered_array_remove a i).1.max_size = a.max_size ∧
      (ordered_array_remove a i).1.comparator = a.comparator ∧
      (∀ j, j < i → (ordered_array_remove a i).1.array j = a.array j) ∧
      (∀ j, i ≤ j → j < a.size - 1 → (ordered_array_remove a i).1.array j = a.array (j + 1)) ∧
      index_entries (ordered_array_remove a i).1 = (index_entries a).eraseIdx i ∧
      (∀ m, sorted_under m a → sorted_under m (ordered_array_remove a i).1)) ∧
    (a.size ≤ i → ordered_array_remove a i = (a, 0)) ∧
    ordered_array_get a i = (if i < a.size then a.array i else 0) := by
  refine ⟨?_, ?_, ?_⟩
  · intro h
    rw [ordered_array_remove_eq a i h]
    have hlow : ∀ j, j < i → shift_down a.array (a.size - 1 - i) i j = a.array j := by
      intro j hj
      rw [shift_down_spec]
      exact if_neg (by omega)
    have hhigh : ∀ j, i ≤ j → j < a.size - 1 →
        shift_down a.array (a.size - 1 - i) i j = a.array (j + 1) := by
      intro j hj1 hj2
      rw [shift_down_spec]
      exact if_pos (by omega)
    refine ⟨rfl, rfl, rfl, rfl, hlow, hhigh, ?_, ?_⟩
    · apply List.ext_getElem
      · unfold index_entries
        rw [List.length_eraseIdx]
        simp only [List.length_map, List.length_range]
        rw [if_pos h]
      · intro j h1 h2
        unfold index_entries at h1 h2 ⊢
        simp only [List.length_map, List.length_range] at h1
        rw [List.getElem_eraseIdx]
        simp only [List.getElem_map, List.getElem_range]
        by_cases hj : j < i
        · rw [dif_pos hj]
          exact hlow j hj
        · rw [dif_neg hj]
          exact hhigh j (by omega) h1
    · intro m hsorted p q hpq hq
      have hq1 : q < a.size - 1 := hq
      show a.comparator m (shift_down a.array (a.size - 1 - i) i p)
        (shift_down a.array (a.size - 1 - i) i q) ≤ 0
      by_cases hp : p < i
      · rw [hlow p hp]
        by_cases hq2 : q < i
        · rw [hlow q hq2]
          exact hsorted p q hpq (by omega)
        · rw [hhigh q (by omega) hq1]
          exact hsorted p (q + 1) (by omega) (by omega)
      · rw [hhigh p (by omega) (by omega), hhigh q (by omega) hq1]
        exact hsorted (p + 1) (q + 1) (by omega) (by omega)
  · intro h
    unfold ordered_array_remove
    exact if_pos h
  · unfold ordered_array_get
    by_cases h : i < a.size
    · rw [if_pos h]
      exact if_neg (by omega)
    · rw [if_neg h]
      exact if_pos (by omega)

theorem remove_element_eq_remove (a : ordered_array_t) (x : Nat) :
    ordered_array_remove_element a x =
      ordered_array_remove a (ordered_array_find_element a x) := by
  obtain ⟨h1, _, _⟩ := find_element_spec a x
  unfold ordered_array_remove_element ordered_array_remove
  have e : find_scan a x a.size 0 = ordered_array_find_element a x := rfl
  rw [e]
  dsimp only
  by_cases hc : ordered_array_find_element a x = a.size
  · rw [if_pos hc, if_pos (by omega)]
  · rw [if_neg hc, if_neg (by omega)]

/-- Claim C38 on the array `1, 5`: removing position 0 returns 1 and leaves
the sequence `5`. -/
theorem ordered_array_remove_effect_witness :
    (ordered_array_remove demo_array 0).2 = 1 ∧
    index_entries (ordered_array_remove demo_array 0).1 = (index_entries demo_array).eraseIdx 0 :=
  ⟨((ordered_array_remove_effect demo_array 0).1 (by decide)).1,
   ((ordered_array_remove_effect demo_array 0).1 (by decide)).2.2.2.2.2.2.1⟩

/-- Claim C39: `ordered_array_find_element(x)` returns the lowest position
whose entry is `x`, or `size` when `x` is not stored, so the result is below
`size` exactly when `x` is stored; `ordered_array_remove_element(x)` has the
return value and the resulting array of
`ordered_array_remove(ordered_array_find_element(x))`, and returns 0 with the
array unchanged when `x` is not stored. -/
theorem remove_element_refines (a : ordered_array_t) (x : Nat) :
    ordered_array_find_element a x ≤ a.size ∧
    (∀ j, j < ordered_array_find_element a x → a.array j ≠ x) ∧
    (ordered_array_find_element a x < a.size → a.array (ordered_array_find_element a x) = x) ∧
    (ordered_array_find_element a x < a.size ↔ ∃ j, j < a.size ∧ a.array j = x) ∧
    ordered_array_remove_element a x = ordered_array_remove a (ordered_array_find_element a x) ∧
    ((∀ j, j < a.size → a.array j ≠ x) → ordered_array_remove_element a x = (a, 0)) := by
  obtain ⟨h1, h2, h3⟩ := find_element_spec a x
  have hre := remove_element_eq_remove a x
  refine ⟨h1, h2, h3, find_element_lt_iff a x, hre, ?_⟩
  intro hno
  rw [hre]
  unfold ordered_array_remove
  apply if_pos
  by_contra hc
  exact hno _ (by omega) (h3 (by omega))

/-! ## Evaluations of `free` next to the heap bounds -/

set_option maxRecDepth 100000 in
/-- Claim C31, at the failing input: on boot memory holding a stale footer
just below the first block, after `ptr1 = kmalloc(100)` and
`ptr2 = kmalloc(200)` the heap is the allocated blocks `0xC0C80000` (payload
100) and `0xC0C80075` (payload 200) and the hole `0xC0C8014E` (payload
2621089).  `free(ptr1)` returns; its right neighbour is allocated and it has
no left neighbour, yet afterwards the index does not hold the freed block
`0xC0C80000`, and the hole `0xC0C8014E`, which is not a neighbour, has the
payload 2621206. -/
theorem free_first_block_changes_far_hole :
    (returned (two_blocks_run stale_mem)).map
      (fun r => (r.2.1,
        walk_blocks r.1.mem r.1.kheap.end_address 100 r.1.kheap.start_address)) =
      some (0xC0C80009,
        [(0xC0C80000, 100, 0), (0xC0C80075, 200, 0), (0xC0C8014E, 2621089, 1)]) ∧
    (returned (andThen (two_blocks_run stale_mem) fun r => free r.1 r.2.1)).map
      (fun s => (index_entries s.kheap.index,
        walk_blocks s.mem s.kheap.end_address 100 s.kheap.start_address)) =
      some ([0xC0C8014E],
        [(0xC0C80000, 100, 1), (0xC0C80075, 200, 0), (0xC0C8014E, 2621206, 1)]) := by
  decide!

set_option maxRecDepth 100000 in
/-- Claim C33, at the failing input: on boot memory holding a stale footer
just below the first block, `init_kheap`, four times `kmalloc(100)` giving
`a`, `b`, `p`, `c`, then `kfree(p)` and `kfree(a)` all return; in the state
reached the hole `0xC0C800EA` (payload 217, covering the live block `c`) is
immediately followed by the hole `0xC0C801D4`, and both are in the index. -/
theorem adjacent_holes_after_stale_free :
    (returned (four_blocks_run stale_mem_third)).map
      (fun s => (index_entries s.kheap.index,
        walk_blocks s.mem s.kheap.end_address 100 s.kheap.start_address,
        adjacent_holes (walk_blocks s.mem s.kheap.end_address 100 s.kheap.start_address))) =
      some ([0xC0C800EA, 0xC0C801D4],
        [(0xC0C80000, 100, 1), (0xC0C80075, 100, 0), (0xC0C800EA, 217, 1),
          (0xC0C801D4, 2620955, 1)], true) := by
  decide!

set_option maxRecDepth 100000 in
/-- Claim C36, at the failing input: after `ptr1 = kmalloc(100)` and
`ptr2 = kmalloc(200)` the block of `ptr1` starts at
`start_address = 0xC0C80000`.  Two states with the same heap structure whose
memories differ only in the four bytes at `0xC0C7FFF8`, below
`start_address`, give different results of `free(ptr1)`: with the stale magic
there the index afterwards holds `0xC0C8014E` only, with zero there it holds
`0xC0C80000` and `0xC0C8014E`. -/
theorem free_result_depends_on_bytes_below_start :
    (returned (two_blocks_run stale_mem)).map
      (fun r => (r.1.kheap.start_address, sub32 r.2.1 HEADER_SIZE)) =
      some (0xC0C80000, 0xC0C80000) ∧
    (returned (andThen (two_blocks_run stale_mem) fun r => free r.1 r.2.1)).map
      (fun s => index_entries s.kheap.index) = some [0xC0C8014E] ∧
    (returned (andThen (two_blocks_run stale_mem) fun r =>
        free ⟨write32 r.1.mem 0xC0C7FFF8 0, r.1.kheap⟩ r.2.1)).map
      (fun s => index_entries s.kheap.index) = some [0xC0C80000, 0xC0C8014E] := by
  decide!

/-! ## Frame leak of `vmm_alloc_and_map_page` -/

/-- Claim C37, at the failing input: with frames 512 to 515 free and no page
table present for `0xC0C80000`, `vmm_alloc_and_map_page` returns false, and
afterwards frame 512 is marked used and the free counter is 3 instead of 4. -/
theorem failed_map_keeps_frame_allocated :
    (returned (vmm_alloc_and_map_page ⟨demo_state, no_tables⟩ 0xC0C80000 3)).map
      (fun r => (r.2, r.1.pmm.pmm_free_pages, pmm_test_bit r.1.pmm.pmm_bitmap 512)) =
      some (false, 3, true) ∧
    demo_state.pmm_free_pages = 4 ∧ pmm_test_bit demo_state.pmm_bitmap 512 = false := by
  decide!

/-! ## Steps of `alloc` and `free` on particular heaps -/

theorem insert_entries (m : Mem) (a : ordered_array_t) (item : Nat) (hcap : a.size < a.max_size) :
    (ordered_array_insert m a item).2 = 1 ∧
    (ordered_array_insert m a item).1.size = a.size + 1 ∧
    (ordered_array_insert m a item).1.max_size = a.max_size ∧
    (ordered_array_insert m a item).1.comparator = a.comparator ∧
    (∀ j, j < a.size + 1 → (ordered_array_insert m a item).1.array j = item ∨
      ∃ k, k < a.size ∧ (ordered_array_insert m a item).1.array j = a.array k) ∧
    (∃ j, j < a.size + 1 ∧ (ordered_array_insert m a item).1.array j = item) := by
  rw [ordered_array_insert_eq m a item hcap]
  obtain ⟨_, hp, _, _⟩ := insert_scan_spec m a item a.size 0 (by omega)
  refine ⟨rfl, rfl, rfl, rfl, ?_, ?_⟩
  · intro j hj
    show (if j = insert_scan m a item a.size 0 then item
      else shift_up a.array (insert_scan m a item a.size 0)
        (a.size - insert_scan m a item a.size 0) j) = item ∨ _
    by_cases h : j = insert_scan m a item a.size 0
    · left
      exact if_pos h
    · right
      show ∃ k, k < a.size ∧ (if j = insert_scan m a item a.size 0 then item
        else shift_up a.array (insert_scan m a item a.size 0)
          (a.size - insert_scan m a item a.size 0) j) = a.array k
      rw [if_neg h, shift_up_spec]
      by_cases h2 : insert_scan m a item a.size 0 < j ∧
          j ≤ insert_scan m a item a.size 0 + (a.size - insert_scan m a item a.size 0)
      · rw [if_pos h2]
        exact ⟨j - 1, by omega, rfl⟩
      · rw [if_neg h2]
        exact ⟨j, by omega, rfl⟩
  · exact ⟨insert_scan m a item a.size 0, by omega, if_pos rfl⟩

theorem remove_single (a : ordered_array_t) (H : Nat) (h1 : a.size = 1) (h0 : a.array 0 = H) :
    (ordered_array_remove_element a H).2 = 1 ∧
    (ordered_array_remove_element a H).1.size = 0 ∧
    (ordered_array_remove_element a H).1.max_size = a.max_size := by
  have hf : ordered_array_find_element a H < a.size :=
    (find_element_lt_iff a H).mpr ⟨0, by omega, h0⟩
  rw [remove_element_eq_remove, ordered_array_remove_eq a _ hf]
  exact ⟨rfl, by show a.size - 1 = 0; omega, rfl⟩

theorem find_hole_none (fuel : Nat) (s : KState) (size pos : Nat)
    (hsmall : ∀ k, k < s.kheap.index.size → header_size s.mem (s.kheap.index.array k) < size) :
    find_hole fuel s.mem s.kheap size 0 pos = some (-1, pos) := by
  have e : find_hole fuel s.mem s.kheap size 0 pos =
      find_hole_loop fuel s.mem s.kheap size 0 pos s.kheap.index.size 0 := rfl
  rw [e]
  rcases find_hole_loop_plain fuel s.mem s.kheap size pos s.kheap.index.size 0 (by omega) with
    h | ⟨j, _, hj, _, hge, _⟩
  · exact h.1
  · have := hsmall j hj
    omega

theorem alloc_grow_hole_eq (s : KState) (size : Nat) (this1 : kheap_t) (ext : Nat)
    (hk : kheap_expand s.kheap (add32 size BLOCK_META_SIZE) = some (this1, ext))
    (hh : header_is_hole s.mem
      (footer_header s.mem (sub32 s.kheap.end_address FOOTER_SIZE)) ≠ 0)
    (hpos : 0 < add32 (header_size s.mem
      (footer_header s.mem (sub32 s.kheap.end_address FOOTER_SIZE))) ext)
    (hrem : (ordered_array_remove_element this1.index
      (footer_header s.mem (sub32 s.kheap.end_address FOOTER_SIZE))).2 ≠ 0) :
    alloc_grow s size =
      Res.ok ⟨mb_mem s.mem (footer_header s.mem (sub32 s.kheap.end_address FOOTER_SIZE))
          (add32 (header_size s.mem
            (footer_header s.mem (sub32 s.kheap.end_address FOOTER_SIZE))) ext) IS_HOLE,
        { this1 with index := (ordered_array_insert
            (mb_mem s.mem (footer_header s.mem (sub32 s.kheap.end_address FOOTER_SIZE))
              (add32 (header_size s.mem
                (footer_header s.mem (sub32 s.kheap.end_address FOOTER_SIZE))) ext) IS_HOLE)
            (ordered_array_remove_element this1.index
              (footer_header s.mem (sub32 s.kheap.end_address FOOTER_SIZE))).1
            (footer_header s.mem (sub32 s.kheap.end_address FOOTER_SIZE))).1 }⟩ := by
  unfold alloc_grow
  dsimp only
  rewrite [hk]
  dsimp only
  rewrite [if_pos hh, make_block_eq _ _ _ _ hpos]
  dsimp only
  rewrite [if_pos hrem]
  rfl

theorem kheap_expand_zero (this : kheap_t) : kheap_expand this 0 = some (this, 0) := rfl

theorem grow_by_zero_step (s : KState) (H S size : Nat) (hinv : last_hole_only s H S)
    (hS : 0 < S) (hb : H + S + 17 ≤ 4294967296) (hz : add32 size BLOCK_META_SIZE = 0) :
    ∃ s1, alloc_grow s size = Res.ok s1 ∧ last_hole_only s1 H S := by
  obtain ⟨h1, h2, h3, h4, h5, h6, h7⟩ := hinv
  have ef : sub32 s.kheap.end_address FOOTER_SIZE = H + S + 9 := by
    rw [sub32_eq, h4]
    unfold FOOTER_SIZE
    omega
  have eL : footer_header s.mem (sub32 s.kheap.end_address FOOTER_SIZE) = H := by
    rw [ef]
    exact h7
  have hk : kheap_expand s.kheap (add32 size BLOCK_META_SIZE) = some (s.kheap, 0) := by
    rw [hz]
    exact kheap_expand_zero _
  have eS : add32 S 0 = S := by
    unfold add32
    omega
  obtain ⟨r1, r2, r3⟩ := remove_single s.kheap.index H h1 h2
  have hgrow := alloc_grow_hole_eq s size s.kheap 0 hk (by rw [eL, h6]; decide)
    (by rw [eL, h5, eS]; exact hS) (by rw [eL, r1]; decide)
  rw [eL, h5, eS] at hgrow
  refine ⟨_, hgrow, ?_⟩
  obtain ⟨_, i2, i3, _, i5, _⟩ := insert_entries (mb_mem s.mem H S IS_HOLE)
    (ordered_array_remove_element s.kheap.index H).1 H (by rw [r2, r3]; exact h3)
  refine ⟨?_, ?_, ?_, h4, ?_, ?_, ?_⟩
  · show (ordered_array_insert _ _ H).1.size = 1
    rw [i2, r2]
  · show (ordered_array_insert _ _ H).1.array 0 = H
    rcases i5 0 (by omega) with h | ⟨k, hk1, _⟩
    · exact h
    · omega
  · show 0 < (ordered_array_insert _ _ H).1.max_size
    rw [i3, r3]
    exact h3
  · exact mb_header_size _ _ _ _ hS hb
  · rw [mb_header_is_hole _ _ _ _ hS hb]
    rfl
  · exact mb_footer_header _ _ _ _ hS hb

theorem alloc_never_returns (H S size : Nat) (hS : 0 < S) (hb : H + S + 17 ≤ 4294967296)
    (hSs : S < size) (hz : add32 size BLOCK_META_SIZE = 0) :
    ∀ fuel (s : KState), last_hole_only s H S → alloc fuel s size 0 = Res.nofuel := by
  intro fuel
  induction fuel with
  | zero =>
    intro s _
    rfl
  | succ fuel ih =>
    intro s hinv
    have e : alloc (fuel + 1) s size 0 =
        if size > 0 then
          match find_hole (fuel + 1) s.mem s.kheap size 0 0 with
          | none => Res.nofuel
          | some (iterator, alloc_pos) =>
            if iterator < 0 then
              match alloc_grow s size with
              | Res.ok s1 => alloc fuel s1 size 0
              | Res.panic s1 => Res.panic s1
              | Res.nofuel => Res.nofuel
            else alloc_use s size 0 iterator alloc_pos
        else Res.panic s := rfl
    have hfind : find_hole (fuel + 1) s.mem s.kheap size 0 0 = some (-1, 0) := by
      apply find_hole_none
      intro k hk
      have hk0 : k = 0 := by
        have := hinv.1
        omega
      rw [hk0, hinv.2.1, hinv.2.2.2.2.1]
      exact hSs
    obtain ⟨s1, hg, hinv1⟩ := grow_by_zero_step s H S size hinv hS hb hz
    rw [e, if_pos (by omega), hfind]
    dsimp only
    rw [if_pos (by decide), hg]
    exact ih s1 hinv1

set_option maxRecDepth 100000 in
theorem init_last_hole_only :
    last_hole_only (state_of (init_kheap zero_mem zero_index)) 0xC0C80000 2621423 := by
  unfold last_hole_only
  decide!

/-- Claim C34, at the failing input: on the heap of `init_kheap` the call
`alloc(0xFFFFFFEF)` does not terminate; no hole fits, the growth step extends
the heap by 0 bytes (`size + 17` wraps to 0) and the search is retried on an
unchanged heap, so for every amount of fuel the call neither returns nor
reaches the fatal halt. -/
theorem alloc_retries_forever_on_wrapped_size :
    ∀ fuel, alloc fuel (state_of (init_kheap zero_mem zero_index)) 0xFFFFFFEF 0 = Res.nofuel := by
  intro fuel
  exact alloc_never_returns 0xC0C80000 2621423 0xFFFFFFEF (by decide) (by decide) (by decide)
    (by decide) fuel _ init_last_hole_only

/-! ## `kheap_validate_print` -/

theorem validate_loop_succ (s : KState) (fuel a hn an : Nat) :
    validate_loop s (fuel + 1) a hn an =
      if a < s.kheap.end_address then
        if header_magic s.mem a ≠ KHEAP_MAGIC then Res.panic s
        else
          if header_is_hole s.mem a ≠ 0 then
            if ordered_array_find_element s.kheap.index a < s.kheap.index.size then
              if add32 a (add32 (header_size s.mem a) BLOCK_META_SIZE) ≤ s.kheap.end_address then
                validate_loop s fuel (add32 a (add32 (header_size s.mem a) BLOCK_META_SIZE))
                  (add32 hn 1) an
              else Res.panic s
            else Res.panic s
          else
            if add32 a (add32 (header_size s.mem a) BLOCK_META_SIZE) ≤ s.kheap.end_address then
              validate_loop s fuel (add32 a (add32 (header_size s.mem a) BLOCK_META_SIZE))
                hn (add32 an 1)
            else Res.panic s
      else Res.ok (hn, an) := rfl

theorem heap_walk_succ (m : Mem) (end_ fuel a : Nat) :
    heap_walk m end_ (fuel + 1) a =
      if a = end_ then some []
      else if a > end_ then none
      else if header_magic m a = KHEAP_MAGIC then
        (heap_walk m end_ fuel ((a + header_size m a + 17) % 4294967296)).map (fun l => a :: l)
      else none := rfl

theorem next_block_eq (a size : Nat) :
    add32 a (add32 size BLOCK_META_SIZE) = (a + size + 17) % 4294967296 := by
  unfold add32 BLOCK_META_SIZE
  omega

theorem heap_walk_some_le (m : Mem) (end_ : Nat) : ∀ fuel a L,
    heap_walk m end_ fuel a = some L → a ≤ end_ := by
  intro fuel a L h
  cases fuel with
  | zero => exact Option.noConfusion h
  | succ fuel =>
    rw [heap_walk_succ] at h
    by_cases h1 : a = end_
    · omega
    · by_cases h2 : a > end_
      · rw [if_neg h1, if_pos h2] at h
        exact Option.noConfusion h
      · omega

theorem heap_walk_step (m : Mem) (end_ fuel a : Nat) (L : List Nat)
    (h : heap_walk m end_ (fuel + 1) a = some L) (hne : a ≠ end_) :
    a < end_ ∧ header_magic m a = KHEAP_MAGIC ∧
    ∃ L1, heap_walk m end_ fuel ((a + header_size m a + 17) % 4294967296) = some L1 ∧
      L = a :: L1 := by
  rw [heap_walk_succ, if_neg hne] at h
  by_cases h2 : a > end_
  · rw [if_pos h2] at h
    exact Option.noConfusion h
  · rw [if_neg h2] at h
    by_cases h3 : header_magic m a = KHEAP_MAGIC
    · rw [if_pos h3] at h
      cases hw : heap_walk m end_ fuel ((a + header_size m a + 17) % 4294967296) with
      | none =>
        rw [hw] at h
        exact Option.noConfusion h
      | some L1 =>
        rw [hw] at h
        exact ⟨by omega, h3, L1, rfl, (Option.some.inj h).symm⟩
    · rw [if_neg h3] at h
      exact Option.noConfusion h

theorem heap_walk_mono (m : Mem) (end_ : Nat) : ∀ fuel a L,
    heap_walk m end_ fuel a = some L → heap_walk m end_ (fuel + 1) a = some L := by
  intro fuel
  induction fuel with
  | zero =>
    intro a L h
    exact Option.noConfusion h
  | succ fuel ih =>
    intro a L h
    by_cases h1 : a = end_
    · rw [heap_walk_succ, if_pos h1] at h
      rw [heap_walk_succ, if_pos h1]
      exact h
    · obtain ⟨h2, h3, L1, h4, h5⟩ := heap_walk_step m end_ fuel a L h h1
      rw [heap_walk_succ, if_neg h1, if_neg (by omega), if_pos h3, ih _ _ h4, h5]
      rfl

theorem heap_walk_mono_le (m : Mem) (end_ : Nat) (fuel a : Nat) (L : List Nat)
    (h : heap_walk m end_ fuel a = some L) : ∀ k, heap_walk m end_ (fuel + k) a = some L := by
  intro k
  induction k with
  | zero => exact h
  | succ k ih => exact heap_walk_mono m end_ _ a L ih

theorem heap_walk_suffix (m : Mem) (end_ : Nat) : ∀ fuel b L x,
    heap_walk m end_ fuel b = some L → x ∈ L →
    ∃ f1 Lx, f1 ≤ fuel ∧ heap_walk m end_ f1 x = some Lx ∧ Lx.length ≤ L.length ∧ x < end_ := by
  intro fuel
  induction fuel with
  | zero =>
    intro b L x h
    exact Option.noConfusion h
  | succ fuel ih =>
    intro b L x h hx
    by_cases h1 : b = end_
    · rw [heap_walk_succ, if_pos h1] at h
      rw [← Option.some.inj h] at hx
      exact absurd hx (List.not_mem_nil x)
    · obtain ⟨h2, h3, L1, h4, h5⟩ := heap_walk_step m end_ fuel b L h h1
      rw [h5] at hx
      rcases List.mem_cons.mp hx with hxb | hxl
      · rw [hxb]
        exact ⟨fuel + 1, L, le_refl _, h, le_refl _, h2⟩
      · obtain ⟨f1, Lx, g1, g2, g3, g4⟩ := ih _ L1 x h4 hxl
        refine ⟨f1, Lx, by omega, g2, ?_, g4⟩
        rw [h5, List.length_cons]
        omega

theorem heap_walk_nodup (m : Mem) (end_ : Nat) : ∀ fuel a L,
    heap_walk m end_ fuel a = some L → L.Nodup := by
  intro fuel
  induction fuel with
  | zero =>
    intro a L h
    exact Option.noConfusion h
  | succ fuel ih =>
    intro a L h
    by_cases h1 : a = end_
    · rw [heap_walk_succ, if_pos h1] at h
      rw [← Option.some.inj h]
      exact List.nodup_nil
    · obtain ⟨h2, h3, L1, h4, h5⟩ := heap_walk_step m end_ fuel a L h h1
      rw [h5]
      refine List.nodup_cons.mpr ⟨?_, ih _ L1 h4⟩
      intro hmem
      obtain ⟨f1, La, g1, g2, g3, _⟩ := heap_walk_suffix m end_ fuel _ L1 a h4 hmem
      have g5 := heap_walk_mono_le m end_ f1 a La g2 (fuel + 1 - f1)
      have e : f1 + (fuel + 1 - f1) = fuel + 1 := by omega
      rw [e, h] at g5
      have g6 : L = La := Option.some.inj g5
      rw [← g6, h5, List.length_cons] at g3
      omega

theorem heap_walk_length (m : Mem) (end_ fuel a : Nat) (L : List Nat)
    (h : heap_walk m end_ fuel a = some L) : L.length ≤ end_ := by
  have hnd := heap_walk_nodup m end_ fuel a L h
  have hsub : L.toFinset ⊆ Finset.range end_ := by
    intro x hx
    rw [List.mem_toFinset] at hx
    obtain ⟨_, _, _, _, _, g4⟩ := heap_walk_suffix m end_ fuel a L x h hx
    exact Finset.mem_range.mpr g4
  have hc := Finset.card_le_card hsub
  rw [List.toFinset_card_of_nodup hnd, Finset.card_range] at hc
  exact hc

theorem walk_holes_cons (m : Mem) (a : Nat) (L : List Nat) :
    (header_is_hole m a ≠ 0 → walk_holes m (a :: L) = a :: walk_holes m L ∧
      walk_allocs m (a :: L) = walk_allocs m L) ∧
    (header_is_hole m a = 0 → walk_holes m (a :: L) = walk_holes m L ∧
      walk_allocs m (a :: L) = a :: walk_allocs m L) := by
  unfold walk_holes walk_allocs
  constructor
  · intro h
    constructor
    · exact List.filter_cons_of_pos (by simpa using h)
    · exact List.filter_cons_of_neg (by simpa using h)
  · intro h
    constructor
    · exact List.filter_cons_of_neg (by simpa using h)
    · exact List.filter_cons_of_pos (by simpa using h)

theorem walk_counts_le (m : Mem) (L : List Nat) :
    (walk_holes m L).length ≤ L.length ∧ (walk_allocs m L).length ≤ L.length :=
  ⟨List.length_filter_le _ _, List.length_filter_le _ _⟩

/-- The loop of `kheap_validate_print` along a walk whose holes are all found
in the index. -/
theorem validate_loop_of_walk (s : KState) : ∀ fuel a hn an L,
    heap_walk s.mem s.kheap.end_address fuel a = some L →
    (∀ h, h ∈ walk_holes s.mem L →
      ordered_array_find_element s.kheap.index h < s.kheap.index.size) →
    hn < 4294967296 → an < 4294967296 →
    validate_loop s fuel a hn an =
      Res.ok ((hn + (walk_holes s.mem L).length) % 4294967296,
        (an + (walk_allocs s.mem L).length) % 4294967296) := by
  intro fuel
  induction fuel with
  | zero =>
    intro a hn an L h
    exact Option.noConfusion h
  | succ fuel ih =>
    intro a hn an L h hidx hhn han
    rw [validate_loop_succ]
    by_cases h1 : a = s.kheap.end_address
    · rw [heap_walk_succ, if_pos h1] at h
      rw [← Option.some.inj h, if_neg (by omega)]
      show Res.ok (hn, an) = Res.ok ((hn + 0) % 4294967296, (an + 0) % 4294967296)
      rw [Nat.add_zero, Nat.add_zero, Nat.mod_eq_of_lt hhn, Nat.mod_eq_of_lt han]
    · obtain ⟨h2, h3, L1, h4, h5⟩ := heap_walk_step _ _ fuel a L h h1
      have hnext := heap_walk_some_le _ _ _ _ _ h4
      rw [← next_block_eq] at h4 hnext
      rw [h5] at hidx ⊢
      rw [if_pos h2, if_neg (not_not.mpr h3)]
      by_cases hh : header_is_hole s.mem a ≠ 0
      · obtain ⟨e1, e2⟩ := (walk_holes_cons s.mem a L1).1 hh
        have hf := hidx a (by rw [e1]; exact List.mem_cons_self _ _)
        rw [if_pos hh, if_pos hf, if_pos hnext,
          ih _ _ _ L1 h4 (fun h hm => hidx h (by rw [e1]; exact List.mem_cons_of_mem _ hm))
            (by unfold add32; omega) han, e1, e2, List.length_cons]
        unfold add32
        congr 2
        omega
      · obtain ⟨e1, e2⟩ := (walk_holes_cons s.mem a L1).2 (not_not.mp hh)
        rw [if_neg hh, if_pos hnext,
          ih _ _ _ L1 h4 (fun h hm => hidx h (by rw [e1]; exact hm)) hhn
            (by unfold add32; omega), e1, e2, List.length_cons]
        unfold add32
        congr 2
        omega

/-- A normal return of the loop of `kheap_validate_print` gives a walk whose
holes are all found in the index. -/
theorem walk_of_validate_loop (s : KState) : ∀ fuel a hn an r,
    validate_loop s fuel a hn an = Res.ok r → a ≤ s.kheap.end_address →
    ∃ L, heap_walk s.mem s.kheap.end_address fuel a = some L ∧
      ∀ h, h ∈ walk_holes s.mem L →
        ordered_array_find_element s.kheap.index h < s.kheap.index.size := by
  intro fuel
  induction fuel with
  | zero =>
    intro a hn an r h
    exact Res.noConfusion h
  | succ fuel ih =>
    intro a hn an r h hle
    rw [validate_loop_succ] at h
    by_cases h1 : a < s.kheap.end_address
    · rw [if_pos h1] at h
      by_cases h3 : header_magic s.mem a = KHEAP_MAGIC
      · rw [if_neg (not_not.mpr h3)] at h
        rw [heap_walk_succ, if_neg (by omega), if_neg (by omega), if_pos h3, ← next_block_eq]
        by_cases hh : header_is_hole s.mem a ≠ 0
        · rw [if_pos hh] at h
          by_cases hf : ordered_array_find_element s.kheap.index a < s.kheap.index.size
          · rw [if_pos hf] at h
            by_cases hn1 : add32 a (add32 (header_size s.mem a) BLOCK_META_SIZE) ≤
                s.kheap.end_address
            · rw [if_pos hn1] at h
              obtain ⟨L1, g1, g2⟩ := ih _ _ _ r h hn1
              refine ⟨a :: L1, by rw [g1]; rfl, ?_⟩
              intro x hx
              rw [((walk_holes_cons s.mem a L1).1 hh).1] at hx
              rcases List.mem_cons.mp hx with hxa | hxl
              · rw [hxa]
                exact hf
              · exact g2 x hxl
            · rw [if_neg hn1] at h
              exact Res.noConfusion h
          · rw [if_neg hf] at h
            exact Res.noConfusion h
        · rw [if_neg hh] at h
          by_cases hn1 : add32 a (add32 (header_size s.mem a) BLOCK_META_SIZE) ≤
              s.kheap.end_address
          · rw [if_pos hn1] at h
            obtain ⟨L1, g1, g2⟩ := ih _ _ _ r h hn1
            refine ⟨a :: L1, by rw [g1]; rfl, ?_⟩
            intro x hx
            rw [((walk_holes_cons s.mem a L1).2 (not_not.mp hh)).1] at hx
            exact g2 x hx
          · rw [if_neg hn1] at h
            exact Res.noConfusion h
      · rw [if_pos h3] at h
        exact Res.noConfusion h
    · have e : a = s.kheap.end_address := by omega
      refine ⟨[], by rw [heap_walk_succ, if_pos e], ?_⟩
      intro x hx
      exact absurd hx (List.not_mem_nil x)

theorem kheap_validate_print_eq (fuel : Nat) (s : KState) (p : Nat) :
    kheap_validate_print fuel s p =
      match validate_loop s fuel s.kheap.start_address 0 0 with
      | Res.ok (hole_num, alloc_num) =>
        if hole_num = s.kheap.index.size then Res.ok alloc_num else Res.panic s
      | Res.panic s1 => Res.panic s1
      | Res.nofuel => Res.nofuel := rfl

theorem validate_print_cases (fuel : Nat) (s : KState) (p n : Nat)
    (h : kheap_validate_print fuel s p = Res.ok n) :
    ∃ hn, validate_loop s fuel s.kheap.start_address 0 0 = Res.ok (hn, n) ∧
      hn = s.kheap.index.size := by
  rw [kheap_validate_print_eq] at h
  cases hv : validate_loop s fuel s.kheap.start_address 0 0 with
  | ok r =>
    rw [hv] at h
    obtain ⟨hn, an⟩ := r
    dsimp only at h
    by_cases hc : hn = s.kheap.index.size
    · rw [if_pos hc] at h
      exact ⟨hn, by rw [Res.ok.inj h], hc⟩
    · rw [if_neg hc] at h
      exact Res.noConfusion h
  | panic s1 =>
    rw [hv] at h
    exact Res.noConfusion h
  | nofuel =>
    rw [hv] at h
    exact Res.noConfusion h

theorem index_entries_length (a : ordered_array_t) : (index_entries a).length = a.size := by
  unfold index_entries
  rw [List.length_map, List.length_range]

/-- What `kheap_validate_print` checks on a heap with
`start_address <= end_address` (a 32-bit
value), `kheap_validate_print` passes all its assertions exactly when the
linear walk from `start_address` meets only headers with the magic, ends
exactly at `end_address`, and the hole headers it meets are the entries of the
index as a multiset; and when it passes it returns the number of non-hole
blocks of the walk. -/
theorem validate_passes_iff (s : KState) (p : Nat)
    (hle : s.kheap.start_address ≤ s.kheap.end_address)
    (hend : s.kheap.end_address < 4294967296) :
    ((∃ fuel n, kheap_validate_print fuel s p = Res.ok n) ↔
      ∃ fuel L, heap_walk s.mem s.kheap.end_address fuel s.kheap.start_address = some L ∧
        (walk_holes s.mem L).Perm (index_entries s.kheap.index)) ∧
    (∀ fuel n, kheap_validate_print fuel s p = Res.ok n →
      ∃ L, heap_walk s.mem s.kheap.end_address fuel s.kheap.start_address = some L ∧
        n = (walk_allocs s.mem L).length) := by
  have key : ∀ fuel n, kheap_validate_print fuel s p = Res.ok n →
      ∃ L, heap_walk s.mem s.kheap.end_address fuel s.kheap.start_address = some L ∧
        (walk_holes s.mem L).Perm (index_entries s.kheap.index) ∧
        n = (walk_allocs s.mem L).length := by
    intro fuel n h
    obtain ⟨hn, hv, hsize⟩ := validate_print_cases fuel s p n h
    obtain ⟨L, hw, hidx⟩ := walk_of_validate_loop s fuel _ 0 0 _ hv hle
    have hv2 := validate_loop_of_walk s fuel _ 0 0 L hw hidx (by decide) (by decide)
    rw [hv] at hv2
    have hlen := heap_walk_length _ _ _ _ _ hw
    obtain ⟨c1, c2⟩ := walk_counts_le s.mem L
    have e1 : hn = (walk_holes s.mem L).length := by
      have := (Prod.mk.inj (Res.ok.inj hv2)).1
      omega
    have e2 : n = (walk_allocs s.mem L).length := by
      have := (Prod.mk.inj (Res.ok.inj hv2)).2
      omega
    refine ⟨L, hw, ?_, e2⟩
    have hnd : (walk_holes s.mem L).Nodup :=
      List.Nodup.filter _ (heap_walk_nodup _ _ _ _ _ hw)
    have hsub : walk_holes s.mem L ⊆ index_entries s.kheap.index := by
      intro x hx
      exact (mem_index_entries _ _).mpr ((find_element_lt_iff _ _).mp (hidx x hx))
    apply (List.subperm_of_subset hnd hsub).perm_of_length_le
    rw [index_entries_length]
    omega
  refine ⟨⟨?_, ?_⟩, ?_⟩
  · rintro ⟨fuel, n, h⟩
    obtain ⟨L, hw, hp, _⟩ := key fuel n h
    exact ⟨fuel, L, hw, hp⟩
  · rintro ⟨fuel, L, hw, hp⟩
    have hidx : ∀ h, h ∈ walk_holes s.mem L →
        ordered_array_find_element s.kheap.index h < s.kheap.index.size := by
      intro x hx
      exact (find_element_lt_iff _ _).mpr ((mem_index_entries _ _).mp (hp.subset hx))
    have hv := validate_loop_of_walk s fuel _ 0 0 L hw hidx (by decide) (by decide)
    have hlen := heap_walk_length _ _ _ _ _ hw
    obtain ⟨c1, c2⟩ := walk_counts_le s.mem L
    have hl := hp.length_eq
    rw [index_entries_length] at hl
    refine ⟨fuel, (0 + (walk_allocs s.mem L).length) % 4294967296, ?_⟩
    rw [kheap_validate_print_eq, hv]
    dsimp only
    rw [if_pos (by omega)]
  · intro fuel n h
    obtain ⟨L, hw, _, hn⟩ := key fuel n h
    exact ⟨L, hw, hn⟩

/-- The check of `kheap_validate_print` on the one-page heap of
`create_kheap(0x100000, 0x181000, 0x200000)`. -/
theorem validate_passes_iff_witness :
    ((∃ fuel n, kheap_validate_print fuel (state_of small_heap) 0 = Res.ok n) ↔
      ∃ fuel L, heap_walk (state_of small_heap).mem (state_of small_heap).kheap.end_address fuel
          (state_of small_heap).kheap.start_address = some L ∧
        (walk_holes (state_of small_heap).mem L).Perm
          (index_entries (state_of small_heap).kheap.index)) ∧
    (∀ fuel n, kheap_validate_print fuel (state_of small_heap) 0 = Res.ok n →
      ∃ L, heap_walk (state_of small_heap).mem (state_of small_heap).kheap.end_address fuel
          (state_of small_heap).kheap.start_address = some L ∧
        n = (walk_allocs (state_of small_heap).mem L).length) :=
  validate_passes_iff (state_of small_heap) 0 (by decide) (by decide)

/-! ## Filling the hole index -/

theorem unit_block_frame (m m1 : Mem) (a : Nat) (ha : a + 18 ≤ 4294967296)
    (heq : ∀ x, a ≤ x → x < a + 18 → x ≠ a + 4 → m1 x = m x) (hu : unit_block m a) :
    unit_block m1 a := by
  obtain ⟨h1, h2, h3, h4⟩ := hu
  have e5 : add32 a 5 = a + 5 := by unfold add32; omega
  have e14 : add32 (a + 10) 4 = a + 14 := by unfold add32; omega
  have g1 : header_magic m1 a = header_magic m a := by
    unfold header_magic
    apply read32_congr
    intro i hi
    rw [Nat.mod_eq_of_lt (by omega)]
    exact heq _ (by omega) (by omega) (by omega)
  have g2 : header_size m1 a = header_size m a := by
    unfold header_size
    rw [e5]
    apply read32_congr
    intro i hi
    rw [Nat.mod_eq_of_lt (by omega)]
    exact heq _ (by omega) (by omega) (by omega)
  have g3 : footer_magic m1 (a + 10) = footer_magic m (a + 10) := by
    unfold footer_magic
    apply read32_congr
    intro i hi
    rw [Nat.mod_eq_of_lt (by omega)]
    exact heq _ (by omega) (by omega) (by omega)
  have g4 : footer_header m1 (a + 10) = footer_header m (a + 10) := by
    unfold footer_header
    rw [e14]
    apply read32_congr
    intro i hi
    rw [Nat.mod_eq_of_lt (by omega)]
    exact heq _ (by omega) (by omega) (by omega)
  exact ⟨g1.trans h1, g2.trans h2, g3.trans h3, g4.trans h4⟩

theorem is_hole_frame (m m1 : Mem) (a : Nat) (ha : a + 5 ≤ 4294967296)
    (heq : m1 (a + 4) = m (a + 4)) : header_is_hole m1 a = header_is_hole m a := by
  have e4 : add32 a 4 = a + 4 := by unfold add32; omega
  unfold header_is_hole
  rw [e4]
  apply read8_congr
  rw [Nat.mod_eq_of_lt (by omega)]
  exact heq

theorem alloc_succ (fuel : Nat) (s : KState) (size page_align : Nat) :
    alloc (fuel + 1) s size page_align =
      if size > 0 then
        match find_hole (fuel + 1) s.mem s.kheap size page_align 0 with
        | none => Res.nofuel
        | some (iterator, alloc_pos) =>
          if iterator < 0 then
            match alloc_grow s size with
            | Res.ok s1 => alloc fuel s1 size page_align
            | Res.panic s1 => Res.panic s1
            | Res.nofuel => Res.nofuel
          else alloc_use s size page_align iterator alloc_pos
      else Res.panic s := rfl

theorem alloc_use_plain (s : KState) (size : Nat) (it : Int) (pos : Nat)
    (hm : header_magic s.mem (ordered_array_get s.kheap.index it.toNat) = KHEAP_MAGIC) :
    alloc_use s size 0 it pos =
      alloc_place ⟨s.mem, { s.kheap with
          index := (ordered_array_remove s.kheap.index it.toNat).1 }⟩
        (header_size s.mem (ordered_array_get s.kheap.index it.toNat))
        (ordered_array_get s.kheap.index it.toNat) size pos := by
  unfold alloc_use
  dsimp only
  rewrite [if_neg (not_not.mpr hm)]
  rewrite [if_neg (by decide : ¬ ((0 : Nat) ≠ 0))]
  rfl

/-- The call `kmalloc(size)` when the first hole of the index fits with more
than 17 bytes to spare: the block is carved from the front of that hole and
the rest becomes a hole that is put into the index. -/
theorem kmalloc_first_hole (f : Nat) (s : KState) (size : Nat) (hsz : 0 < size)
    (h1 : 0 < s.kheap.index.size)
    (hm : header_magic s.mem (s.kheap.index.array 0) = KHEAP_MAGIC)
    (hfit : size + 17 < header_size s.mem (s.kheap.index.array 0))
    (hb : s.kheap.index.array 0 + header_size s.mem (s.kheap.index.array 0) + 17 ≤ 4294967296) :
    kmalloc (f + 1) s size =
      Res.ok (⟨mb_mem (mb_mem s.mem (s.kheap.index.array 0) size NOT_HOLE)
            (s.kheap.index.array 0 + size + 17)
            (header_size s.mem (s.kheap.index.array 0) - size - 17) IS_HOLE,
          { s.kheap with
            index := (ordered_array_insert
              (mb_mem (mb_mem s.mem (s.kheap.index.array 0) size NOT_HOLE)
                (s.kheap.index.array 0 + size + 17)
                (header_size s.mem (s.kheap.index.array 0) - size - 17) IS_HOLE)
              (ordered_array_remove s.kheap.index 0).1
              (s.kheap.index.array 0 + size + 17)).1 }⟩,
        s.kheap.index.array 0 + 9) := by
  have hfind : find_hole (f + 1) s.mem s.kheap size 0 0 =
      some (((0 : Nat) : Int), add32 (s.kheap.index.array 0) HEADER_SIZE) := by
    have e : find_hole (f + 1) s.mem s.kheap size 0 0 =
        find_hole_loop (f + 1) s.mem s.kheap size 0 0 s.kheap.index.size 0 := rfl
    rw [e]
    rcases find_hole_loop_plain (f + 1) s.mem s.kheap size 0 s.kheap.index.size 0 (by omega) with
      h | ⟨j, _, hj, hl, _, hfirst⟩
    · have := h.2 0 (le_refl _) h1
      omega
    · have hj0 : j = 0 := by
        by_contra hne
        have := hfirst 0 (le_refl _) (by omega)
        omega
      subst hj0
      exact hl
  have hget : ordered_array_get s.kheap.index 0 = s.kheap.index.array 0 :=
    ordered_array_get_lt _ _ h1
  have htn : ((0 : Nat) : Int).toNat = 0 := rfl
  have huse := alloc_use_plain s size ((0 : Nat) : Int) (add32 (s.kheap.index.array 0) HEADER_SIZE)
    (by rw [htn, hget]; exact hm)
  rw [htn, hget] at huse
  have hlt := read32_lt s.mem (add32 (s.kheap.index.array 0) 5)
  have hsplit := alloc_place_split
    ⟨s.mem, { s.kheap with index := (ordered_array_remove s.kheap.index 0).1 }⟩
    (header_size s.mem (s.kheap.index.array 0)) (s.kheap.index.array 0) size
    (add32 (s.kheap.index.array 0) HEADER_SIZE)
    hsz (by omega) hlt hb (by omega)
  have epos : add32 (s.kheap.index.array 0) HEADER_SIZE = s.kheap.index.array 0 + 9 := by
    unfold add32 HEADER_SIZE
    omega
  have halloc := (alloc_succ f s size 0).trans (if_pos hsz)
  rw [hfind] at halloc
  dsimp only at halloc
  rw [if_neg (by decide), huse, hsplit, epos] at halloc
  unfold kmalloc kmalloc_impl
  rw [if_neg (by omega), halloc]
  dsimp only
  rw [if_neg (by omega)]

theorem kmalloc_one_step (f : Nat) (s : KState) (ST E k : Nat) (hf : filled s ST E k)
    (hroom : ST + 18 * k + 36 ≤ E) (hE : E ≤ 4294967296) :
    ∃ s1, kmalloc (f + 1) s 1 = Res.ok (s1, ST + 18 * k + 9) ∧ filled s1 ST E (k + 1) := by
  obtain ⟨h1, h2, h3, h4, h5, h6, h7, h8⟩ := hf
  have hk := kmalloc_first_hole f s 1 (by decide) (by omega) (by rw [h2]; exact h6)
    (by rw [h2]; omega) (by rw [h2]; omega)
  rw [h2] at hk
  refine ⟨_, hk, ?_⟩
  have hbs : header_size s.mem (ST + 18 * k) - 1 - 17 = E - (ST + 18 * (k + 1)) - 17 := by omega
  have ea : ST + 18 * k + 1 + 17 = ST + 18 * (k + 1) := by omega
  rw [hbs, ea]
  have hr := ordered_array_remove_eq s.kheap.index 0 (by omega)
  obtain ⟨_, i2, i3, _, i5, _⟩ := insert_entries
    (mb_mem (mb_mem s.mem (ST + 18 * k) 1 NOT_HOLE) (ST + 18 * (k + 1))
      (E - (ST + 18 * (k + 1)) - 17) IS_HOLE)
    (ordered_array_remove s.kheap.index 0).1 (ST + 18 * (k + 1))
    (by rw [hr]; show s.kheap.index.size - 1 < s.kheap.index.max_size; rw [h1, h3]; decide)
  have hsz0 : (ordered_array_remove s.kheap.index 0).1.size = 0 := by
    rw [hr]
    show s.kheap.index.size - 1 = 0
    omega
  have hmx0 : (ordered_array_remove s.kheap.index 0).1.max_size = s.kheap.index.max_size := by
    rw [hr]
  have hS : 0 < E - (ST + 18 * (k + 1)) - 17 := by omega
  have hB : ST + 18 * (k + 1) + (E - (ST + 18 * (k + 1)) - 17) + 17 ≤ 4294967296 := by omega
  refine ⟨?_, ?_, ?_, h4, h5, ?_, ?_, ?_⟩
  · show (ordered_array_insert _ _ _).1.size = 1
    rw [i2, hsz0]
  · show (ordered_array_insert _ _ _).1.array 0 = ST + 18 * (k + 1)
    rcases i5 0 (by omega) with h | ⟨t, ht, _⟩
    · exact h
    · omega
  · show (ordered_array_insert _ _ _).1.max_size = KHEAP_INDEX_NUM
    rw [i3, hmx0, h3]
  · exact mb_header_magic _ _ _ _ hS hB
  · show header_size (mb_mem _ _ _ _) _ + _ + 17 = E
    rw [mb_header_size _ _ _ _ hS hB]
    omega
  · intro i hi
    have hframe2 : ∀ x, x < ST + 18 * (k + 1) →
        mb_mem (mb_mem s.mem (ST + 18 * k) 1 NOT_HOLE) (ST + 18 * (k + 1))
          (E - (ST + 18 * (k + 1)) - 17) IS_HOLE x = mb_mem s.mem (ST + 18 * k) 1 NOT_HOLE x := by
      intro x hx
      exact mb_mem_other _ _ _ _ _ hB (Or.inl hx) (Or.inl (by omega))
    by_cases hik : i < k
    · obtain ⟨u, v⟩ := h8 i hik
      have hframe : ∀ x, x < ST + 18 * k →
          mb_mem (mb_mem s.mem (ST + 18 * k) 1 NOT_HOLE) (ST + 18 * (k + 1))
            (E - (ST + 18 * (k + 1)) - 17) IS_HOLE x = s.mem x := by
        intro x hx
        rw [hframe2 x (by omega)]
        exact mb_mem_other _ _ _ _ _ (by omega) (Or.inl hx) (Or.inl (by omega))
      refine ⟨unit_block_frame _ _ _ (by omega) (fun x hx1 hx2 _ => hframe x (by omega)) u, ?_⟩
      rw [is_hole_frame _ _ _ (by omega) (hframe _ (by omega))]
      exact v
    · have hik2 : i = k := by omega
      subst hik2
      have hS1 : (0 : Nat) < 1 := by decide
      have hB1 : ST + 18 * i + 1 + 17 ≤ 4294967296 := by omega
      have ef : ST + 18 * i + 1 + 9 = ST + 18 * i + 10 := by omega
      have u : unit_block (mb_mem s.mem (ST + 18 * i) 1 NOT_HOLE) (ST + 18 * i) := by
        refine ⟨mb_header_magic _ _ _ _ hS1 hB1, mb_header_size _ _ _ _ hS1 hB1, ?_, ?_⟩
        · rw [← ef]
          exact mb_footer_magic _ _ _ _ hS1 hB1
        · rw [← ef]
          exact mb_footer_header _ _ _ _ hS1 hB1
      refine ⟨unit_block_frame _ _ _ (by omega) (fun x hx1 hx2 _ => hframe2 x (by omega)) u, ?_⟩
      rw [is_hole_frame _ _ _ (by omega) (hframe2 _ (by omega)),
        mb_header_is_hole _ _ _ _ hS1 hB1]
      rfl

theorem andThen_ok {σ α β : Type} (v : α) (f : α → Res σ β) :
    andThen (Res.ok v : Res σ α) f = f v := rfl

theorem kmalloc_ones_filled (f ST E : Nat) (hE : E ≤ 4294967296) (s0 : KState)
    (h0 : filled s0 ST E 0) : ∀ n, ST + 18 * n + 18 ≤ E →
    ∃ sn ptrs, kmalloc_ones (f + 1) n s0 = Res.ok (sn, ptrs) ∧ filled sn ST E n ∧
      ptrs.length = n ∧ ∀ i, i < n → ptrs.getD i 0 = ST + 18 * i + 9 := by
  intro n
  induction n with
  | zero =>
    intro _
    exact ⟨s0, [], rfl, h0, rfl, fun i hi => by omega⟩
  | succ n ih =>
    intro hroom
    obtain ⟨sn, ptrs, hrun, hfill, hlen, hptr⟩ := ih (by omega)
    obtain ⟨s1, hk, hfill1⟩ := kmalloc_one_step f sn ST E n hfill (by omega) hE
    have e : kmalloc_ones (f + 1) (n + 1) s0 =
        andThen (kmalloc_ones (f + 1) n s0) fun r =>
          andThen (kmalloc (f + 1) r.1 1) fun q => Res.ok (q.1, r.2 ++ [q.2]) := rfl
    refine ⟨s1, ptrs ++ [ST + 18 * n + 9], ?_, hfill1, ?_, ?_⟩
    · rw [e, hrun, andThen_ok]
      dsimp only
      rw [hk, andThen_ok]
    · rw [List.length_append, hlen]
      rfl
    · intro i hi
      by_cases hin : i < n
      · rw [List.getD_append _ _ _ _ (by omega)]
        exact hptr i hin
      · have hi2 : i = n := by omega
        rw [List.getD_append_right _ _ _ _ (by omega), hlen, hi2, Nat.sub_self]
        rfl

/-- The call `free` on a block of payload 1 whose two neighbours are allocated
blocks: the block is flagged as a hole and handed to `ordered_array_insert`,
nothing is merged. -/
theorem free_no_merge (s : KState) (B : Nat) (hB1 : 18 ≤ B) (hB2 : B + 36 ≤ 4294967296)
    (hu : unit_block s.mem B) (hleft : unit_block s.mem (B - 18))
    (hlefth : header_is_hole s.mem (B - 18) = 0)
    (hrighth : header_is_hole s.mem (B + 18) = 0) :
    free s (B + 9) =
      Res.ok ⟨write8 s.mem (B + 4) 1,
        { s.kheap with
          index := (ordered_array_insert (write8 s.mem (B + 4) 1) s.kheap.index B).1 }⟩ := by
  obtain ⟨u1, u2, u3, u4⟩ := hu
  obtain ⟨l1, l2, l3, l4⟩ := hleft
  have e_h : sub32 (B + 9) HEADER_SIZE = B := by
    rw [sub32_eq]
    unfold HEADER_SIZE
    omega
  have e_f : add32 (B + 9) 1 = B + 10 := by unfold add32; omega
  have e_4 : add32 B 4 = B + 4 := by unfold add32; omega
  have e_r : add32 (B + 10) FOOTER_SIZE = B + 18 := by unfold add32 FOOTER_SIZE; omega
  have e_l : sub32 B FOOTER_SIZE = B - 18 + 10 := by
    rw [sub32_eq]
    unfold FOOTER_SIZE
    omega
  have hw : ∀ x, x ≠ B + 4 → write8 s.mem (B + 4) 1 x = s.mem x := by
    intro x hx
    apply write8_other
    rw [Nat.mod_eq_of_lt (by omega)]
    exact hx
  have hr : header_is_hole (write8 s.mem (B + 4) 1) (B + 18) = 0 := by
    rw [is_hole_frame _ _ _ (by omega) (hw _ (by omega))]
    exact hrighth
  have hl := unit_block_frame s.mem (write8 s.mem (B + 4) 1) (B - 18) (by omega)
    (fun x _ hx2 _ => hw x (by omega)) ⟨l1, l2, l3, l4⟩
  have hlh : header_is_hole (write8 s.mem (B + 4) 1) (B - 18) = 0 := by
    rw [is_hole_frame _ _ _ (by omega) (hw _ (by omega))]
    exact hlefth
  unfold free
  rewrite [if_neg (by omega : ¬ (B + 9 = 0))]
  dsimp only
  rewrite [e_h, u2, e_f, e_4, e_r, e_l, if_neg (not_not.mpr u1), if_neg (not_not.mpr u3)]
  rewrite [if_neg (by rw [hr]; exact fun h => h.2 rfl)]
  dsimp only
  rewrite [if_neg (by rw [hl.2.2.2, hlh]; exact fun h => absurd h.2 (by decide))]
  rfl

theorem free_odd_block (s : KState) (ST E n j : Nat) (ht : thinned s ST E n j)
    (hj : 2 * j + 2 < n) (hb : ST + 18 * n + 18 ≤ 4294967296) :
    kfree s (ST + 18 * (2 * j + 1) + 9) =
      Res.ok ⟨write8 s.mem (ST + 18 * (2 * j + 1) + 4) 1,
        { s.kheap with
          index := (ordered_array_insert (write8 s.mem (ST + 18 * (2 * j + 1) + 4) 1)
            s.kheap.index (ST + 18 * (2 * j + 1))).1 }⟩ ∧
    ∀ i, i < n → unit_block (write8 s.mem (ST + 18 * (2 * j + 1) + 4) 1) (ST + 18 * i) ∧
      header_is_hole (write8 s.mem (ST + 18 * (2 * j + 1) + 4) 1) (ST + 18 * i) =
        (if i % 2 = 1 ∧ i < 2 * (j + 1) then 1 else 0) := by
  obtain ⟨_, _, _, _, _, hblk⟩ := ht
  have hw : ∀ x, x ≠ ST + 18 * (2 * j + 1) + 4 →
      write8 s.mem (ST + 18 * (2 * j + 1) + 4) 1 x = s.mem x := by
    intro x hx
    apply write8_other
    rw [Nat.mod_eq_of_lt (by omega)]
    exact hx
  constructor
  · have el : ST + 18 * (2 * j + 1) - 18 = ST + 18 * (2 * j) := by omega
    have er : ST + 18 * (2 * j + 1) + 18 = ST + 18 * (2 * j + 2) := by omega
    obtain ⟨b1, b2⟩ := hblk (2 * j + 1) (by omega)
    obtain ⟨l1, l2⟩ := hblk (2 * j) (by omega)
    obtain ⟨_, r2⟩ := hblk (2 * j + 2) (by omega)
    rw [if_neg (by omega)] at l2 r2
    unfold kfree
    rw [if_neg (by omega)]
    exact free_no_merge s (ST + 18 * (2 * j + 1)) (by omega) (by omega) b1
      (by rw [el]; exact l1) (by rw [el]; exact l2) (by rw [er]; exact r2)
  · intro i hi
    obtain ⟨u, v⟩ := hblk i hi
    refine ⟨unit_block_frame _ _ _ (by omega) (fun x hx1 hx2 hx3 => hw x (by omega)) u, ?_⟩
    by_cases hij : i = 2 * j + 1
    · subst hij
      have e4 : add32 (ST + 18 * (2 * j + 1)) 4 = ST + 18 * (2 * j + 1) + 4 := by
        unfold add32
        omega
      rw [if_pos (by omega)]
      unfold header_is_hole
      rw [e4, read8_write8, if_pos rfl]
    · rw [is_hole_frame _ _ _ (by omega) (hw _ (by omega)), v]
      by_cases hc : i % 2 = 1 ∧ i < 2 * j
      · rw [if_pos hc, if_pos (by omega)]
      · rw [if_neg hc, if_neg (by omega)]

theorem thinned_step (s : KState) (ST E n j : Nat) (ht : thinned s ST E n j)
    (hj : 2 * j + 2 < n) (hb : ST + 18 * n + 18 ≤ 4294967296)
    (hcap : 1 + j < KHEAP_INDEX_NUM) :
    ∃ s1, kfree s (ST + 18 * (2 * j + 1) + 9) = Res.ok s1 ∧ thinned s1 ST E n (j + 1) := by
  obtain ⟨hfree, hmem⟩ := free_odd_block s ST E n j ht hj hb
  obtain ⟨t1, t2, t3, t4, t5, _⟩ := ht
  refine ⟨_, hfree, ?_⟩
  obtain ⟨_, i2, i3, _, i5, _⟩ := insert_entries
    (write8 s.mem (ST + 18 * (2 * j + 1) + 4) 1) s.kheap.index (ST + 18 * (2 * j + 1))
    (by rw [t1, t2]; exact hcap)
  refine ⟨?_, ?_, t3, t4, ?_, hmem⟩
  · show (ordered_array_insert _ _ _).1.size = 1 + (j + 1)
    rw [i2, t1]
    omega
  · show (ordered_array_insert _ _ _).1.max_size = KHEAP_INDEX_NUM
    rw [i3, t2]
  · intro i hi
    have hi2 : i < s.kheap.index.size + 1 := by
      have e : (ordered_array_insert (write8 s.mem (ST + 18 * (2 * j + 1) + 4) 1) s.kheap.index
        (ST + 18 * (2 * j + 1))).1.size = s.kheap.index.size + 1 := i2
      rw [← e]
      exact hi
    show (ordered_array_insert _ _ _).1.array i = ST + 18 * n ∨
      ∃ t, t < j + 1 ∧ (ordered_array_insert _ _ _).1.array i = ST + 18 * (2 * t + 1)
    rcases i5 i hi2 with h | ⟨k, hk, h⟩
    · right
      exact ⟨j, by omega, h⟩
    · rcases t5 k hk with g | ⟨t, ht1, g⟩
      · left
        rw [h, g]
      · right
        exact ⟨t, by omega, by rw [h, g]⟩

theorem kfree_odd_thinned (s0 : KState) (ST E n : Nat) (ptrs : List Nat)
    (h0 : thinned s0 ST E n 0) (hb : ST + 18 * n + 18 ≤ 4294967296)
    (hptr : ∀ i, i < n → ptrs.getD i 0 = ST + 18 * i + 9) :
    ∀ j, j < KHEAP_INDEX_NUM → 2 * j < n →
      ∃ sj, kfree_odd j s0 ptrs = Res.ok sj ∧ thinned sj ST E n j := by
  intro j
  induction j with
  | zero =>
    intro _ _
    exact ⟨s0, rfl, h0⟩
  | succ j ih =>
    intro hcap hn
    obtain ⟨sj, hrun, hthin⟩ := ih (by omega) (by omega)
    obtain ⟨s1, hfree, hthin1⟩ := thinned_step sj ST E n j hthin (by omega) hb (by omega)
    have e : kfree_odd (j + 1) s0 ptrs =
        andThen (kfree_odd j s0 ptrs) fun s1 => kfree s1 (ptrs.getD (2 * j + 1) 0) := rfl
    refine ⟨s1, ?_, hthin1⟩
    rw [e, hrun, andThen_ok, hptr _ (by omega)]
    exact hfree

theorem thinned_of_filled (s : KState) (ST E n : Nat) (hf : filled s ST E n) :
    thinned s ST E n 0 := by
  obtain ⟨h1, h2, h3, h4, h5, _, _, h8⟩ := hf
  refine ⟨h1, h3, h4, h5, ?_, ?_⟩
  · intro i hi
    left
    have hi0 : i = 0 := by omega
    rw [hi0, h2]
  · intro i hi
    obtain ⟨u, v⟩ := h8 i hi
    exact ⟨u, by rw [v, if_neg (by omega)]⟩

/-- The free that finds the index full: the block becomes a hole in memory,
the index stays as it was and does not hold the block. -/
theorem thinned_overflow (s : KState) (ST E n j : Nat) (ht : thinned s ST E n j)
    (hj : 2 * j + 2 < n) (hb : ST + 18 * n + 18 ≤ 4294967296)
    (hfull : 1 + j = KHEAP_INDEX_NUM) :
    ∃ s1, kfree s (ST + 18 * (2 * j + 1) + 9) = Res.ok s1 ∧
      s1.kheap.index.size = KHEAP_INDEX_NUM ∧ s1.kheap.index.max_size = KHEAP_INDEX_NUM ∧
      s1.kheap.start_address = ST ∧ s1.kheap.end_address = E ∧
      header_magic s1.mem (ST + 18 * (2 * j + 1)) = KHEAP_MAGIC ∧
      header_is_hole s1.mem (ST + 18 * (2 * j + 1)) = 1 ∧
      ordered_array_find_element s1.kheap.index (ST + 18 * (2 * j + 1)) =
        s1.kheap.index.size := by
  obtain ⟨hfree, hmem⟩ := free_odd_block s ST E n j ht hj hb
  obtain ⟨t1, t2, t3, t4, t5, _⟩ := ht
  have hins : ordered_array_insert (write8 s.mem (ST + 18 * (2 * j + 1) + 4) 1) s.kheap.index
      (ST + 18 * (2 * j + 1)) = (s.kheap.index, 0) := by
    unfold ordered_array_insert
    exact if_pos (by rw [t1, t2, hfull])
  rw [hins] at hfree
  refine ⟨_, hfree, ?_, t2, t3, t4, ?_, ?_, ?_⟩
  · show s.kheap.index.size = KHEAP_INDEX_NUM
    rw [t1, hfull]
  · exact (hmem (2 * j + 1) (by omega)).1.1
  · have := (hmem (2 * j + 1) (by omega)).2
    rw [if_pos (by omega)] at this
    exact this
  · show ordered_array_find_element s.kheap.index (ST + 18 * (2 * j + 1)) = s.kheap.index.size
    obtain ⟨f1, _, _⟩ := find_element_spec s.kheap.index (ST + 18 * (2 * j + 1))
    by_contra hne
    have hlt : ordered_array_find_element s.kheap.index (ST + 18 * (2 * j + 1)) <
        s.kheap.index.size := by omega
    obtain ⟨i, hi, hx⟩ := (find_element_lt_iff _ _).mp hlt
    rcases t5 i hi with g | ⟨t, ht1, g⟩
    · rw [g] at hx
      omega
    · rw [g] at hx
      omega

theorem ok_of_outcome (r : Res KState KState) (h : outcome r = 0) : r = Res.ok (state_of r) := by
  cases r with
  | ok v => rfl
  | panic s => exact absurd h (Nat.succ_ne_zero 0)
  | nofuel => exact absurd h (Nat.succ_ne_zero 1)

set_option maxRecDepth 100000 in
theorem grown_heap_filled :
    outcome grown_heap = 0 ∧ filled (state_of grown_heap) 3234332672 3242201088 0 := by
  unfold filled
  refine ⟨by decide!, by decide!, by decide!, by decide!, by decide!, by decide!, by decide!,
    by decide!, ?_⟩
  intro i hi
  exact absurd hi (Nat.not_lt_zero i)

/-- Claim C35, at the failing input: starting from `init_kheap`, the calls
`p = kmalloc(0x500000)`, `kfree(p)`, 262145 times `kmalloc(1)` and then
`kfree` of every second returned pointer, 131072 calls, all return.  After the
first 131071 of these frees the index holds `KHEAP_INDEX_NUM` entries, so the
insert of the last free fails: in the state reached the block `0xC10FFFEE`
inside the heap is a hole, and the index, with `KHEAP_INDEX_NUM` entries, does
not hold it. -/
theorem index_overflow_leaves_hole_out :
    ∃ s, overflow_run = Res.ok s ∧
      s.kheap.index.size = KHEAP_INDEX_NUM ∧ s.kheap.index.max_size = KHEAP_INDEX_NUM ∧
      s.kheap.start_address ≤ 3239051246 ∧ 3239051246 < s.kheap.end_address ∧
      header_magic s.mem 3239051246 = KHEAP_MAGIC ∧
      header_is_hole s.mem 3239051246 = 1 ∧
      ordered_array_find_element s.kheap.index 3239051246 = s.kheap.index.size := by
  obtain ⟨hg1, hg2⟩ := grown_heap_filled
  have hg := ok_of_outcome grown_heap hg1
  obtain ⟨sn, ptrs, hrun, hfill, _, hptr⟩ :=
    kmalloc_ones_filled 9 3234332672 3242201088 (by decide) (state_of grown_heap) hg2 262145
      (by decide)
  obtain ⟨sj, hfrees, hthin⟩ :=
    kfree_odd_thinned sn 3234332672 3242201088 262145 ptrs (thinned_of_filled _ _ _ _ hfill)
      (by decide) hptr 131071 (by decide) (by decide)
  obtain ⟨s1, hlast, c1, c2, c3, c4, c5, c6, c7⟩ :=
    thinned_overflow sj 3234332672 3242201088 262145 131071 hthin (by decide) (by decide)
      (by decide)
  have eB : 3234332672 + 18 * (2 * 131071 + 1) = 3239051246 := by decide
  rw [eB] at c5 c6 c7 hlast
  refine ⟨s1, ?_, c1, c2, by rw [c3]; decide, by rw [c4]; decide, c5, c6, c7⟩
  have e : overflow_run =
      andThen grown_heap fun s1 =>
        andThen (kmalloc_ones 10 262145 s1) fun r => kfree_odd 131072 r.1 r.2 := rfl
  have e2 : kfree_odd 131072 sn ptrs =
      andThen (kfree_odd 131071 sn ptrs) fun s1 => kfree s1 (ptrs.getD (2 * 131071 + 1) 0) := rfl
  have hp := hptr (2 * 131071 + 1) (by decide)
  rw [e, hg, andThen_ok, hrun, andThen_ok]
  dsimp only
  rw [e2, hfrees, andThen_ok, hp]
  exact hlast

/-! ## The scan of `pmm_alloc_page` beyond the bitmap capacity -/

theorem wide_init_eq :
    wide_init =
      { pmm_bitmap := fun i => if i < 64 then 255 else 0, pmm_bitmap_size_bytes := 65,
        pmm_total_pages := 514, pmm_max_ram_page := 2097152, pmm_free_pages := 2,
        pmm_last_alloc_index := 0 } := by
  unfold wide_init
  rw [wide_boot_init]

theorem wide_init_ok : pmm_init pmm_static_init wide_boot = Res.ok wide_init := by
  rw [wide_init_eq]
  exact wide_boot_init

theorem wide_init_shape : climbed wide_init 2 512 511 0 := by
  rw [wide_init_eq]
  refine ⟨rfl, rfl, rfl, fun p => ?_⟩
  show pmm_test_bit (fun i => if i < 64 then 255 else 0) p = true ↔ _
  rw [full_bytes_bits p, decide_eq_true_eq]
  omega

theorem climbed_alloc (s : PmmState) (n lo hi c : Nat) (h : climbed s n lo hi c)
    (hn : n ≠ 0) (hn2 : n < 4294967296) (hlo : lo ≤ 512 ∨ lo ≤ c) (hlh : lo ≤ hi + 1)
    (hc : c ≤ hi + 1) (hhi : 511 ≤ hi) (hmax : hi + 1 < 2097152) :
    pmm_alloc_page s =
      Res.ok (alloc_state s (hi + 1), ((hi + 1) * PAGE_SIZE) % 4294967296) ∧
    climbed (alloc_state s (hi + 1)) (n - 1) lo (hi + 1) (hi + 1) := by
  obtain ⟨h1, h2, h3, h4⟩ := h
  have hsc : ∀ d, d + c < 2097152 → scan_index s d = c + d := by
    intro d hd
    unfold scan_index
    rw [h1, h3]
    omega
  have hal : ∀ q, allocatable s q ↔ (512 ≤ q ∧ ¬ (lo ≤ q ∧ q ≤ hi)) := by
    intro q
    unfold allocatable
    rw [low_limit_eq]
    constructor
    · rintro ⟨a1, a2⟩
      refine ⟨a1, ?_⟩
      intro hr
      have := (h4 q).mpr (Or.inr hr)
      rw [a2] at this
      exact Bool.noConfusion this
    · rintro ⟨a1, a2⟩
      refine ⟨a1, ?_⟩
      cases hb : pmm_test_bit s.pmm_bitmap q with
      | false => rfl
      | true =>
        rcases (h4 q).mp hb with g | g
        · omega
        · exact absurd g a2
  have hfirst : allocatable s (hi + 1) := (hal _).mpr ⟨by omega, by omega⟩
  constructor
  · rcases pmm_alloc_page_cases s with ⟨_, k2⟩ | ⟨d, k1, _, _, k4, k5, k6⟩
    · exact absurd hfirst (k2 (by rw [h2]; exact hn) (hi + 1) (by rw [h1]; exact hmax))
    · rw [h1] at k1
      have hd : d = hi + 1 - c := by
        by_contra hne
        by_cases hlt : d < hi + 1 - c
        · rw [hsc d (by omega)] at k4
          have := (hal _).mp k4
          omega
        · have := k5 (hi + 1 - c) (by omega)
          rw [hsc _ (by omega)] at this
          apply this
          have e : c + (hi + 1 - c) = hi + 1 := by omega
          rw [e]
          exact hfirst
      have e : scan_index s d = hi + 1 := by
        rw [hd, hsc _ (by omega)]
        omega
      rw [e] at k6
      exact k6
  · refine ⟨h1, ?_, rfl, ?_⟩
    · show sub32 s.pmm_free_pages 1 = n - 1
      rw [sub32_eq, h2]
      omega
    · intro p
      show pmm_test_bit (pmm_set_bit s.pmm_bitmap (hi + 1)) p = true ↔ _
      by_cases hp : p = hi + 1
      · rw [hp, test_set_same]
        constructor
        · intro _
          right
          omega
        · intro _
          rfl
      · rw [test_set_other _ _ _ hp, h4 p]
        constructor
        · rintro (g | g)
          · exact Or.inl g
          · exact Or.inr ⟨g.1, by omega⟩
        · rintro (g | g)
          · exact Or.inl g
          · exact Or.inr ⟨g.1, by omega⟩

theorem climbed_free (s : PmmState) (n lo hi c : Nat) (h : climbed s n lo hi c)
    (hn : n + 1 < 4294967296) (hlo : 512 ≤ lo) (hlh : lo ≤ hi) (hmax : hi < 2097152) :
    climbed (pmm_free_page s (lo * PAGE_SIZE)) (n + 1) (lo + 1) hi c := by
  obtain ⟨h1, h2, h3, h4⟩ := h
  have hP : PAGE_SIZE = 4096 := rfl
  have e : lo * 4096 / 4096 = lo := by omega
  rw [hP, pmm_free_page_eq s (lo * 4096) (by omega) (by omega) (by rw [e, h1]; omega)
    (by rw [e]; exact (h4 lo).mpr (Or.inr ⟨Nat.le_refl _, hlh⟩)), e]
  refine ⟨h1, ?_, h3, ?_⟩
  · show add32 s.pmm_free_pages 1 = n + 1
    rw [h2]
    unfold add32
    omega
  · intro p
    show pmm_test_bit (pmm_clear_bit s.pmm_bitmap lo) p = true ↔ _
    by_cases hp : p = lo
    · rw [hp, test_clear_same]
      constructor
      · intro c
        exact Bool.noConfusion c
      · intro c
        omega
    · rw [test_clear_other _ _ _ hp, h4 p]
      constructor
      · rintro (g | g)
        · exact Or.inl g
        · exact Or.inr ⟨by omega, g.2⟩
      · rintro (g | g)
        · exact Or.inl g
        · exact Or.inr ⟨by omega, g.2⟩

theorem pmm_step_alloc_of (s s1 : PmmState) (a : Nat) (h : pmm_alloc_page s = Res.ok (s1, a)) :
    pmm_step s PmmOp.alloc = (s1, some a) := by
  unfold pmm_step
  rw [h]

theorem two_allocs_shape (s : PmmState) (h : climbed s 2 512 511 0) :
    climbed (two_allocs s) 0 512 513 513 ∧
    (pmm_step s PmmOp.alloc).2 = some 0x200000 ∧
    (pmm_step (pmm_step s PmmOp.alloc).1 PmmOp.alloc).2 = some 0x201000 := by
  obtain ⟨a1, a2⟩ := climbed_alloc s 2 512 511 0 h (by decide) (by decide)
    (Or.inl (Nat.le_refl _)) (by decide) (by decide) (by decide) (by decide)
  obtain ⟨b1, b2⟩ := climbed_alloc (alloc_state s (511 + 1)) (2 - 1) 512 (511 + 1)
    (511 + 1) a2 (by decide) (by decide) (Or.inl (Nat.le_refl _)) (by decide) (by decide)
    (by decide) (by decide)
  unfold two_allocs
  rw [pmm_step_alloc_of _ _ _ a1]
  dsimp only
  rw [pmm_step_alloc_of _ _ _ b1]
  exact ⟨b2, rfl, rfl⟩

theorem climb_start_shape : climbed climb_start 0 512 513 513 :=
  (two_allocs_shape wide_init wide_init_shape).1

theorem climb_pair_shape (s : PmmState) (j : Nat)
    (h : climbed s 0 (512 + j) (513 + j) (513 + j)) (hj : j + 515 < 2097152) :
    climbed (pmm_step (pmm_free_page s ((512 + j) * PAGE_SIZE)) PmmOp.alloc).1 0
      (512 + (j + 1)) (513 + (j + 1)) (513 + (j + 1)) ∧
    (pmm_step (pmm_free_page s ((512 + j) * PAGE_SIZE)) PmmOp.alloc).2 =
      some (((514 + j) * PAGE_SIZE) % 4294967296) := by
  have hf := climbed_free s 0 (512 + j) (513 + j) (513 + j) h (by decide) (by omega)
    (by omega) (by omega)
  obtain ⟨a1, a2⟩ := climbed_alloc _ _ _ _ _ hf (by decide) (by decide)
    (Or.inr (by omega)) (by omega) (by omega) (by omega) (by omega)
  rw [pmm_step_alloc_of _ _ _ a1]
  have e1 : 512 + j + 1 = 512 + (j + 1) := by omega
  have e2 : 513 + j + 1 = 513 + (j + 1) := by omega
  have e3 : 513 + j + 1 = 514 + j := by omega
  refine ⟨?_, ?_⟩
  · rw [e1, e2] at a2
    exact a2
  · show some ((513 + j + 1) * PAGE_SIZE % 4294967296) = _
    rw [e3]

theorem climb_zero : climb 0 = climb_start := rfl

theorem climb_succ (j : Nat) : climb (j + 1) =
    (pmm_step (pmm_free_page (climb j) ((512 + j) * PAGE_SIZE)) PmmOp.alloc).1 := rfl

theorem climb_shape : ∀ j, j + 515 < 2097152 →
    climbed (climb j) 0 (512 + j) (513 + j) (513 + j) ∧
    climb_returned j = some (((514 + j) * PAGE_SIZE) % 4294967296) := by
  have hc : ∀ j, j + 515 < 2097152 → climbed (climb j) 0 (512 + j) (513 + j) (513 + j) := by
    intro j
    induction j with
    | zero =>
      intro _
      rw [climb_zero]
      exact climb_start_shape
    | succ j ih =>
      intro hj
      rw [climb_succ]
      exact (climb_pair_shape (climb j) j (ih (by omega)) (by omega)).1
  intro j hj
  refine ⟨hc j hj, ?_⟩
  unfold climb_returned
  exact (climb_pair_shape (climb j) j (hc j hj) hj).2

theorem climb_start_returned :
    (pmm_step wide_init PmmOp.alloc).2 = some 0x200000 ∧
    (pmm_step (pmm_step wide_init PmmOp.alloc).1 PmmOp.alloc).2 = some 0x201000 :=
  (two_allocs_shape wide_init wide_init_shape).2

theorem wrap_state_shape : climbed wrap_state 1 1048575 1048575 1048575 := by
  have hs : climbed (climb 1048062) 0 1048574 1048575 1048575 :=
    (climb_shape 1048062 (by decide)).1
  exact climbed_free (climb 1048062) 0 1048574 1048575 1048575 hs (by decide) (by decide)
    (by decide) (by decide)

theorem wrap_state_next_shape : climbed wrap_state_next 1 1048576 1048576 1048576 := by
  have hs : climbed (climb 1048063) 0 1048575 1048576 1048576 :=
    (climb_shape 1048063 (by decide)).1
  exact climbed_free (climb 1048063) 0 1048575 1048576 1048576 hs (by decide) (by decide)
    (by decide) (by decide)

theorem alloc_state_other (s : PmmState) (f q : Nat) (hq : q ≠ f) :
    pmm_test_bit (alloc_state s f).pmm_bitmap q = pmm_test_bit s.pmm_bitmap q :=
  test_set_other _ _ _ hq

theorem alloc_and_map_of (pm : PmmState) (pt : PtMem) (virt flags : Nat) (s1 : PmmState)
    (a : Nat) (h : pmm_alloc_page pm = Res.ok (s1, a)) (ha : a ≠ 0) :
    vmm_alloc_and_map_page ⟨pm, pt⟩ virt flags =
      Res.ok (⟨s1, (vmm_map_page pt virt a flags).1⟩, (vmm_map_page pt virt a flags).2) := by
  unfold vmm_alloc_and_map_page
  dsimp only
  rw [h]
  dsimp only
  rw [if_neg ha]

theorem climbed_bit (s : PmmState) (n lo hi c p : Nat) (h : climbed s n lo hi c) :
    pmm_test_bit s.pmm_bitmap p = decide (p < 512 ∨ (lo ≤ p ∧ p ≤ hi)) := by
  have h4 := h.2.2.2 p
  cases hb : pmm_test_bit s.pmm_bitmap p with
  | true =>
    symm
    exact decide_eq_true (h4.mp hb)
  | false =>
    symm
    apply decide_eq_false
    intro c
    rw [h4.mpr c] at hb
    exact Bool.noConfusion hb

/-- Claim C13, at the failing input: `pmm_init` on the map `wide_boot`
returns with 2097152 frames to scan.  After two allocations and 1048062 pairs
`pmm_free_page`, `pmm_alloc_page`, each freeing the address returned by the
allocation before the last one (the allocation of pair `j` returns
`(514 + j) * 4096`), and `pmm_free_page(0xFFFFE000)`, the free count is 1 and
the cursor 1048575.  The next `pmm_alloc_page` returns 0, yet it has set the
bit of frame 1048576, decremented the free count to 0 and moved the cursor to
1048576. -/
theorem alloc_returns_zero_after_allocating :
    outcome (pmm_init pmm_static_init wide_boot) = 0 ∧
    (pmm_step wide_init PmmOp.alloc).2 = some 0x200000 ∧
    (pmm_step (pmm_step wide_init PmmOp.alloc).1 PmmOp.alloc).2 = some 0x201000 ∧
    (∀ j, j < 1048062 → climb_returned j = some ((514 + j) * 4096)) ∧
    wrap_state.pmm_max_ram_page = 2097152 ∧
    wrap_state.pmm_free_pages = 1 ∧ wrap_state.pmm_last_alloc_index = 1048575 ∧
    pmm_test_bit wrap_state.pmm_bitmap 1048576 = false ∧
    ∃ s1, pmm_alloc_page wrap_state = Res.ok (s1, 0) ∧
      s1.pmm_free_pages = 0 ∧ s1.pmm_last_alloc_index = 1048576 ∧
      pmm_test_bit s1.pmm_bitmap 1048576 = true := by
  have hw := wrap_state_shape
  obtain ⟨a1, a2⟩ := climbed_alloc wrap_state 1 1048575 1048575 1048575 hw (by decide)
    (by decide) (Or.inr (by decide)) (by decide) (by decide) (by decide) (by decide)
  have hinit : outcome (pmm_init pmm_static_init wide_boot) = 0 := by
    rw [wide_init_ok]
    rfl
  refine ⟨hinit, climb_start_returned.1, climb_start_returned.2, ?_, hw.1, hw.2.1, hw.2.2.1,
    ?_, alloc_state wrap_state (1048575 + 1), a1, a2.2.1, a2.2.2.1, ?_⟩
  · intro j hj
    rw [(climb_shape j (by omega)).2]
    have hP : PAGE_SIZE = 4096 := rfl
    rw [hP, Nat.mod_eq_of_lt (by omega)]
  · rw [climbed_bit _ _ _ _ _ 1048576 hw]
    decide
  · rw [climbed_bit _ _ _ _ _ 1048576 a2]
    decide

/-- Claim C14, at the failing input: in the state reached from `pmm_init` on
`wide_boot` by two allocations, 1048063 pairs `pmm_free_page`,
`pmm_alloc_page` and `pmm_free_page(0xFFFFF000)`, `pmm_alloc_page` returns
`0x1000` after setting the bit of frame 1048577 and decrementing the free
count from 1 to 0; the following `pmm_free_page(0x1000)` changes nothing, so
neither the bitmap nor the free count is restored. -/
theorem wrapped_address_is_not_freed :
    wrap_state_next.pmm_free_pages = 1 ∧
    pmm_test_bit wrap_state_next.pmm_bitmap 1048577 = false ∧
    ∃ t1, pmm_alloc_page wrap_state_next = Res.ok (t1, 0x1000) ∧
      pmm_free_page t1 0x1000 = t1 ∧ t1.pmm_free_pages = 0 ∧
      pmm_test_bit t1.pmm_bitmap 1048577 = true := by
  have hw := wrap_state_next_shape
  obtain ⟨a1, a2⟩ := climbed_alloc wrap_state_next 1 1048576 1048576 1048576 hw (by decide)
    (by decide) (Or.inr (by decide)) (by decide) (by decide) (by decide) (by decide)
  refine ⟨hw.2.1, ?_, alloc_state wrap_state_next (1048576 + 1), a1, ?_, a2.2.1, ?_⟩
  · rw [climbed_bit _ _ _ _ _ 1048577 hw]
    decide
  · unfold pmm_free_page
    rw [if_neg (by decide)]
    dsimp only
    rw [if_pos (Or.inl (by decide))]
  · rw [climbed_bit _ _ _ _ _ 1048577 a2]
    decide

/-- Claim C22, at the failing input: in the same state, with every paging
entry present, `vmm_alloc_and_map_page(0xC0C80000, 3)` returns true; the
allocator has set the bit of frame 1048577, but the entry of `0xC0C80000`
holds frame number 1, a frame of the first 2 MiB that was marked used before
the call. -/
theorem mapped_frame_is_not_the_allocated_one :
    pmm_test_bit wrap_state_next.pmm_bitmap 1 = true ∧
    pmm_test_bit wrap_state_next.pmm_bitmap 1048577 = false ∧
    ∃ t1 pt1,
      vmm_alloc_and_map_page ⟨wrap_state_next, all_present⟩ 0xC0C80000 3 =
        Res.ok (⟨t1, pt1⟩, true) ∧
      (pt1 (pte_addr 0xC0C80000)).frame_addr = 1 ∧
      t1.pmm_free_pages + 1 = wrap_state_next.pmm_free_pages ∧
      pmm_test_bit t1.pmm_bitmap 1048577 = true ∧
      ∀ q, q ≠ 1048577 → pmm_test_bit t1.pmm_bitmap q = pmm_test_bit wrap_state_next.pmm_bitmap q := by
  have hw := wrap_state_next_shape
  obtain ⟨a1, a2⟩ := climbed_alloc wrap_state_next 1 1048576 1048576 1048576 hw (by decide)
    (by decide) (Or.inr (by decide)) (by decide) (by decide) (by decide) (by decide)
  have hmap : (vmm_map_page all_present 0xC0C80000 0x1000 3).2 = true := by decide
  refine ⟨?_, ?_, alloc_state wrap_state_next (1048576 + 1),
    (vmm_map_page all_present 0xC0C80000 0x1000 3).1, ?_, by decide, ?_, ?_, ?_⟩
  · rw [climbed_bit _ _ _ _ _ 1 hw]
    decide
  · rw [climbed_bit _ _ _ _ _ 1048577 hw]
    decide
  · have ea : (1048576 + 1) * PAGE_SIZE % 4294967296 = 0x1000 := by decide
    rw [ea] at a1
    have h := alloc_and_map_of wrap_state_next all_present 0xC0C80000 3 _ 0x1000 a1 (by decide)
    rw [hmap] at h
    exact h
  · rw [a2.2.1, hw.2.1]
  · rw [climbed_bit _ _ _ _ _ 1048577 a2]
    decide
  · intro q hq
    exact alloc_state_other wrap_state_next (1048576 + 1) q hq

/-! ## Further evaluations at concrete inputs -/

set_option maxRecDepth 100000 in
/-- Claim C23, at the failing input: after `pmm_init` on the map `high_boot`
and two calls of `pmm_alloc_page` the free counter is 0 although frames 514
and 515, below `max_ram_frame = 516`, are free.  For the faulting address
`0xC0C80123`, whose page table exists and whose page is not mapped, the
page-fault handler reaches the fatal halt. -/
theorem page_fault_halts_with_free_frames :
    (pmm_boot_run high_boot [PmmOp.alloc, PmmOp.alloc]).map
      (fun r => (r.1.pmm_free_pages, r.1.pmm_max_ram_page, pmm_test_bit r.1.pmm_bitmap 514,
        pmm_test_bit r.1.pmm_bitmap 515,
        outcome (vmm_page_fault_handler ⟨r.1, dir_only⟩ 0xC0C80123))) =
      some (0, 516, false, false, 1) ∧
    (dir_only (pde_addr 0xC0C80123)).present = 1 ∧
    (dir_only (pte_addr 0xC0C80123)).present = 0 ∧
    vmm_get_phys_addr dir_only 0xC0C80123 = 0 := by
  rw [boot_run_of _ _ _ high_boot_init]
  decide!

theorem heap_walk_past_end (m : Mem) (end_ addr : Nat) (h : end_ < addr) :
    ∀ fuel, heap_walk m end_ fuel addr = none := by
  intro fuel
  cases fuel with
  | zero => rfl
  | succ fuel => rw [heap_walk_succ, if_neg (by omega), if_pos h]

set_option maxRecDepth 100000 in
theorem wrapped_end_facts :
    outcome wrapped_end_run = 0 ∧
    (state_of wrapped_end_run).kheap.start_address = 0xC0C80000 ∧
    (state_of wrapped_end_run).kheap.end_address = 0xC0C7F000 ∧
    (state_of wrapped_end_run).kheap.index.size = 0 ∧
    returned (kheap_validate_print 1 (state_of wrapped_end_run) 0) = some 0 ∧
    (returned (andThen (init_kheap zero_mem zero_index) fun s0 =>
      andThen (kmalloc 10 s0 0xFFD7EFEF) fun r1 =>
      andThen (kmalloc 10 r1.1 0x27FFEF) fun r2 => Res.ok (r1.2, r2.2))) =
      some (0xC0C80009, 0xC09FF009) := by
  decide!

/-- Claim C32, at the failing input: `init_kheap`, `kmalloc(0xFFD7EFEF)` and
`kmalloc(0x27FFEF)` return the pointers `0xC0C80009` and `0xC09FF009` and
leave `end_address = 0xC0C7F000` below `start_address = 0xC0C80000` and the
index empty.  In this state `kheap_validate_print` passes and returns 0,
although no walk from `start_address` ends at `end_address`. -/
theorem validate_passes_without_walk :
    ∃ s, wrapped_end_run = Res.ok s ∧
      s.kheap.start_address = 0xC0C80000 ∧ s.kheap.end_address = 0xC0C7F000 ∧
      s.kheap.index.size = 0 ∧
      returned (kheap_validate_print 1 s 0) = some 0 ∧
      (∀ fuel, heap_walk s.mem s.kheap.end_address fuel s.kheap.start_address = none) ∧
      (returned (andThen (init_kheap zero_mem zero_index) fun s0 =>
        andThen (kmalloc 10 s0 0xFFD7EFEF) fun r1 =>
        andThen (kmalloc 10 r1.1 0x27FFEF) fun r2 => Res.ok (r1.2, r2.2))) =
        some (0xC0C80009, 0xC09FF009) := by
  obtain ⟨h1, h2, h3, h4, h5, h6⟩ := wrapped_end_facts
  refine ⟨state_of wrapped_end_run, ok_of_outcome _ h1, h2, h3, h4, h5, ?_, h6⟩
  apply heap_walk_past_end
  rw [h2, h3]
  decide

set_option maxRecDepth 100000 in
theorem three_holes_sizes :
    three_holes.kheap.index.size = 3 ∧
    header_size three_holes.mem (three_holes.kheap.index.array 0) = 100 ∧
    header_size three_holes.mem (three_holes.kheap.index.array 1) = 200 ∧
    header_size three_holes.mem (three_holes.kheap.index.array 2) = 3691 := by
  decide!

set_option maxRecDepth 100000 in
/-- Claim C27 on a heap with three holes of payload 100, 200 and 3691 (in this
order in the index) for a request of 150 bytes: the hole at position 1 is
chosen, not the first and not the largest. -/
theorem find_hole_best_fit_witness :
    find_hole 2 three_holes.mem three_holes.kheap 150 0 0 = some (1, 0x180099) ∧
    ((find_hole 2 three_holes.mem three_holes.kheap 150 0 0 = some (-1, 0) ∧
      ∀ k, k < three_holes.kheap.index.size →
        header_size three_holes.mem (three_holes.kheap.index.array k) < 150) ∨
    ∃ j, j < three_holes.kheap.index.size ∧
      find_hole 2 three_holes.mem three_holes.kheap 150 0 0 =
        some ((j : Int), (three_holes.kheap.index.array j + 9) % 4294967296) ∧
      header_size three_holes.mem (three_holes.kheap.index.array j) ≥ 150 ∧
      (∀ k, k < j → header_size three_holes.mem (three_holes.kheap.index.array k) < 150) ∧
      (∀ k, k < three_holes.kheap.index.size →
        header_size three_holes.mem (three_holes.kheap.index.array k) ≥ 150 →
        header_size three_holes.mem (three_holes.kheap.index.array j) ≤
          header_size three_holes.mem (three_holes.kheap.index.array k))) :=
  ⟨by decide!,
    find_hole_best_fit 2 three_holes.mem three_holes.kheap 150 0
      (fun i j hij hj => by
        obtain ⟨h3, s0, s1, s2⟩ := three_holes_sizes
        rw [h3] at hj
        have hj3 : j = 1 ∨ j = 2 := by omega
        rcases hj3 with hj1 | hj2
        · have hi0 : i = 0 := by omega
          rw [hj1, hi0, s0, s1]
          decide
        · have hi01 : i = 0 ∨ i = 1 := by omega
          rcases hi01 with hi0 | hi1
          · rw [hj2, hi0, s0, s2]
            decide
          · rw [hj2, hi1, s1, s2]
            decide)⟩

end KernelMM
